import Mathlib

/-!
# Verification of the `block_allocator` byte-range suballocator

This file gives a shallow embedding of the repository's C reference
implementation (`src/block_allocator.h`, the authority) and, where a claim
depends on it, of the Odin variant (`src/block_allocator.odin`), together
with theorems settling the frozen claims about the natural-language
specification.

Machine integers (`uint32_t`, `uint8_t`) are modelled as `Nat` with explicit
wrap-around (`% 2^32`) where the C arithmetic can overflow or underflow.
Arrays are modelled as total functions `Nat → _` updated pointwise; the C
code's out-of-bounds accesses (undefined behaviour) thus become reads of
arbitrary-but-fixed values, which no theorem below relies on.

`BLOCK_ALLOCATOR_MAX_ALLOCS` is `131072` in the C header (with the comment
"you can change this if you like") and an `init` parameter `max_allocs` in
the Odin file; the model carries it as a state field `max_allocs`.
-/

set_option maxRecDepth 100000

namespace BlockAllocator

/-- `BLOCK_ALLOCATOR_UNUSED`: sentinel denoting the ends of linked lists. -/
def UNUSED : Nat := 0xffffffff

/-- `BLOCK_ALLOCATOR_HEAD_BITS`: high bits marking a bin-list head. -/
def HEAD_BITS : Nat := 0xf0000000

/-- `BLOCK_ALLOCATOR_HEAD_MASK`: the complement mask, `~BLOCK_HEAD_BITS`. -/
def HEAD_MASK : Nat := 0x0fffffff

/-- `2^32`, the modulus of `uint32_t` arithmetic. -/
def U32 : Nat := 4294967296

/-- `uint32_t` addition: `(a + b) % 2^32`. -/
def add32 (a b : Nat) : Nat := (a + b) % U32

/-- `uint32_t` subtraction `a - b` for `b < 2^32`: wraps below zero. -/
def sub32 (a b : Nat) : Nat := (a + U32 - b % U32) % U32

/-- Count-trailing-zeros worker, structurally recursive on fuel. -/
def ctzAux : Nat → Nat → Nat
  | 0, _ => 0
  | fuel + 1, n => if n % 2 = 1 then 0 else ctzAux fuel (n / 2) + 1

/-- `__builtin_ctz` on a 32-bit value (the C code only calls it on
nonzero arguments). -/
def ctz32 (n : Nat) : Nat := ctzAux 32 n

/-- Bit length worker, structurally recursive on fuel. -/
def bitlenAux : Nat → Nat → Nat
  | 0, _ => 0
  | fuel + 1, n => if n = 0 then 0 else bitlenAux fuel (n / 2) + 1

/-- Number of bits needed to write `n` (0 for `n = 0`). -/
def bitlen (n : Nat) : Nat := bitlenAux 40 n

/-- `__builtin_clz` on a 32-bit value (the C code only calls it on
nonzero arguments; we extend it totally by `clz32 0 = 32`). -/
def clz32 (n : Nat) : Nat := 32 - bitlen n

/-- `block_allocator_block_t`: one block record, all fields `uint32_t`. -/
structure Block where
  offset : Nat
  size : Nat
  bin_prev : Nat
  bin_next : Nat
  mem_prev : Nat
  mem_next : Nat
  deriving DecidableEq, Repr

/-- `block_allocator_allocation_t`: an allocation receipt. -/
structure Allocation where
  offset : Nat
  size : Nat
  metadata : Nat
  deriving DecidableEq, Repr

/-- `block_allocator_t`: the allocator state.  The C arrays `bottom_bins`,
`bin_lists`, `blocks` and `free_blocks` are total functions; `max_allocs`
models `BLOCK_ALLOCATOR_MAX_ALLOCS` / `len(free_blocks)`. -/
structure State where
  top_bins : Nat
  bottom_bins : Nat → Nat
  bin_lists : Nat → Nat
  blocks : Nat → Block
  head_block : Nat
  free_blocks : Nat → Nat
  free_offset : Nat
  max_allocs : Nat

/-- Pointwise array update. -/
def upd {α : Type} (f : Nat → α) (i : Nat) (a : α) : Nat → α :=
  fun j => if j = i then a else f j

/-- `block_allocator_size_to_bin_index`: returns `(index, top, bottom)`. -/
def size_to_bin_index (size : Nat) : Nat × Nat × Nat :=
  let leading_zeros := clz32 size
  let top := if leading_zeros > 28 then 0 else 28 - leading_zeros
  let bottom := (size >>> top) &&& 0x7
  ((top <<< 3) ||| bottom, top, bottom)

/-- `block_allocator_is_used`: a block is used iff both bin links are
`UNUSED`. -/
def block_allocator_is_used (b : Block) : Bool :=
  (b.bin_next = UNUSED) && (b.bin_prev = UNUSED)

/-- The blocks-array writes performed by `block_allocator_insert`: store
the fresh record at the popped slot, then patch the old bin head and the
two spatial neighbours. -/
def insertBlocks (s : State) (offset size mem_prev mem_next : Nat) :
    Nat → Block :=
  let index := (size_to_bin_index size).1
  let block_index := s.free_blocks s.free_offset
  let head_block_index := s.bin_lists index
  let newBlock : Block :=
    ⟨offset, size, HEAD_BITS ||| index, head_block_index, mem_prev, mem_next⟩
  let blocks1 := upd s.blocks block_index newBlock
  let blocks2 := if head_block_index ≠ UNUSED
    then upd blocks1 head_block_index
      ({ blocks1 head_block_index with bin_prev := block_index })
    else blocks1
  let blocks3 := if mem_prev ≠ UNUSED
    then upd blocks2 mem_prev ({ blocks2 mem_prev with mem_next := block_index })
    else blocks2
  if mem_next ≠ UNUSED
    then upd blocks3 mem_next ({ blocks3 mem_next with mem_prev := block_index })
    else blocks3

/-- `block_allocator_insert`: create a free block covering
`[offset, offset+size)`, splice it into its bin list and the spatial chain.
Returns `none` for `BLOCK_ALLOCATOR_OUT_OF_MEMORY` (pool exhausted), in
which case the C function returns before mutating anything. -/
def block_allocator_insert (s : State) (offset size mem_prev mem_next : Nat) :
    Option State :=
  if s.free_offset = s.max_allocs then none else
  let r := size_to_bin_index size
  let index := r.1
  let top_index := r.2.1
  let bottom_index := r.2.2
  let tb := s.top_bins ||| (1 <<< top_index)
  let bb := upd s.bottom_bins top_index
    (s.bottom_bins top_index ||| (1 <<< bottom_index))
  let block_index := s.free_blocks s.free_offset
  let fo := add32 s.free_offset 1
  let bl := upd s.bin_lists index block_index
  let hb := if offset = 0 then block_index else s.head_block
  some { s with top_bins := tb, bottom_bins := bb,
                blocks := insertBlocks s offset size mem_prev mem_next,
                bin_lists := bl, head_block := hb, free_offset := fo }

/-- `block_allocator_remove`: unlink `block_index` from its bin list and
push its slot back on the free stack. -/
def block_allocator_remove (s : State) (block_index : Nat) : State :=
  let block := s.blocks block_index
  let fo := sub32 s.free_offset 1
  let s1 := { s with free_offset := fo,
                     free_blocks := upd s.free_blocks fo block_index }
  if block.bin_prev &&& HEAD_BITS = 0 then
    -- not the head of its bin list: bridge predecessor and successor
    let blocks1 := upd s1.blocks block.bin_prev
      ({ s1.blocks block.bin_prev with bin_next := block.bin_next })
    let blocks2 := if block.bin_next ≠ UNUSED
      then upd blocks1 block.bin_next
        ({ blocks1 block.bin_next with bin_prev := block.bin_prev })
      else blocks1
    { s1 with blocks := blocks2 }
  else
    let index := block.bin_prev &&& HEAD_MASK
    let top_index := index >>> 3
    let bottom_index := index &&& 0x7
    let s2 := { s1 with bin_lists := upd s1.bin_lists index block.bin_next }
    if block.bin_next ≠ UNUSED then
      let blocks3 := upd s2.blocks block.bin_next
        ({ s2.blocks block.bin_next with bin_prev := block.bin_prev })
      { s2 with blocks := blocks3 }
    else
      -- u8 truncation of `~(1 << bottom_index)`
      let bb := upd s2.bottom_bins top_index
        (s2.bottom_bins top_index &&& (255 - (1 <<< bottom_index)))
      let tb := if bb top_index = 0
        then s2.top_bins &&& (U32 - 1 - (1 <<< top_index))
        else s2.top_bins
      { s2 with bottom_bins := bb, top_bins := tb }

/-- `block_allocator_init`: fresh allocator over `size` bytes with a pool
of `max_allocs` block slots.  The C blocks array is `malloc`ed
uninitialised; the model fills it with a fixed arbitrary record that no
code path reads before writing. -/
def block_allocator_init (size max_allocs : Nat) : State :=
  let s0 : State :=
    { top_bins := 0, bottom_bins := fun _ => 0,
      bin_lists := fun _ => UNUSED,
      blocks := fun _ => ⟨0, 0, 0, 0, 0, 0⟩,
      head_block := 0, free_blocks := fun i => i,
      free_offset := 0, max_allocs := max_allocs }
  match block_allocator_insert s0 0 size UNUSED UNUSED with
  | some s1 => s1
  | none => s0

/-- The pop step of `block_allocator_alloc`: remove the head block of bin
`(top_index <<< 3) ||| bottom_index` from its bin list (updating the
bitmaps if the list empties) and mark it used. -/
def popBin (s : State) (top_index bottom_index : Nat) : State :=
  let index := (top_index <<< 3) ||| bottom_index
  let block_index := s.bin_lists index
  let blk := s.blocks block_index
  let s1 := { s with bin_lists := upd s.bin_lists index blk.bin_next }
  let s2 := if blk.bin_next ≠ UNUSED
    then
      let blocksA := upd s1.blocks blk.bin_next
        ({ s1.blocks blk.bin_next with bin_prev := HEAD_BITS ||| index })
      { s1 with blocks := blocksA }
    else
      -- u8 truncation of `~(1 << bottom_index)`
      let bb := upd s1.bottom_bins top_index
        (s1.bottom_bins top_index &&& (255 - (1 <<< bottom_index)))
      let tb := if bb top_index = 0
        then s1.top_bins &&& (U32 - 1 - (1 <<< top_index))
        else s1.top_bins
      { s1 with bottom_bins := bb, top_bins := tb }
  let blocksB := upd s2.blocks block_index
    ({ s2.blocks block_index with bin_prev := UNUSED, bin_next := UNUSED })
  { s2 with blocks := blocksB }

/-- The tail of `block_allocator_alloc` once the bin search has fixed
`top_index` and `bottom_index`: pop the head of that bin, split off any
remainder, and return the allocation.  Returns the (possibly mutated)
state and `none` on `OUT_OF_MEMORY`. -/
def alloc_found (s : State) (size top_index bottom_index : Nat) :
    State × Option Allocation :=
  let index := (top_index <<< 3) ||| bottom_index
  let block_index := s.bin_lists index
  let s3 := popBin s top_index bottom_index
  let cur := s3.blocks block_index
  let remaining := sub32 cur.size size
  if remaining > 0 then
    match block_allocator_insert s3 (add32 cur.offset size) remaining
        block_index cur.mem_next with
    | none => (s3, none)
    | some s4 =>
      let blocksC := upd s4.blocks block_index
        ({ s4.blocks block_index with size := size })
      let s5 := { s4 with blocks := blocksC }
      (s5, some ⟨(s5.blocks block_index).offset, size, block_index⟩)
  else
    let blocksC := upd s3.blocks block_index
      ({ s3.blocks block_index with size := size })
    let s5 := { s3 with blocks := blocksC }
    (s5, some ⟨(s5.blocks block_index).offset, size, block_index⟩)

/-- `block_allocator_alloc`: allocate `size` bytes.  Returns the resulting
state and `some` allocation, or `none` for `OUT_OF_MEMORY`.  Note the C
function can return an error after having mutated the allocator (when the
remainder split exhausts the pool). -/
def block_allocator_alloc (s : State) (size : Nat) : State × Option Allocation :=
  if size = 0 then (s, none) else
  let r := size_to_bin_index size
  let top_index := r.2.1
  let bottom_index := r.2.2
  -- u8 truncation of `~((1 << (bottom_index + 1)) - 1)`
  let bigger_bottoms := if bottom_index = 7 then 0
    else s.bottom_bins top_index &&& (256 - (1 <<< (bottom_index + 1)))
  if bigger_bottoms ≠ 0 then
    alloc_found s size top_index (ctz32 bigger_bottoms)
  else
    if top_index = 31 then (s, none) else
    let bigger_tops := s.top_bins &&& (U32 - (1 <<< (top_index + 1)))
    if bigger_tops = 0 then (s, none) else
    let t := ctz32 bigger_tops
    alloc_found s size t (ctz32 (s.bottom_bins t))

/-- `block_allocator_free`: return an allocation to the allocator,
coalescing with free spatial neighbours.  The C function is `void`; the
result of the final insert is ignored (on pool exhaustion the insert does
not mutate and the state so far is kept). -/
def block_allocator_free (s : State) (a : Allocation) : State :=
  if a.size = 0 then s else
  let block0 := s.blocks a.metadata
  let fo := sub32 s.free_offset 1
  let s1 := { s with free_offset := fo,
                     free_blocks := upd s.free_blocks fo a.metadata }
  let absorbPrev : Prop := block0.mem_prev ≠ UNUSED ∧
    ¬ block_allocator_is_used (s1.blocks block0.mem_prev)
  let step2 : State × Block :=
    if absorbPrev then
      let prev_block := s1.blocks block0.mem_prev
      (block_allocator_remove s1 block0.mem_prev,
       { block0 with offset := prev_block.offset,
                     size := add32 block0.size prev_block.size,
                     mem_prev := prev_block.mem_prev })
    else (s1, block0)
  let s2 := step2.1
  let block1 := step2.2
  let absorbNext : Prop := block0.mem_next ≠ UNUSED ∧
    ¬ block_allocator_is_used (s2.blocks block0.mem_next)
  let step3 : State × Block :=
    if absorbNext then
      let next_block := s2.blocks block0.mem_next
      (block_allocator_remove s2 block0.mem_next,
       { block1 with size := add32 block1.size next_block.size,
                     mem_next := next_block.mem_next })
    else (s2, block1)
  let s3 := step3.1
  let block2 := step3.2
  match block_allocator_insert s3 block2.offset block2.size
      block2.mem_prev block2.mem_next with
  | some s4 => s4
  | none => s3

/-! ### Derived observation functions -/

/-- Walk the spatial chain via `mem_next` from block `i`, collecting the
block records (fuel-bounded; the C tests walk the same way via
`block_allocator_head` / `block_allocator_next`). -/
def chainAux (s : State) : Nat → Nat → List Block
  | 0, _ => []
  | fuel + 1, i =>
    s.blocks i ::
      (if (s.blocks i).mem_next = UNUSED then []
       else chainAux s fuel ((s.blocks i).mem_next))

/-- The spatial chain of the allocator, starting at `head_block`. -/
def spatialChain (s : State) (fuel : Nat) : List Block :=
  chainAux s fuel s.head_block

/-! ### The Odin variant (`src/block_allocator.odin`)

The Odin implementation differs from the C one in two observable ways:
`insert_block` sets the bin bitmap bits *before* the pool-exhaustion
check, and `block_alloc` guards against popping a block smaller than the
request.  Only the parts needed by the claims are modelled. -/

/-- Odin `insert_block`: note the bitmap bits are set before the
`free_offset == len(free_blocks)` check, so a failed insert leaves them
set.  Returns the (possibly mutated) state and the `ok` flag. -/
def insert_block_odin (s : State) (offset size mem_prev mem_next : Nat) :
    State × Bool :=
  let r := size_to_bin_index size
  let index := r.1
  let top_index := r.2.1
  let bottom_index := r.2.2
  let s1 := { s with
    top_bins := s.top_bins ||| (1 <<< top_index),
    bottom_bins := upd s.bottom_bins top_index
      (s.bottom_bins top_index ||| (1 <<< bottom_index)) }
  if s1.free_offset = s1.max_allocs then (s1, false) else
  let block_index := s1.free_blocks s1.free_offset
  let fo := add32 s1.free_offset 1
  let head_block_index := s1.bin_lists index
  let newBlock : Block :=
    ⟨offset, size, HEAD_BITS ||| index, head_block_index, mem_prev, mem_next⟩
  let blocks1 := upd s1.blocks block_index newBlock
  let blocks2 := if head_block_index ≠ UNUSED
    then upd blocks1 head_block_index
      ({ blocks1 head_block_index with bin_prev := block_index })
    else blocks1
  let blocks3 := if mem_prev ≠ UNUSED
    then upd blocks2 mem_prev ({ blocks2 mem_prev with mem_next := block_index })
    else blocks2
  let blocks4 := if mem_next ≠ UNUSED
    then upd blocks3 mem_next ({ blocks3 mem_next with mem_prev := block_index })
    else blocks3
  let bl := upd s1.bin_lists index block_index
  let hb := if offset = 0 then block_index else s1.head_block
  ({ s1 with blocks := blocks4, bin_lists := bl, head_block := hb,
             free_offset := fo }, true)

/-- Odin `block_allocator_init`. -/
def block_allocator_init_odin (size max_allocs : Nat) : State :=
  let s0 : State :=
    { top_bins := 0, bottom_bins := fun _ => 0,
      bin_lists := fun _ => UNUSED,
      blocks := fun _ => ⟨0, 0, 0, 0, 0, 0⟩,
      head_block := 0, free_blocks := fun i => i,
      free_offset := 0, max_allocs := max_allocs }
  (insert_block_odin s0 0 size UNUSED UNUSED).1

/-- The tail of Odin `block_alloc` after the bin search: unlike the C
version it refuses to pop a block smaller than the request.  Returns
`(state, allocation, ok)`; note that on the exact-fit path (`remaining_size
== 0`) the Odin named return `ok` is never assigned and stays `false`. -/
def alloc_found_odin (s : State) (size top_index bottom_index : Nat) :
    State × Allocation × Bool :=
  let index := (top_index <<< 3) ||| bottom_index
  let block_index := s.bin_lists index
  let blk := s.blocks block_index
  if blk.size < size then (s, ⟨0, 0, 0⟩, false) else
  let s1 := { s with bin_lists := upd s.bin_lists index blk.bin_next }
  let s2 := if blk.bin_next ≠ UNUSED
    then
      let blocksA := upd s1.blocks blk.bin_next
        ({ s1.blocks blk.bin_next with bin_prev := HEAD_BITS ||| index })
      { s1 with blocks := blocksA }
    else
      let bb := upd s1.bottom_bins top_index
        (s1.bottom_bins top_index &&& (255 - (1 <<< bottom_index)))
      let tb := if bb top_index = 0
        then s1.top_bins &&& (U32 - 1 - (1 <<< top_index))
        else s1.top_bins
      { s1 with bottom_bins := bb, top_bins := tb }
  let blocksB := upd s2.blocks block_index
    ({ s2.blocks block_index with bin_prev := UNUSED, bin_next := UNUSED })
  let s3 := { s2 with blocks := blocksB }
  let cur := s3.blocks block_index
  let remaining := sub32 cur.size size
  if remaining > 0 then
    let ins := insert_block_odin s3 (add32 cur.offset size) remaining
      block_index cur.mem_next
    if ins.2 = false then (ins.1, ⟨0, 0, 0⟩, false)
    else
      let s4 := ins.1
      let blocksC := upd s4.blocks block_index
        ({ s4.blocks block_index with size := size })
      let s5 := { s4 with blocks := blocksC }
      (s5, ⟨(s5.blocks block_index).offset, size, block_index⟩, true)
  else
    let blocksC := upd s3.blocks block_index
      ({ s3.blocks block_index with size := size })
    let s5 := { s3 with blocks := blocksC }
    (s5, ⟨(s5.blocks block_index).offset, size, block_index⟩, false)

/-- Odin `block_alloc`.  The bottom mask `~((1 << (bottom_index+1)) - 1)`
is computed in `u8` arithmetic (for `bottom_index = 7` the shift wraps to
0 and the mask is 0, matching the C code's explicit special case). -/
def block_alloc_odin (s : State) (size : Nat) : State × Allocation × Bool :=
  let r := size_to_bin_index size
  let top_index := r.2.1
  let bottom_index := r.2.2
  let m1 := (1 <<< (bottom_index + 1)) % 256
  let m2 := (m1 + 255) % 256
  let bigger_bottoms := s.bottom_bins top_index &&& (255 - m2)
  if bigger_bottoms ≠ 0 then
    alloc_found_odin s size top_index (ctz32 bigger_bottoms)
  else
    let bigger_tops := s.top_bins &&& (U32 - (1 <<< (top_index + 1)))
    if bigger_tops = 0 then (s, ⟨0, 0, 0⟩, false) else
    let t := ctz32 bigger_tops
    alloc_found_odin s size t (ctz32 (s.bottom_bins t))

/-- Consistency of the two-level bin bitmaps with the bin lists (the
spec's invariant 4, plus the `u32`/`u8` range facts that hold of the C
fields by typing): bit `t` of `top_bins` is set iff `bottom_bins[t] ≠ 0`,
and bit `b` of `bottom_bins[t]` is set iff `bin_lists[8t+b] ≠ UNUSED`. -/
def bitmapsConsistent (s : State) : Prop :=
  s.top_bins < 2 ^ 32 ∧
  (∀ t, t < 32 → s.bottom_bins t < 256) ∧
  (∀ t, t < 32 → (s.top_bins.testBit t ↔ s.bottom_bins t ≠ 0)) ∧
  (∀ t, t < 32 → ∀ b, b < 8 →
    ((s.bottom_bins t).testBit b ↔ s.bin_lists (8 * t + b) ≠ UNUSED))

instance bitmapsConsistentDecidable (s : State) :
    Decidable (bitmapsConsistent s) := by
  unfold bitmapsConsistent
  infer_instance

/-! ### Concrete trace states used by the counterexample theorems -/

/-- Fresh C allocator over 11 bytes (pool 131072, the C macro's value). -/
def exS1 : State := block_allocator_init 11 131072

/-- After a successful `alloc 9`: a used block `[0,9)` and a free block
`[9,11)` of size 2 sitting in bin 2. -/
def exS2 : State := (block_allocator_alloc exS1 9).1

/-- After a second `alloc 9`, which pops the size-2 block of bin 2 and
wraps the remainder computation. -/
def exS3 : State := (block_allocator_alloc exS2 9).1

/-- Fresh C allocator over 10 bytes with a pool of only 2 block slots
(`BLOCK_ALLOCATOR_MAX_ALLOCS` is a configurable macro in the C header and
an `init` parameter in the Odin file). -/
def exT1 : State := block_allocator_init 10 2

/-- After a successful `alloc 1`, which splits: both pool slots are in
use, so the next splitting `alloc` must fail. -/
def exT2 : State := (block_allocator_alloc exT1 1).1

/-- Fresh allocator over `0xFFFF_FFFF` bytes (the C macro's pool size). -/
def sBig : State := block_allocator_init 0xffffffff 131072

/-- Continuation of the `exS3` trace: a successful `alloc 1879048178`
carves the wrapped free block, leaving a free block of size 2415919111
at offset 1879048196 (head_block still 0). -/
def exW2 : State := (block_allocator_alloc exS3 1879048178).1

/-- The alloc/free round trip on `exW2`: `alloc 2415919100` succeeds and
its remainder split lands on wrapped offset `0`, hijacking `head_block`;
the immediate `free` of the returned allocation does not restore it. -/
def exW4 : State :=
  block_allocator_free (block_allocator_alloc exW2 2415919100).1
    ⟨1879048196, 2415919100, 3⟩

/-- Odin trace: fresh allocator over 10 bytes, pool of 2 slots. -/
def oS1 : State := block_allocator_init_odin 10 2

/-- Odin trace: after a successful `block_alloc 1` (splits, filling the
pool). -/
def oS2 : State := (block_alloc_odin oS1 1).1

/-- Odin trace: after the failed `block_alloc 8` whose remainder split
exhausts the pool after setting bitmap bits. -/
def oS3 : State := (block_alloc_odin oS2 8).1

/-! ### Reachability and the data-structure invariant -/

/-- A block index is live: it is a pool slot that is not sitting on the
free stack. -/
def LiveIdx (s : State) (i : Nat) : Prop :=
  i < s.max_allocs ∧
    ∀ j, s.free_offset ≤ j → j < s.max_allocs → s.free_blocks j ≠ i

/-- Consecutive spatial-chain wiring: `p`'s `mem_next` points at `q` and
`q`'s `mem_prev` points back at `p`. -/
def memLink (s : State) (p q : Nat) : Prop :=
  (s.blocks p).mem_next = q ∧ (s.blocks q).mem_prev = p

/-- Consecutive bin-list wiring: `p`'s `bin_next` points at `q` and `q`'s
`bin_prev` points back at `p`. -/
def binLink (s : State) (p q : Nat) : Prop :=
  (s.blocks p).bin_next = q ∧ (s.blocks q).bin_prev = p

/-- Two spatially adjacent blocks are not both free. -/
def notBothFree (s : State) (p q : Nat) : Prop :=
  block_allocator_is_used (s.blocks p) = true ∨
    block_allocator_is_used (s.blocks q) = true

/-- The C7 property, stated over the allocator state alone: every live
free block's spatial neighbours are used blocks or the chain boundary. -/
def noAdjacentFree (s : State) : Prop :=
  ∀ i, LiveIdx s i → block_allocator_is_used (s.blocks i) = false →
    ((s.blocks i).mem_prev = UNUSED ∨
      block_allocator_is_used (s.blocks (s.blocks i).mem_prev) = true) ∧
    ((s.blocks i).mem_next = UNUSED ∨
      block_allocator_is_used (s.blocks (s.blocks i).mem_next) = true)

/-- Prepend `n` to bin `b` of a bin-lists witness. -/
def binsCons (F : Nat → List Nat) (b n : Nat) : Nat → List Nat :=
  fun c => if c = b then n :: F c else F c

/-- Drop the head of bin `b` of a bin-lists witness. -/
def binsTail (F : Nat → List Nat) (b : Nat) : Nat → List Nat :=
  fun c => if c = b then (F c).tail else F c

/-- Erase member `x` from bin `b` of a bin-lists witness. -/
def binsErase (F : Nat → List Nat) (b x : Nat) : Nat → List Nat :=
  fun c => if c = b then (F c).erase x else F c

/-- The bin-lists half of the data-structure invariant, shared by the
intermediate states of `free` (where the free stack and the spatial chain
witness are temporarily out of step). -/
structure BinsOk (s : State) (F : Nat → List Nat) : Prop where
  sub28 : ∀ c, c < 256 → ∀ i ∈ F c, i < 2 ^ 28
  nodup : ∀ c, c < 256 → (F c).Nodup
  disj : ∀ c c', c < 256 → c' < 256 → c ≠ c' → ∀ i ∈ F c, i ∉ F c'
  head : ∀ c, c < 256 → s.bin_lists c = (F c).headD UNUSED
  hprev : ∀ c, c < 256 → ∀ h ∈ (F c).head?,
    (s.blocks h).bin_prev = HEAD_BITS ||| c
  wire : ∀ c, c < 256 → List.Chain' (binLink s) (F c)
  last : ∀ c, c < 256 → ∀ t ∈ (F c).getLast?,
    (s.blocks t).bin_next = UNUSED
  bm : bitmapsConsistent s

/-- States reachable from `init` by successful `alloc` calls and `free`
calls on outstanding allocations, tracking the outstanding handles.
`max_allocs` is bounded by `2^28` so that pool indices stay clear of the
`HEAD_BITS` encoding (the C macro's value is 131072). -/
inductive Reachable : State → List Allocation → Prop
  | init (total maxA : Nat) (h1 : 1 ≤ total) (h2 : total < U32)
      (h3 : 0 < maxA) (h4 : maxA ≤ 2 ^ 28) :
      Reachable (block_allocator_init total maxA) []
  | alloc (s : State) (hs : List Allocation) (size : Nat) (a : Allocation)
      (hr : Reachable s hs)
      (hsucc : (block_allocator_alloc s size).2 = some a) :
      Reachable (block_allocator_alloc s size).1 (a :: hs)
  | free (s : State) (hs : List Allocation) (a : Allocation)
      (hr : Reachable s hs) (hmem : a ∈ hs) :
      Reachable (block_allocator_free s a) (hs.erase a)

/-- The full data-structure invariant, witnessed by the spatial chain `C`
(all live block indices in address-chain order) and the bin lists `F`
(for each bin, its member indices in list order). -/
structure InvW (s : State) (hs : List Allocation) (C : List Nat)
    (F : Nat → List Nat) : Prop where
  fo_le : s.free_offset ≤ s.max_allocs
  maxA_le : s.max_allocs ≤ 2 ^ 28
  c_nodup : C.Nodup
  c_lt : ∀ i ∈ C, i < s.max_allocs
  c_len : C.length = s.free_offset
  stack_fresh : ∀ j, s.free_offset ≤ j → j < s.max_allocs →
    s.free_blocks j < s.max_allocs ∧ s.free_blocks j ∉ C
  stack_inj : ∀ j k, s.free_offset ≤ j → j < k → k < s.max_allocs →
    s.free_blocks j ≠ s.free_blocks k
  stack_complete : ∀ i, i < s.max_allocs → i ∉ C →
    ∃ j, s.free_offset ≤ j ∧ j < s.max_allocs ∧ s.free_blocks j = i
  mem_wire : List.Chain' (memLink s) C
  mem_head : ∀ h ∈ C.head?, (s.blocks h).mem_prev = UNUSED
  mem_last : ∀ t ∈ C.getLast?, (s.blocks t).mem_next = UNUSED
  adj : List.Chain' (notBothFree s) C
  f_sub : ∀ b, b < 256 → ∀ i ∈ F b, i ∈ C
  f_nodup : ∀ b, b < 256 → (F b).Nodup
  f_disj : ∀ b b', b < 256 → b' < 256 → b ≠ b' → ∀ i ∈ F b, i ∉ F b'
  f_head : ∀ b, b < 256 → s.bin_lists b = (F b).headD UNUSED
  f_hprev : ∀ b, b < 256 → ∀ h ∈ (F b).head?,
    (s.blocks h).bin_prev = HEAD_BITS ||| b
  f_wire : ∀ b, b < 256 → List.Chain' (binLink s) (F b)
  f_last : ∀ b, b < 256 → ∀ t ∈ (F b).getLast?,
    (s.blocks t).bin_next = UNUSED
  free_in_bin : ∀ i ∈ C, block_allocator_is_used (s.blocks i) = true ∨
    ∃ b, b < 256 ∧ i ∈ F b
  bm : bitmapsConsistent s
  h_val : ∀ a ∈ hs, a.metadata ∈ C ∧
    block_allocator_is_used (s.blocks a.metadata) = true ∧ a.size ≠ 0
  h_nodup : (hs.map Allocation.metadata).Nodup

/-- The invariant proper: some chain and bin-list witnesses exist. -/
def Inv (s : State) (hs : List Allocation) : Prop :=
  ∃ C F, InvW s hs C F

/-! ## Theorems -/

/-- Array update at the written index. -/
theorem upd_same {α : Type} (f : Nat → α) (i : Nat) (a : α) : upd f i a i = a := by
  simp [upd]

/-- Array update at another index. -/
theorem upd_ne {α : Type} (f : Nat → α) (i j : Nat) (a : α) (h : j ≠ i) :
    upd f i a j = f j := by
  simp [upd, h]

/-- C10: calling `block_allocator_free` with an allocation record whose
`size` field is 0 returns immediately and leaves the entire allocator
state unchanged. -/
theorem c10_free_zero_size_noop (s : State) (a : Allocation) (h : a.size = 0) :
    block_allocator_free s a = s := by
  unfold block_allocator_free
  rw [if_pos h]

/-- C10 witness: the zero-size sentinel free is a no-op on a concrete
state. -/
theorem c10_free_zero_size_noop_witness :
    block_allocator_free exS1 ⟨5, 0, 3⟩ = exS1 :=
  c10_free_zero_size_noop exS1 ⟨5, 0, 3⟩ rfl

/-- C5 counterexample: after `init` with size `0xFFFF_FFFF`, the single
block does not sit on bin 255 with `top = 31`: `size_to_bin_index` maps
`0xFFFF_FFFF` to bin 231 (top 28, bottom 7), bin 255's list is empty and
bit 31 of `top_bins` is clear. -/
theorem c5_not_bin_255 :
    size_to_bin_index 0xffffffff = (231, 28, 7) ∧
    sBig.bin_lists 255 = UNUSED ∧
    Nat.testBit sBig.top_bins 31 = false := by decide

/-- C5 (amended): after `init` with size `0xFFFF_FFFF` the allocator holds
exactly one block, with offset 0, size `0xFFFF_FFFF`,
`mem_prev = mem_next = UNUSED`, sitting on bin 231 (top 28, bottom 7),
and `top_bins` / `bottom_bins` mark exactly that bin as non-empty. -/
theorem c5_init_max_size_state :
    sBig.blocks 0 =
      ⟨0, 0xffffffff, HEAD_BITS ||| 231, UNUSED, UNUSED, UNUSED⟩ ∧
    sBig.bin_lists 231 = 0 ∧
    (∀ bin, bin < 256 → bin ≠ 231 → sBig.bin_lists bin = UNUSED) ∧
    sBig.top_bins = 1 <<< 28 ∧
    sBig.bottom_bins 28 = 1 <<< 7 ∧
    (∀ t, t < 32 → t ≠ 28 → sBig.bottom_bins t = 0) ∧
    sBig.head_block = 0 ∧ sBig.free_offset = 1 := by decide

/-- C2: the C `block_allocator_alloc` can pop a block smaller than the
request.  In the reachable state after `init 11` and a successful
`alloc 9` (leaving a free size-2 block as the head of bin 2), a second
`alloc 9` maps to bin 1, finds candidate bin 2, pops its head of size
2 < 9, and `remaining = old_size - size` wraps to `2^32 - 7`; the call
even reports success. -/
theorem c2_popped_block_smaller_than_request :
    (block_allocator_alloc exS1 9).2 = some ⟨0, 9, 0⟩ ∧
    exS2.bin_lists 2 = 1 ∧
    (exS2.blocks 1).size = 2 ∧
    (block_allocator_alloc exS2 9).2 = some ⟨9, 9, 1⟩ ∧
    sub32 (exS2.blocks 1).size 9 = 4294967289 ∧
    (exS3.blocks 2).size = 4294967289 := by decide

/-- C6: after the successful calls `init 11`, `alloc 9`, `alloc 9` (the
second one popping an undersized block), the spatial chain's sizes are
`[9, 9, 2^32-7]`, whose sum is not the total size 11: the chain no longer
partitions `[0, 11)`. -/
theorem c6_coverage_broken :
    (block_allocator_alloc exS1 9).2.isSome = true ∧
    (block_allocator_alloc exS2 9).2.isSome = true ∧
    (spatialChain exS3 10).map Block.size = [9, 9, 4294967289] ∧
    ((spatialChain exS3 10).map Block.size).sum ≠ 11 := by decide

/-- C4: a failed `alloc` can leave the allocator mutated.  With a pool of
2 slots, after `init 10` and a successful splitting `alloc 1`, the call
`alloc 8` needs to split off a remainder, finds the pool exhausted and
returns OUT_OF_MEMORY — but it has already detached the free block from
bin 1 and cleared that bin's bitmap bit, so the post-call state differs
from the pre-call state (the block is leaked). -/
theorem c4_failed_alloc_mutates_state :
    (block_allocator_alloc exT1 1).2 = some ⟨0, 1, 0⟩ ∧
    (block_allocator_alloc exT2 8).2 = none ∧
    exT2.bin_lists 1 = 1 ∧
    (block_allocator_alloc exT2 8).1.bin_lists 1 = UNUSED ∧
    exT2.bottom_bins 0 = 2 ∧
    (block_allocator_alloc exT2 8).1.bottom_bins 0 = 0 := by decide

/-- C8: in the Odin implementation a failed `block_alloc` leaves the
bitmaps inconsistent with the bin lists: `insert_block` sets the bitmap
bits before the pool-exhaustion check, so after `init(10, max_allocs=2)`,
a successful `block_alloc 1` and a failed `block_alloc 8`, bit 1 of
`bottom_bins[0]` is set although `bin_lists[1]` is `UNUSED`. -/
theorem c8_bitmap_inconsistent_after_failed_alloc :
    (block_alloc_odin oS1 1).2.2 = true ∧
    (block_alloc_odin oS2 8).2.2 = false ∧
    Nat.testBit (oS3.bottom_bins 0) 1 = true ∧
    oS3.bin_lists 1 = UNUSED := by decide

/-- C1 counterexample: on a fresh allocator over 11 bytes, the
immediately following `alloc 11` does not succeed: it returns
OUT_OF_MEMORY, because the bin search only considers bins strictly above
the bin the request maps to, and the sole free block sits in exactly that
bin. -/
theorem c1_fresh_alloc_total_fails_concrete :
    (block_allocator_alloc (block_allocator_init 11 131072) 11).2 = none := by
  decide

/-- The top index computed by `size_to_bin_index` never exceeds 28. -/
theorem top_le_28 (size : Nat) : (size_to_bin_index size).2.1 ≤ 28 := by
  simp only [size_to_bin_index]
  split <;> omega

/-- The bottom index computed by `size_to_bin_index` is below 8. -/
theorem bottom_lt_8 (size : Nat) : (size_to_bin_index size).2.2 < 8 := by
  have h : (size_to_bin_index size).2.2 ≤ 7 := by
    simp only [size_to_bin_index]
    exact Nat.and_le_right
  omega

/-- Bit `i` of the mask `2^k - 2^j` (for `j ≤ k`) is set iff `j ≤ i < k`. -/
theorem testBit_two_pow_sub_two_pow (j k i : Nat) (hjk : j ≤ k) :
    (2 ^ k - 2 ^ j).testBit i = (decide (j ≤ i) && decide (i < k)) := by
  have hm : 2 ^ k - 2 ^ j = (2 ^ (k - j) - 1) <<< j := by
    rw [Nat.shiftLeft_eq, Nat.sub_mul, Nat.one_mul, ← Nat.pow_add]
    congr 2
    omega
  rw [hm, Nat.testBit_shiftLeft, Nat.testBit_two_pow_sub_one]
  rcases Nat.lt_or_ge i j with h | h
  · have h1 : ¬ (i ≥ j) := by omega
    have h2 : ¬ (j ≤ i) := by omega
    simp [h1, h2]
  · have h1 : i ≥ j := h
    have h2 : j ≤ i := h
    have h3 : (i - j < k - j) = (i < k) := by
      apply propext
      constructor <;> intro <;> omega
    simp [h1, h2, h3]

/-- A lone bit `b` is disjoint from the mask holding bits `b+1 .. k-1`
(the code's `~((1 << (b+1)) - 1)` truncated to `k` bits). -/
theorem two_pow_and_above_zero (b k : Nat) (h : b + 1 ≤ k) :
    (1 <<< b) &&& (2 ^ k - (1 <<< (b + 1))) = 0 := by
  rw [Nat.one_shiftLeft, Nat.one_shiftLeft]
  apply Nat.eq_of_testBit_eq
  intro i
  rw [Nat.testBit_and, Nat.testBit_two_pow,
    testBit_two_pow_sub_two_pow _ _ _ h, Nat.zero_testBit]
  rcases eq_or_ne b i with rfl | hne
  · have hb : ¬ (b + 1 ≤ b) := by omega
    simp [hb]
  · simp [hne]

/-- `add32 0 1 = 1`. -/
theorem add32_zero_one : add32 0 1 = 1 := by decide

/-- Characterization of the state built by `block_allocator_init` when
the pool has at least one slot. -/
theorem init_state_eq (total maxA : Nat) (h : 0 < maxA) :
    block_allocator_init total maxA =
      { top_bins := 1 <<< (size_to_bin_index total).2.1,
        bottom_bins := upd (fun _ => 0) (size_to_bin_index total).2.1
          (1 <<< (size_to_bin_index total).2.2),
        bin_lists := upd (fun _ => UNUSED) (size_to_bin_index total).1 0,
        blocks := upd (fun _ => ⟨0, 0, 0, 0, 0, 0⟩) 0
          ⟨0, total, HEAD_BITS ||| (size_to_bin_index total).1,
           UNUSED, UNUSED, UNUSED⟩,
        head_block := 0, free_blocks := fun i => i,
        free_offset := 1, max_allocs := maxA } := by
  have h0 : (0 : Nat) ≠ maxA := by omega
  simp only [block_allocator_init, block_allocator_insert, insertBlocks,
    add32_zero_one]
  simp [h0, UNUSED]

/-- C1 (amended): for every fresh allocator produced by
`init(total_size)` with `total_size` in `[1, 2^32-1]` (and a non-empty
block pool), the immediately following call `alloc(total_size)` fails
with OUT_OF_MEMORY and leaves the allocator state unchanged: the bin
search only considers bins strictly above the bin the request maps to,
and the sole free block sits in exactly that bin. -/
theorem c1_fresh_alloc_total_fails (total maxA : Nat) (h1 : 1 ≤ total)
    (h3 : 0 < maxA) :
    block_allocator_alloc (block_allocator_init total maxA) total =
      (block_allocator_init total maxA, none) := by
  have hbin := init_state_eq total maxA h3
  have htop : (size_to_bin_index total).2.1 ≤ 28 := top_le_28 total
  have hbot : (size_to_bin_index total).2.2 < 8 := bottom_lt_8 total
  have hsz : ¬ (total = 0) := by omega
  rw [hbin]
  unfold block_allocator_alloc
  rw [if_neg hsz]
  simp only [upd_same]
  have hbb : (if (size_to_bin_index total).2.2 = 7 then 0
      else (1 <<< (size_to_bin_index total).2.2) &&&
        (256 - (1 <<< ((size_to_bin_index total).2.2 + 1)))) = 0 := by
    split
    · rfl
    · have h8 : (256 : Nat) = 2 ^ 8 := by norm_num
      rw [h8]
      exact two_pow_and_above_zero _ 8 (by omega)
  rw [hbb]
  have h31 : ¬ ((size_to_bin_index total).2.1 = 31) := by omega
  have hbt : (1 <<< (size_to_bin_index total).2.1) &&&
      (U32 - (1 <<< ((size_to_bin_index total).2.1 + 1))) = 0 := by
    have h32 : (U32 : Nat) = 2 ^ 32 := by norm_num [U32]
    rw [h32]
    exact two_pow_and_above_zero _ 32 (by omega)
  simp only [ne_eq, not_true_eq_false, if_false, h31, hbt, if_true,
    reduceIte]

/-- C1 witness: the amended statement at the concrete input
`total = 11`, pool 131072. -/
theorem c1_fresh_alloc_total_fails_witness :
    block_allocator_alloc (block_allocator_init 11 131072) 11 =
      (block_allocator_init 11 131072, none) :=
  c1_fresh_alloc_total_fails 11 131072 (by decide) (by decide)

/-- A nonzero natural has a set bit. -/
theorem exists_testBit_of_ne_zero {n : Nat} (h : n ≠ 0) :
    ∃ i, n.testBit i = true := by
  by_contra hc
  push_neg at hc
  apply h
  apply Nat.eq_of_testBit_eq
  intro i
  rw [Nat.zero_testBit]
  cases hb : n.testBit i with
  | false => rfl
  | true => exact absurd hb (hc i)

/-- A natural with a set bit is nonzero. -/
theorem ne_zero_of_testBit {n i : Nat} (h : n.testBit i = true) : n ≠ 0 := by
  intro h0
  subst h0
  rw [Nat.zero_testBit] at h
  exact Bool.false_ne_true h

/-- `(t <<< 3) ||| b = 8t + b` when `b < 8`. -/
theorem shiftLeft3_or_eq (t b : Nat) (h : b < 8) :
    (t <<< 3) ||| b = 8 * t + b := by
  have h23 : (2 : Nat) ^ 3 = 8 := by norm_num
  have h8 : b < 2 ^ 3 := by omega
  rw [Nat.shiftLeft_eq, Nat.mul_comm t (2 ^ 3), ← Nat.mul_add_lt_is_or h8,
    h23]

/-- The bin index returned by `size_to_bin_index` decomposes as
`8 * top + bottom`. -/
theorem bin_index_eq (size : Nat) :
    (size_to_bin_index size).1 =
      8 * (size_to_bin_index size).2.1 + (size_to_bin_index size).2.2 := by
  have h := bottom_lt_8 size
  simp only [size_to_bin_index] at h ⊢
  exact shiftLeft3_or_eq _ _ h

/-- `block_allocator_insert` succeeds whenever the pool is not full. -/
theorem insert_ne_none (s : State) (o sz mp mn : Nat)
    (h : s.free_offset ≠ s.max_allocs) :
    block_allocator_insert s o sz mp mn ≠ none := by
  unfold block_allocator_insert
  rw [if_neg h]
  simp

/-- `popBin` does not change the free stack pointer. -/
theorem popBin_free_offset (s : State) (t b : Nat) :
    (popBin s t b).free_offset = s.free_offset := by
  unfold popBin
  dsimp only
  split <;> rfl

/-- `popBin` does not change the pool capacity. -/
theorem popBin_max_allocs (s : State) (t b : Nat) :
    (popBin s t b).max_allocs = s.max_allocs := by
  unfold popBin
  dsimp only
  split <;> rfl

/-- Once the bin search has picked a bin, `block_allocator_alloc`
returns an allocation provided the pool is not full. -/
theorem alloc_found_ne_none (s : State) (size t b : Nat)
    (hpool : s.free_offset ≠ s.max_allocs) :
    (alloc_found s size t b).2 ≠ none := by
  have h3 : (popBin s t b).free_offset ≠ (popBin s t b).max_allocs := by
    rw [popBin_free_offset, popBin_max_allocs]
    exact hpool
  unfold alloc_found
  dsimp only
  split
  · split
    · next heq => exact absurd heq (insert_ne_none _ _ _ _ _ h3)
    · simp
  · simp

/-- C3 (amended): assuming the bin bitmaps are consistent with the bin
lists and the block pool is not saturated, `alloc(size)` fails with
OUT_OF_MEMORY if and only if `size` is zero or no free block exists in
any bin *strictly greater* than the bin that `size` maps to; in all
other cases it succeeds. -/
theorem c3_alloc_fail_iff (s : State) (size : Nat)
    (hcons : bitmapsConsistent s)
    (hpool : s.free_offset ≠ s.max_allocs) :
    ((block_allocator_alloc s size).2 = none ↔
      size = 0 ∨
      ∀ j, j < 256 → (size_to_bin_index size).1 < j →
        s.bin_lists j = UNUSED) := by
  obtain ⟨htb32, hb256, htcons, hbcons⟩ := hcons
  by_cases hsz : size = 0
  · subst hsz
    unfold block_allocator_alloc
    simp
  · have htle := top_le_28 size
    have hblt := bottom_lt_8 size
    have hbix := bin_index_eq size
    have hmask8 : ∀ i, (256 - (1 <<< ((size_to_bin_index size).2.2 + 1))
        : Nat).testBit i =
        (decide ((size_to_bin_index size).2.2 + 1 ≤ i) && decide (i < 8)) := by
      intro i
      have h256 : (256 : Nat) = 2 ^ 8 := by norm_num
      rw [h256, Nat.one_shiftLeft]
      exact testBit_two_pow_sub_two_pow _ _ _ (by omega)
    have hmask32 : ∀ i, (U32 - (1 <<< ((size_to_bin_index size).2.1 + 1))
        : Nat).testBit i =
        (decide ((size_to_bin_index size).2.1 + 1 ≤ i) && decide (i < 32)) := by
      intro i
      have hU : (U32 : Nat) = 2 ^ 32 := by norm_num [U32]
      rw [hU, Nat.one_shiftLeft]
      exact testBit_two_pow_sub_two_pow _ _ _ (by omega)
    unfold block_allocator_alloc
    rw [if_neg hsz, hbix]
    dsimp only
    by_cases hc : (if (size_to_bin_index size).2.2 = 7 then (0 : Nat)
        else s.bottom_bins (size_to_bin_index size).2.1 &&&
          (256 - (1 <<< ((size_to_bin_index size).2.2 + 1)))) = 0
    · rw [if_neg (fun hne => hne hc)]
      rw [if_neg (show ¬ (size_to_bin_index size).2.1 = 31 by omega)]
      by_cases htz : (s.top_bins &&&
          (U32 - (1 <<< ((size_to_bin_index size).2.1 + 1)))) = 0
      · rw [if_pos htz]
        have hall : ∀ j, j < 256 →
            8 * (size_to_bin_index size).2.1 + (size_to_bin_index size).2.2
              < j → s.bin_lists j = UNUSED := by
          intro j hj256 hjgt
          have hdec : j = 8 * (j / 8) + j % 8 := by omega
          have hj8 : j % 8 < 8 := by omega
          have hjt : j / 8 < 32 := by omega
          rcases Nat.lt_or_ge (size_to_bin_index size).2.1 (j / 8) with
            hcase | hcase
          · -- a strictly larger top bin
            by_contra hne
            have hbit : (s.bottom_bins (j / 8)).testBit (j % 8) = true := by
              refine (hbcons (j / 8) hjt (j % 8) hj8).mpr ?_
              rw [← hdec]
              exact hne
            have hbbne : s.bottom_bins (j / 8) ≠ 0 := ne_zero_of_testBit hbit
            have htbit : s.top_bins.testBit (j / 8) = true :=
              (htcons (j / 8) hjt).mpr hbbne
            have hand : (s.top_bins &&&
                (U32 - (1 <<< ((size_to_bin_index size).2.1 + 1)))).testBit
                  (j / 8) = true := by
              rw [Nat.testBit_and, hmask32, htbit]
              simp only [Bool.true_and, Bool.and_eq_true, decide_eq_true_eq]
              omega
            rw [htz, Nat.zero_testBit] at hand
            exact Bool.false_ne_true hand
          · -- same top bin, strictly larger bottom bin
            have hteq : j / 8 = (size_to_bin_index size).2.1 := by omega
            have hbgt : (size_to_bin_index size).2.2 < j % 8 := by omega
            by_contra hne
            have hbit : (s.bottom_bins (size_to_bin_index size).2.1).testBit
                (j % 8) = true := by
              refine (hbcons _ (by omega) (j % 8) hj8).mpr ?_
              rw [← hteq, ← hdec]
              exact hne
            have hb07 : ¬ ((size_to_bin_index size).2.2 = 7) := by omega
            rw [if_neg hb07] at hc
            have hand : (s.bottom_bins (size_to_bin_index size).2.1 &&&
                (256 - (1 <<< ((size_to_bin_index size).2.2 + 1)))).testBit
                  (j % 8) = true := by
              rw [Nat.testBit_and, hmask8, hbit]
              simp only [Bool.true_and, Bool.and_eq_true, decide_eq_true_eq]
              omega
            rw [hc, Nat.zero_testBit] at hand
            exact Bool.false_ne_true hand
        exact ⟨fun _ => Or.inr hall, fun _ => rfl⟩
      · rw [if_neg htz]
        have hex : ¬ (∀ j, j < 256 →
            8 * (size_to_bin_index size).2.1 + (size_to_bin_index size).2.2
              < j → s.bin_lists j = UNUSED) := by
          intro hall
          obtain ⟨i, hi⟩ := exists_testBit_of_ne_zero htz
          rw [Nat.testBit_and, hmask32] at hi
          simp only [Bool.and_eq_true, decide_eq_true_eq] at hi
          obtain ⟨hitop, hige, hilt⟩ := hi
          have hbbne : s.bottom_bins i ≠ 0 := (htcons i hilt).mp hitop
          obtain ⟨q, hq⟩ := exists_testBit_of_ne_zero hbbne
          have hq8 : q < 8 := by
            by_contra hq8
            have hlt : s.bottom_bins i < 2 ^ q := by
              have h1 : s.bottom_bins i < 256 := hb256 i hilt
              have h3 : (2 : Nat) ^ 8 ≤ 2 ^ q :=
                Nat.pow_le_pow_right (by omega) (by omega)
              have h2 : (256 : Nat) = 2 ^ 8 := by norm_num
              omega
            rw [Nat.testBit_lt_two_pow hlt] at hq
            exact Bool.false_ne_true hq
          have hne2 : s.bin_lists (8 * i + q) ≠ UNUSED :=
            (hbcons i hilt q hq8).mp hq
          exact hne2 (hall (8 * i + q) (by omega) (by omega))
        refine ⟨fun h => absurd h (alloc_found_ne_none _ _ _ _ hpool), ?_⟩
        rintro (h | h)
        · exact absurd h hsz
        · exact absurd h hex
    · rw [if_pos hc]
      have hex : ¬ (∀ j, j < 256 →
          8 * (size_to_bin_index size).2.1 + (size_to_bin_index size).2.2
            < j → s.bin_lists j = UNUSED) := by
        intro hall
        have hb07 : ¬ ((size_to_bin_index size).2.2 = 7) := by
          intro h7
          apply hc
          rw [if_pos h7]
        rw [if_neg hb07] at hc
        obtain ⟨i, hi⟩ := exists_testBit_of_ne_zero hc
        rw [Nat.testBit_and, hmask8] at hi
        simp only [Bool.and_eq_true, decide_eq_true_eq] at hi
        obtain ⟨hib, hige, hilt⟩ := hi
        have hne2 : s.bin_lists (8 * (size_to_bin_index size).2.1 + i)
            ≠ UNUSED := (hbcons _ (by omega) i hilt).mp hib
        exact hne2 (hall _ (by omega) (by omega))
      refine ⟨fun h => absurd h (alloc_found_ne_none _ _ _ _ hpool), ?_⟩
      rintro (h | h)
      · exact absurd h hsz
      · exact absurd h hex

/-- C3 counterexample: on the fresh allocator over 8 bytes, a free block
exists in a bin `≥` the bin that `size = 8` maps to (bin 0 itself holds
the size-8 block) and `size ≠ 0`, yet `alloc 8` fails with
OUT_OF_MEMORY — the search only accepts bins *strictly greater* than the
request's bin. -/
theorem c3_bin_geq_yet_alloc_fails :
    (block_allocator_alloc (block_allocator_init 8 131072) 8).2 = none ∧
    (size_to_bin_index 8).1 = 0 ∧
    (block_allocator_init 8 131072).bin_lists 0 ≠ UNUSED ∧
    (8 : Nat) ≠ 0 := by decide

/-- `ctzAux` finds the least set bit when the fuel covers the value. -/
theorem ctzAux_spec : ∀ fuel n : Nat, 0 < n → n < 2 ^ fuel →
    n.testBit (ctzAux fuel n) = true ∧
      ∀ j, j < ctzAux fuel n → n.testBit j = false := by
  intro fuel
  induction fuel with
  | zero =>
    intro n h1 h2
    simp only [pow_zero] at h2
    omega
  | succ f ih =>
    intro n h1 h2
    unfold ctzAux
    by_cases hodd : n % 2 = 1
    · rw [if_pos hodd]
      refine ⟨?_, ?_⟩
      · rw [Nat.testBit_zero]
        simp [hodd]
      · intro j hj
        omega
    · rw [if_neg hodd]
      have hpos : 0 < n / 2 := by omega
      have hlt : n / 2 < 2 ^ f := by
        have hp : 2 ^ (f + 1) = 2 ^ f * 2 := by rw [pow_succ]
        omega
      obtain ⟨ha, hb⟩ := ih (n / 2) hpos hlt
      refine ⟨?_, ?_⟩
      · rw [Nat.testBit_add_one]
        exact ha
      · intro j hj
        cases j with
        | zero =>
          rw [Nat.testBit_zero]
          simp [hodd]
        | succ k =>
          rw [Nat.testBit_add_one]
          exact hb k (by omega)

/-- `ctz32` finds the least set bit of a nonzero 32-bit value. -/
theorem ctz32_spec {n : Nat} (h1 : 0 < n) (h2 : n < 2 ^ 32) :
    n.testBit (ctz32 n) = true ∧ ∀ j, j < ctz32 n → n.testBit j = false :=
  ctzAux_spec 32 n h1 h2

/-- The least set bit of `n < 2^k` is below `k`. -/
theorem ctz32_lt {n k : Nat} (h1 : 0 < n) (h2 : n < 2 ^ k) (hk : k ≤ 32) :
    ctz32 n < k := by
  have h2' : n < 2 ^ 32 :=
    lt_of_lt_of_le h2 (Nat.pow_le_pow_right (by omega) hk)
  have hbit := (ctz32_spec h1 h2').1
  have hge := Nat.testBit_implies_ge hbit
  by_contra hc
  push_neg at hc
  have hmono : 2 ^ k ≤ 2 ^ ctz32 n := Nat.pow_le_pow_right (by omega) hc
  omega

/-- A `HEAD_BITS`-tagged value is the plain sum for small payloads. -/
theorem head_or_eq_add {b : Nat} (h : b < 2 ^ 28) :
    HEAD_BITS ||| b = HEAD_BITS + b := by
  have h1 : (HEAD_BITS : Nat) = 2 ^ 28 * 15 := by norm_num [HEAD_BITS]
  rw [h1, ← Nat.mul_add_lt_is_or h 15]

/-- A `HEAD_BITS`-tagged bin index is distinct from `UNUSED`. -/
theorem head_or_ne_unused {b : Nat} (h : b < 256) :
    HEAD_BITS ||| b ≠ UNUSED := by
  rw [head_or_eq_add (by omega)]
  simp only [HEAD_BITS, UNUSED]
  omega

/-- Extracting the bin index back out of a `HEAD_BITS`-tagged value. -/
theorem head_or_and_mask {b : Nat} (h : b < 256) :
    (HEAD_BITS ||| b) &&& HEAD_MASK = b := by
  apply Nat.eq_of_testBit_eq
  intro i
  rw [Nat.testBit_and, Nat.testBit_or]
  have hm : (HEAD_MASK : Nat) = 2 ^ 28 - 1 := by norm_num [HEAD_MASK]
  have hh : (HEAD_BITS : Nat) = 2 ^ 32 - 2 ^ 28 := by norm_num [HEAD_BITS]
  rw [hm, hh, Nat.testBit_two_pow_sub_one,
    testBit_two_pow_sub_two_pow 28 32 i (by omega)]
  by_cases hi : i < 28
  · simp [hi, show ¬ (28 ≤ i) by omega]
  · have hbi : b.testBit i = false := by
      apply Nat.testBit_lt_two_pow
      have : (2 : Nat) ^ 8 ≤ 2 ^ i := Nat.pow_le_pow_right (by omega) (by omega)
      have h8 : (2 : Nat) ^ 8 = 256 := by norm_num
      omega
    simp [hi, hbi]

/-- A `HEAD_BITS`-tagged value is detected by the head test. -/
theorem head_or_and_bits_ne {b : Nat} : (HEAD_BITS ||| b) &&& HEAD_BITS ≠ 0 := by
  apply ne_zero_of_testBit (i := 28)
  rw [Nat.testBit_and, Nat.testBit_or]
  have hh : (HEAD_BITS : Nat) = 2 ^ 32 - 2 ^ 28 := by norm_num [HEAD_BITS]
  rw [hh, testBit_two_pow_sub_two_pow 28 32 28 (by omega)]
  simp

/-- A pool index (below `2^28`) is not detected by the head test. -/
theorem lt_head_bits_and {i : Nat} (h : i < 2 ^ 28) : i &&& HEAD_BITS = 0 := by
  apply Nat.eq_of_testBit_eq
  intro k
  rw [Nat.testBit_and, Nat.zero_testBit]
  have hh : (HEAD_BITS : Nat) = 2 ^ 32 - 2 ^ 28 := by norm_num [HEAD_BITS]
  rw [hh, testBit_two_pow_sub_two_pow 28 32 k (by omega)]
  by_cases hk : k < 28
  · simp [show ¬ (28 ≤ k) by omega]
  · have hik : i.testBit k = false := by
      apply Nat.testBit_lt_two_pow
      exact lt_of_lt_of_le h (Nat.pow_le_pow_right (by omega) (by omega))
    simp [hik]

/-- A pool index (below `2^28`) is distinct from `UNUSED`. -/
theorem lt_ne_unused {i : Nat} (h : i < 2 ^ 28) : i ≠ UNUSED := by
  simp only [UNUSED]
  have h28 : (2 : Nat) ^ 28 = 268435456 := by norm_num
  omega

/-- Setting one bit, bitwise view. -/
theorem testBit_or_two_pow (x b i : Nat) :
    (x ||| (1 <<< b)).testBit i = (x.testBit i || decide (b = i)) := by
  rw [Nat.testBit_or, Nat.one_shiftLeft, Nat.testBit_two_pow]

/-- Clearing one bit out of a width-`k` all-ones mask, bitwise view. -/
theorem testBit_allones_sub_two_pow {k b : Nat} (hb : b < k) (i : Nat) :
    (2 ^ k - 1 - (1 <<< b)).testBit i =
      (decide (i < k) && !decide (i = b)) := by
  rw [Nat.one_shiftLeft]
  have e1 : 2 ^ (b + 1) * 2 ^ (k - b - 1) = 2 ^ k := by
    rw [← pow_add]
    congr 1
    omega
  have e2 : 2 ^ (b + 1) * (2 ^ (k - b - 1) - 1) = 2 ^ k - 2 ^ (b + 1) := by
    rw [Nat.mul_sub_one, e1]
  have hble : (2 : Nat) ^ b ≤ 2 ^ (b + 1) := Nat.pow_le_pow_right (by omega) (by omega)
  have hblt : (2 : Nat) ^ b - 1 < 2 ^ (b + 1) := by
    have : (0 : Nat) < 2 ^ b := Nat.two_pow_pos b
    omega
  have hbk : (2 : Nat) ^ (b + 1) ≤ 2 ^ k := Nat.pow_le_pow_right (by omega) (by omega)
  have hdecomp : 2 ^ k - 1 - 2 ^ b =
      2 ^ (b + 1) * (2 ^ (k - b - 1) - 1) + (2 ^ b - 1) := by
    rw [e2]
    have h1 : (0 : Nat) < 2 ^ b := Nat.two_pow_pos b
    have h2 : (2 : Nat) ^ (b + 1) = 2 ^ b * 2 := by rw [pow_succ]
    omega
  rw [hdecomp, Nat.mul_add_lt_is_or hblt, Nat.testBit_or,
    Nat.testBit_two_pow_sub_one]
  have hm : (2 : Nat) ^ (b + 1) * (2 ^ (k - b - 1) - 1) = 2 ^ k - 2 ^ (b + 1) := e2
  rw [hm, testBit_two_pow_sub_two_pow (b + 1) k i (by omega)]
  by_cases h1 : i < b
  · simp [h1, show ¬ (b + 1 ≤ i) by omega, show i < k by omega,
      show ¬ (i = b) by omega]
  · by_cases h2 : i = b
    · simp [h2, show ¬ (b + 1 ≤ b) by omega, show ¬ (b < b) by omega]
    · by_cases h3 : i < k
      · simp [h3, show b + 1 ≤ i by omega, h2]
      · simp [h3, show ¬ (b < i → b < k) → True by omega, show ¬ (i < b) by omega, h2]

/-- `add32` is plain addition below the word size. -/
theorem add32_eq {a b : Nat} (h : a + b < U32) : add32 a b = a + b := by
  simp only [add32]
  exact Nat.mod_eq_of_lt h

/-- `sub32` is plain subtraction of 1 for positive 32-bit values. -/
theorem sub32_one_eq {a : Nat} (h1 : 1 ≤ a) (h2 : a < U32) :
    sub32 a 1 = a - 1 := by
  have h2' : a < 4294967296 := by simpa [U32] using h2
  simp only [sub32, U32]
  have h3 : (1 : Nat) % 4294967296 = 1 := by norm_num
  rw [h3]
  have h4 : a + 4294967296 - 1 = (a - 1) + 4294967296 := by omega
  rw [h4, Nat.add_mod_right]
  exact Nat.mod_eq_of_lt (by omega)

/-- Bitmap consistency is preserved by marking bin `8t+b` resident with a
non-`UNUSED` head (the bit-setting halves of `insert`). -/
theorem bm_mark (s s' : State) (t b n : Nat) (hbm : bitmapsConsistent s)
    (ht : t < 32) (hb : b < 8) (hn : n ≠ UNUSED)
    (h1 : s'.top_bins = s.top_bins ||| (1 <<< t))
    (h2 : s'.bottom_bins =
      upd s.bottom_bins t (s.bottom_bins t ||| (1 <<< b)))
    (h3 : s'.bin_lists = upd s.bin_lists (8 * t + b) n) :
    bitmapsConsistent s' := by
  obtain ⟨htb32, hb256, htcons, hbcons⟩ := hbm
  have h2pow8 : (256 : Nat) = 2 ^ 8 := by norm_num
  refine ⟨?_, ?_, ?_, ?_⟩
  · rw [h1]
    apply Nat.or_lt_two_pow htb32
    rw [Nat.one_shiftLeft]
    exact Nat.pow_lt_pow_right (by omega) ht
  · intro t' ht'
    rw [h2]
    by_cases he : t' = t
    · subst he
      rw [upd_same]
      rw [h2pow8] at hb256 ⊢
      apply Nat.or_lt_two_pow (hb256 t' ht')
      rw [Nat.one_shiftLeft]
      exact Nat.pow_lt_pow_right (by omega) hb
    · rw [upd_ne _ _ _ _ he]
      exact hb256 t' ht'
  · intro t' ht'
    rw [h1, h2, testBit_or_two_pow]
    by_cases he : t' = t
    · subst he
      rw [upd_same]
      constructor
      · intro _
        apply ne_zero_of_testBit (i := b)
        rw [testBit_or_two_pow]
        simp
      · intro _
        simp
    · rw [upd_ne _ _ _ _ he]
      have hne : ¬ (t = t') := fun hc => he hc.symm
      simp only [hne, decide_False, Bool.or_false]
      exact htcons t' ht'
  · intro t' ht' b' hb'
    rw [h2, h3]
    by_cases he : t' = t
    · subst he
      rw [upd_same, testBit_or_two_pow]
      by_cases hbe : b' = b
      · subst hbe
        rw [upd_same]
        simp [hn]
      · rw [upd_ne _ _ _ _ (by omega)]
        have hne : ¬ (b = b') := fun hc => hbe hc.symm
        simp only [hne, decide_False, Bool.or_false]
        exact hbcons t' ht' b' hb'
    · rw [upd_ne _ _ _ _ he, upd_ne _ _ _ _ (by omega)]
      exact hbcons t' ht' b' hb'

/-- Bitmap consistency is preserved by marking bin `8t+b` empty (the
bit-clearing halves of the pop in `alloc` and of `remove`). -/
theorem bm_clear (s s' : State) (t b : Nat) (hbm : bitmapsConsistent s)
    (ht : t < 32) (hb : b < 8)
    (h1 : s'.top_bins = if s.bottom_bins t &&& (255 - (1 <<< b)) = 0
      then s.top_bins &&& (U32 - 1 - (1 <<< t)) else s.top_bins)
    (h2 : s'.bottom_bins =
      upd s.bottom_bins t (s.bottom_bins t &&& (255 - (1 <<< b))))
    (h3 : s'.bin_lists = upd s.bin_lists (8 * t + b) UNUSED) :
    bitmapsConsistent s' := by
  obtain ⟨htb32, hb256, htcons, hbcons⟩ := hbm
  have h255 : (255 : Nat) = 2 ^ 8 - 1 := by norm_num
  have hU : (U32 : Nat) = 2 ^ 32 := by norm_num [U32]
  have hvbit : ∀ i, (s.bottom_bins t &&& (255 - (1 <<< b))).testBit i =
      ((s.bottom_bins t).testBit i && (decide (i < 8) && !decide (i = b))) := by
    intro i
    rw [Nat.testBit_and, h255, testBit_allones_sub_two_pow hb]
  refine ⟨?_, ?_, ?_, ?_⟩
  · rw [h1]
    split
    · exact lt_of_le_of_lt Nat.and_le_left htb32
    · exact htb32
  · intro t' ht'
    rw [h2]
    by_cases he : t' = t
    · subst he
      rw [upd_same]
      exact lt_of_le_of_lt Nat.and_le_left (hb256 t' ht')
    · rw [upd_ne _ _ _ _ he]
      exact hb256 t' ht'
  · intro t' ht'
    rw [h1, h2]
    by_cases he : t' = t
    · subst he
      rw [upd_same]
      split
      · next hv =>
        rw [Nat.testBit_and, hU, testBit_allones_sub_two_pow (by omega : t' < 32)]
        simp [hv]
      · next hv =>
        have hold : s.bottom_bins t' ≠ 0 := by
          intro hc
          apply hv
          rw [hc]
          simp [Nat.zero_and]
        simp only [(htcons t' ht').mpr hold, true_iff]
        exact fun hc => absurd hc (by intro h0; exact hv h0)
    · rw [upd_ne _ _ _ _ he]
      split
      · rw [Nat.testBit_and, hU, testBit_allones_sub_two_pow (by omega : t < 32)]
        have hne : ¬ (t' = t) := he
        simp only [ht', decide_True, hne, decide_False, Bool.not_false,
          Bool.and_true, Bool.true_and]
        exact htcons t' ht'
      · exact htcons t' ht'
  · intro t' ht' b' hb'
    rw [h2, h3]
    by_cases he : t' = t
    · subst he
      rw [upd_same, hvbit]
      by_cases hbe : b' = b
      · subst hbe
        rw [upd_same]
        simp
      · rw [upd_ne _ _ _ _ (by omega)]
        simp only [hb', decide_True, hbe, decide_False, Bool.not_false,
          Bool.and_true, Bool.true_and]
        exact hbcons t' ht' b' hb'
    · rw [upd_ne _ _ _ _ he, upd_ne _ _ _ _ (by omega)]
      exact hbcons t' ht' b' hb'

/-- Looking up outside a conditional write. -/
theorem upd_ite_lookup {α : Type} (c : Prop) [Decidable c] (f : Nat → α)
    (i : Nat) (a : α) (j : Nat) (h : j ≠ i) :
    (if c then upd f i a else f) j = f j := by
  split
  · exact upd_ne f i j a h
  · rfl

/-- Elimination for a successful `insert`: the pool was not full and the
result state is the explicit record. -/
theorem insert_elim {s s' : State} {o sz mp mn : Nat}
    (h : block_allocator_insert s o sz mp mn = some s') :
    s.free_offset ≠ s.max_allocs ∧
    s' = { s with
      top_bins := s.top_bins ||| (1 <<< (size_to_bin_index sz).2.1),
      bottom_bins := upd s.bottom_bins (size_to_bin_index sz).2.1
        (s.bottom_bins (size_to_bin_index sz).2.1 |||
          (1 <<< (size_to_bin_index sz).2.2)),
      blocks := insertBlocks s o sz mp mn,
      bin_lists := upd s.bin_lists (size_to_bin_index sz).1
        (s.free_blocks s.free_offset),
      head_block := if o = 0 then s.free_blocks s.free_offset
        else s.head_block,
      free_offset := add32 s.free_offset 1 } := by
  unfold block_allocator_insert at h
  split at h
  · exact absurd h (by simp)
  · next hne =>
    refine ⟨hne, ?_⟩
    injection h with h'
    exact h'.symm

/-- `insertBlocks` at the fresh slot. -/
theorem insertBlocks_at_fresh (s : State) (o sz mp mn : Nat)
    (h1 : s.bin_lists (size_to_bin_index sz).1 ≠ s.free_blocks s.free_offset)
    (h2 : mp ≠ s.free_blocks s.free_offset)
    (h3 : mn ≠ s.free_blocks s.free_offset) :
    insertBlocks s o sz mp mn (s.free_blocks s.free_offset) =
      ⟨o, sz, HEAD_BITS ||| (size_to_bin_index sz).1,
       s.bin_lists (size_to_bin_index sz).1, mp, mn⟩ := by
  unfold insertBlocks
  dsimp only
  rw [upd_ite_lookup _ _ _ _ _ (Ne.symm h3), upd_ite_lookup _ _ _ _ _ (Ne.symm h2),
    upd_ite_lookup _ _ _ _ _ (Ne.symm h1), upd_same]

/-- `insertBlocks` away from all four written slots. -/
theorem insertBlocks_at_other (s : State) (o sz mp mn i : Nat)
    (h0 : i ≠ s.free_blocks s.free_offset)
    (h1 : i ≠ s.bin_lists (size_to_bin_index sz).1)
    (h2 : i ≠ mp) (h3 : i ≠ mn) :
    insertBlocks s o sz mp mn i = s.blocks i := by
  unfold insertBlocks
  dsimp only
  rw [upd_ite_lookup _ _ _ _ _ h3, upd_ite_lookup _ _ _ _ _ h2,
    upd_ite_lookup _ _ _ _ _ h1, upd_ne _ _ _ _ h0]

/-- `insertBlocks` at the old bin head: only `bin_prev` is repointed. -/
theorem insertBlocks_at_head (s : State) (o sz mp mn : Nat)
    (hbne : s.bin_lists (size_to_bin_index sz).1 ≠ UNUSED)
    (h1 : s.bin_lists (size_to_bin_index sz).1 ≠ s.free_blocks s.free_offset)
    (h2 : s.bin_lists (size_to_bin_index sz).1 ≠ mp)
    (h3 : s.bin_lists (size_to_bin_index sz).1 ≠ mn) :
    insertBlocks s o sz mp mn (s.bin_lists (size_to_bin_index sz).1) =
      { s.blocks (s.bin_lists (size_to_bin_index sz).1) with
        bin_prev := s.free_blocks s.free_offset } := by
  unfold insertBlocks
  dsimp only
  rw [upd_ite_lookup _ _ _ _ _ h3, upd_ite_lookup _ _ _ _ _ h2,
    if_pos hbne, upd_same, upd_ne _ _ _ _ h1]

/-- `insertBlocks` at the spatial predecessor: only `mem_next` moves. -/
theorem insertBlocks_at_mp (s : State) (o sz mp mn : Nat)
    (hne : mp ≠ UNUSED) (h1 : mp ≠ s.free_blocks s.free_offset)
    (h2 : mp ≠ s.bin_lists (size_to_bin_index sz).1) (h3 : mp ≠ mn) :
    insertBlocks s o sz mp mn mp =
      { s.blocks mp with mem_next := s.free_blocks s.free_offset } := by
  unfold insertBlocks
  dsimp only
  rw [upd_ite_lookup _ _ _ _ _ h3, if_pos hne, upd_same,
    upd_ite_lookup _ _ _ _ _ h2, upd_ne _ _ _ _ h1]

/-- `insertBlocks` at the spatial successor: only `mem_prev` moves. -/
theorem insertBlocks_at_mn (s : State) (o sz mp mn : Nat)
    (hne : mn ≠ UNUSED) (h1 : mn ≠ s.free_blocks s.free_offset)
    (h2 : mn ≠ s.bin_lists (size_to_bin_index sz).1) (h3 : mn ≠ mp) :
    insertBlocks s o sz mp mn mn =
      { s.blocks mn with mem_prev := s.free_blocks s.free_offset } := by
  unfold insertBlocks
  dsimp only
  rw [if_pos hne, upd_same, upd_ite_lookup _ _ _ _ _ h3,
    upd_ite_lookup _ _ _ _ _ h2, upd_ne _ _ _ _ h1]

/-- Transport a `memLink` chain across a state change that preserves the
mem links of the listed blocks. -/
theorem chain'_memLink_congr {s s' : State} {C : List Nat}
    (h : ∀ i ∈ C, (s'.blocks i).mem_prev = (s.blocks i).mem_prev ∧
      (s'.blocks i).mem_next = (s.blocks i).mem_next)
    (hc : List.Chain' (memLink s) C) : List.Chain' (memLink s') C := by
  have hc' := List.Chain'.iff_mem.mp hc
  refine List.Chain'.imp ?_ hc'
  rintro a b ⟨ha, hb, hab⟩
  exact ⟨(h a ha).2.trans hab.1, (h b hb).1.trans hab.2⟩

/-- Transport a `binLink` chain across a state change that preserves the
bin links of the listed blocks. -/
theorem chain'_binLink_congr {s s' : State} {C : List Nat}
    (h : ∀ i ∈ C, (s'.blocks i).bin_prev = (s.blocks i).bin_prev ∧
      (s'.blocks i).bin_next = (s.blocks i).bin_next)
    (hc : List.Chain' (binLink s) C) : List.Chain' (binLink s') C := by
  have hc' := List.Chain'.iff_mem.mp hc
  refine List.Chain'.imp ?_ hc'
  rintro a b ⟨ha, hb, hab⟩
  exact ⟨(h a ha).2.trans hab.1, (h b hb).1.trans hab.2⟩

/-- Transport the no-adjacent-frees chain across a state change that can
only turn listed blocks from free to used, never the other way. -/
theorem chain'_notBothFree_mono {s s' : State} {C : List Nat}
    (h : ∀ i ∈ C, block_allocator_is_used (s.blocks i) = true →
      block_allocator_is_used (s'.blocks i) = true)
    (hc : List.Chain' (notBothFree s) C) :
    List.Chain' (notBothFree s') C := by
  have hc' := List.Chain'.iff_mem.mp hc
  refine List.Chain'.imp ?_ hc'
  rintro a b ⟨ha, hb, hab⟩
  rcases hab with h1 | h1
  · exact Or.inl (h a ha h1)
  · exact Or.inr (h b hb h1)

/-- `is_used` only looks at the bin links. -/
theorem is_used_congr {b b' : Block} (h1 : b'.bin_prev = b.bin_prev)
    (h2 : b'.bin_next = b.bin_next) :
    block_allocator_is_used b' = block_allocator_is_used b := by
  unfold block_allocator_is_used
  rw [h1, h2]

/-- A bin-list member is never `is_used`: its `bin_prev` is a head tag or
a live index, neither of which is `UNUSED`. -/
theorem bin_member_not_used {s : State} {F : Nat → List Nat} {b i : Nat}
    (hb : b < 256) (hi : i ∈ F b)
    (hFsub : ∀ i ∈ F b, i < 2 ^ 28)
    (hFhprev : ∀ h ∈ (F b).head?, (s.blocks h).bin_prev = HEAD_BITS ||| b)
    (hFwire : List.Chain' (binLink s) (F b)) :
    block_allocator_is_used (s.blocks i) = false := by
  have hnp : (s.blocks i).bin_prev ≠ UNUSED := by
    rcases hFb : F b with _ | ⟨h0, rest⟩
    · rw [hFb] at hi
      cases hi
    · rw [hFb] at hi hFhprev hFwire hFsub
      rcases List.mem_cons.mp hi with rfl | hmem
      · rw [hFhprev i (by simp)]
        exact head_or_ne_unused hb
      · -- a non-head member: its `bin_prev` is its predecessor, a live index
        obtain ⟨l1, l2, hsplit⟩ := List.append_of_mem hmem
        have hwire2 : List.Chain' (binLink s) ((h0 :: l1) ++ i :: l2) := by
          have := hFwire
          rw [hsplit] at this
          simpa using this
        rcases List.chain'_append.mp hwire2 with ⟨_, _, hcross⟩
        have hL : (h0 :: l1).getLast (by simp) ∈ (h0 :: l1).getLast? := by
          rw [List.getLast?_eq_getLast _ (by simp)]
          rfl
        have hlink : binLink s ((h0 :: l1).getLast (by simp)) i :=
          hcross _ hL i (by simp)
        rw [hlink.2]
        apply lt_ne_unused
        apply hFsub
        have hLmem : (h0 :: l1).getLast (by simp) ∈ h0 :: l1 :=
          List.getLast_mem _
        have : (h0 :: l1).getLast (by simp) ∈ (h0 :: l1) ++ i :: l2 :=
          List.mem_append_left _ hLmem
        rw [hsplit]
        simpa using this
  unfold block_allocator_is_used
  simp [hnp]

/-- Looking up outside a conditional write whose guard is the target
being distinct from `UNUSED`. -/
theorem upd_ite_lookup' {α : Type} (f : Nat → α) (tgt : Nat) (a : α)
    (i : Nat) (h : i = tgt → tgt = UNUSED) :
    (if tgt ≠ UNUSED then upd f tgt a else f) i = f i := by
  split
  · next hc => exact upd_ne _ _ _ _ (fun he => hc (h he))
  · rfl

/-- Bin links pass unchanged through a conditional `mem_prev` patch. -/
theorem through_mem_prev_write (g : Nat → Block) (c : Prop) [Decidable c]
    (tgt nn i : Nat) :
    ((if c then upd g tgt ({ g tgt with mem_prev := nn }) else g) i).bin_prev
        = (g i).bin_prev ∧
      ((if c then upd g tgt ({ g tgt with mem_prev := nn }) else g) i).bin_next
        = (g i).bin_next := by
  split
  · by_cases hc : i = tgt
    · subst hc
      rw [upd_same]
      exact ⟨rfl, rfl⟩
    · rw [upd_ne _ _ _ _ hc]
      exact ⟨rfl, rfl⟩
  · exact ⟨rfl, rfl⟩

/-- Bin links pass unchanged through a conditional `mem_next` patch. -/
theorem through_mem_next_write (g : Nat → Block) (c : Prop) [Decidable c]
    (tgt nn i : Nat) :
    ((if c then upd g tgt ({ g tgt with mem_next := nn }) else g) i).bin_prev
        = (g i).bin_prev ∧
      ((if c then upd g tgt ({ g tgt with mem_next := nn }) else g) i).bin_next
        = (g i).bin_next := by
  split
  · by_cases hc : i = tgt
    · subst hc
      rw [upd_same]
      exact ⟨rfl, rfl⟩
    · rw [upd_ne _ _ _ _ hc]
      exact ⟨rfl, rfl⟩
  · exact ⟨rfl, rfl⟩

/-- Mem links pass unchanged through a conditional `bin_prev` patch. -/
theorem through_bin_prev_write (g : Nat → Block) (c : Prop) [Decidable c]
    (tgt nn i : Nat) :
    ((if c then upd g tgt ({ g tgt with bin_prev := nn }) else g) i).mem_prev
        = (g i).mem_prev ∧
      ((if c then upd g tgt ({ g tgt with bin_prev := nn }) else g) i).mem_next
        = (g i).mem_next := by
  split
  · by_cases hc : i = tgt
    · subst hc
      rw [upd_same]
      exact ⟨rfl, rfl⟩
    · rw [upd_ne _ _ _ _ hc]
      exact ⟨rfl, rfl⟩
  · exact ⟨rfl, rfl⟩

/-- `insertBlocks` preserves the bin links of every block other than the
fresh slot and the old bin head. -/
theorem insertBlocks_bin_fields (s : State) (o sz mp mn i : Nat)
    (h0 : i ≠ s.free_blocks s.free_offset)
    (h1 : i = s.bin_lists (size_to_bin_index sz).1 →
      s.bin_lists (size_to_bin_index sz).1 = UNUSED) :
    (insertBlocks s o sz mp mn i).bin_prev = (s.blocks i).bin_prev ∧
      (insertBlocks s o sz mp mn i).bin_next = (s.blocks i).bin_next := by
  unfold insertBlocks
  dsimp only
  constructor
  · rw [(through_mem_prev_write _ _ _ _ _).1, (through_mem_next_write _ _ _ _ _).1,
      upd_ite_lookup' _ _ _ _ h1, upd_ne _ _ _ _ h0]
  · rw [(through_mem_prev_write _ _ _ _ _).2, (through_mem_next_write _ _ _ _ _).2,
      upd_ite_lookup' _ _ _ _ h1, upd_ne _ _ _ _ h0]

/-- `insertBlocks` preserves the mem links of every block other than the
fresh slot and the two spatial neighbours. -/
theorem insertBlocks_mem_fields (s : State) (o sz mp mn i : Nat)
    (h0 : i ≠ s.free_blocks s.free_offset)
    (h2 : i = mp → mp = UNUSED)
    (h3 : i = mn → mn = UNUSED) :
    (insertBlocks s o sz mp mn i).mem_prev = (s.blocks i).mem_prev ∧
      (insertBlocks s o sz mp mn i).mem_next = (s.blocks i).mem_next := by
  unfold insertBlocks
  dsimp only
  constructor
  · rw [upd_ite_lookup' _ _ _ _ h3, upd_ite_lookup' _ _ _ _ h2,
      (through_bin_prev_write _ _ _ _ _).1, upd_ne _ _ _ _ h0]
  · rw [upd_ite_lookup' _ _ _ _ h3, upd_ite_lookup' _ _ _ _ h2,
      (through_bin_prev_write _ _ _ _ _).2, upd_ne _ _ _ _ h0]

/-- Splicing a fresh node `n` between chain parts `l` and `r`: if in the
new state the endpoint links are rewired onto `n` and all other mem links
are preserved, the spliced list is a wired chain. -/
theorem mem_wire_splice (s s' : State) (l r : List Nat) (n mp mn : Nat)
    (hmp : mp = (l.getLast?).getD UNUSED)
    (hmn : mn = (r.head?).getD UNUSED)
    (hwl : List.Chain' (memLink s) l)
    (hwr : List.Chain' (memLink s) r)
    (hlnd : l.Nodup) (hrnd : r.Nodup) (hdisj : l.Disjoint r)
    (hU : ∀ i ∈ l ++ r, i ≠ UNUSED)
    (hpt : ∀ i ∈ l ++ r, i ≠ mp → i ≠ mn →
      (s'.blocks i).mem_prev = (s.blocks i).mem_prev ∧
        (s'.blocks i).mem_next = (s.blocks i).mem_next)
    (hmp' : mp ≠ UNUSED → (s'.blocks mp).mem_prev = (s.blocks mp).mem_prev ∧
      (s'.blocks mp).mem_next = n)
    (hmn' : mn ≠ UNUSED → (s'.blocks mn).mem_prev = n ∧
      (s'.blocks mn).mem_next = (s.blocks mn).mem_next)
    (hnn : (s'.blocks n).mem_prev = mp ∧ (s'.blocks n).mem_next = mn) :
    List.Chain' (memLink s') (l ++ n :: r) := by
  have hmncase : mn = UNUSED ∨ mn ∈ r := by
    rcases hrr : r with _ | ⟨rh, rt⟩
    · left
      rw [hmn, hrr]
      rfl
    · right
      rw [hmn, hrr]
      simp
  have hl_ne_mn : ∀ x ∈ l, x ≠ mn := by
    intro x hx hc
    rcases hmncase with h | h
    · exact hU x (List.mem_append_left _ hx) (hc.trans h)
    · exact hdisj hx (hc ▸ h)
  have hr_ne_mp : ∀ y ∈ r, y ≠ mp := by
    intro y hy hc
    by_cases hmpU : mp = UNUSED
    · exact hU y (List.mem_append_right _ hy) (hc.trans hmpU)
    · have hlnil : l ≠ [] := by
        rintro rfl
        rw [hmp] at hmpU
        exact hmpU rfl
      have : mp ∈ l := by
        rw [hmp, List.getLast?_eq_getLast l hlnil]
        exact List.getLast_mem hlnil
      exact hdisj (hc ▸ this) hy
  have hleft : List.Chain' (memLink s') l := by
    by_cases hlnil : l = []
    · subst hlnil
      exact List.chain'_nil
    · have hmpeq : mp = l.getLast hlnil := by
        rw [hmp, List.getLast?_eq_getLast l hlnil]
        rfl
      have hdec : l.dropLast ++ [mp] = l := by
        rw [hmpeq]
        exact List.dropLast_append_getLast hlnil
      have hwl' : List.Chain' (memLink s) (l.dropLast ++ [mp]) := by
        rw [hdec]
        exact hwl
      obtain ⟨hw1, hw2, hw3⟩ := List.chain'_append.mp hwl'
      have hnd' : (l.dropLast ++ [mp]).Nodup := by
        rw [hdec]
        exact hlnd
      have hmpnotdl : mp ∉ l.dropLast := by
        rcases List.nodup_append.mp hnd' with ⟨-, -, hdj⟩
        intro hc
        exact hdj hc (by simp)
      have hmem_dl : ∀ i ∈ l.dropLast, i ∈ l := by
        intro i hi
        rw [← hdec]
        exact List.mem_append_left _ hi
      rw [← hdec]
      apply List.Chain'.append
      · apply chain'_memLink_congr ?_ hw1
        intro i hi
        exact hpt i (List.mem_append_left _ (hmem_dl i hi))
          (fun hc => hmpnotdl (hc ▸ hi)) (hl_ne_mn i (hmem_dl i hi))
      · exact List.chain'_singleton mp
      · intro x hx y hy
        have hy' : mp = y := by simpa using hy
        subst hy'
        have hx_mem : x ∈ l.dropLast := List.mem_of_mem_getLast? hx
        have hlink := hw3 x hx mp (by simp)
        have hmpU : mp ≠ UNUSED :=
          hU mp (List.mem_append_left _ (by rw [← hdec]; simp))
        constructor
        · rw [(hpt x (List.mem_append_left _ (hmem_dl x hx_mem))
            (fun hc => hmpnotdl (hc ▸ hx_mem)) (hl_ne_mn x (hmem_dl x hx_mem))).2]
          exact hlink.1
        · rw [(hmp' hmpU).1]
          exact hlink.2
  have hmid : List.Chain' (memLink s') (n :: r) := by
    rcases hrr : r with _ | ⟨rh, rt⟩
    · exact List.chain'_singleton n
    · rw [hrr] at hwr hrnd
      have hmn_eq : mn = rh := by
        rw [hmn, hrr]
        rfl
      have hrh_mem : rh ∈ l ++ r := by
        rw [hrr]
        exact List.mem_append_right _ (by simp)
      have hmnU : mn ≠ UNUSED := by
        rw [hmn_eq]
        exact hU rh hrh_mem
      obtain ⟨hcr0, hwt⟩ := List.chain'_cons'.mp hwr
      have hrh_notin_rt : rh ∉ rt := (List.nodup_cons.mp hrnd).1
      apply List.chain'_cons'.mpr
      refine ⟨?_, ?_⟩
      · intro y hy
        have hy' : rh = y := by simpa using hy
        subst hy'
        refine ⟨?_, ?_⟩
        · rw [hnn.2, hmn_eq]
        · rw [← hmn_eq]
          exact (hmn' hmnU).1
      · apply List.chain'_cons'.mpr
        refine ⟨?_, ?_⟩
        · intro y hy
          have hy_rt : y ∈ rt := List.mem_of_mem_head? hy
          have hyr : y ∈ r := by
            rw [hrr]
            exact List.mem_cons_of_mem _ hy_rt
          have hy_ne_mn : y ≠ mn := by
            rw [hmn_eq]
            intro hc
            exact hrh_notin_rt (hc ▸ hy_rt)
          refine ⟨?_, ?_⟩
          · have h2 := (hmn' hmnU).2
            rw [hmn_eq] at h2
            rw [h2]
            exact (hcr0 y hy).1
          · rw [(hpt y (List.mem_append_right _ hyr)
              (hr_ne_mp y hyr) hy_ne_mn).1]
            exact (hcr0 y hy).2
        · apply chain'_memLink_congr ?_ hwt
          intro i hi
          have hir : i ∈ r := by
            rw [hrr]
            exact List.mem_cons_of_mem _ hi
          have hi_ne_mn : i ≠ mn := by
            rw [hmn_eq]
            intro hc
            exact hrh_notin_rt (hc ▸ hi)
          exact hpt i (List.mem_append_right _ hir) (hr_ne_mp i hir) hi_ne_mn
  apply List.Chain'.append hleft hmid
  intro x hx y hy
  have hy' : n = y := by simpa using hy
  subst hy'
  have hlnil : l ≠ [] := by
    rintro rfl
    simp at hx
  have hxmp : x = mp := by
    rw [List.getLast?_eq_getLast l hlnil] at hx
    have hg : l.getLast hlnil = x := by simpa using hx
    rw [← hg, hmp, List.getLast?_eq_getLast l hlnil]
    rfl
  subst hxmp
  have hmpU : x ≠ UNUSED :=
    hU x (List.mem_append_left _ (List.mem_of_mem_getLast? hx))
  exact ⟨(hmp' hmpU).2, hnn.1⟩

/-- Splicing a used-or-boundary-flanked node into the no-adjacent-frees
chain. -/
theorem adj_splice (s' : State) (l r : List Nat) (n : Nat)
    (hadjl : List.Chain' (notBothFree s') l)
    (hadjr : List.Chain' (notBothFree s') r)
    (hlu : ∀ t ∈ l.getLast?, block_allocator_is_used (s'.blocks t) = true)
    (hru : ∀ h ∈ r.head?, block_allocator_is_used (s'.blocks h) = true) :
    List.Chain' (notBothFree s') (l ++ n :: r) := by
  apply List.Chain'.append hadjl
  · exact List.chain'_cons'.mpr ⟨fun y hy => Or.inr (hru y hy), hadjr⟩
  · intro x hx y hy
    have hy' : n = y := by simpa using hy
    subst hy'
    exact Or.inl (hlu x hx)

/-- Main specification of a successful `block_allocator_insert`: from a
state whose spatial chain decomposes as `l ++ r` around the insertion
point (with the neighbour arguments `mp`/`mn` the adjacent endpoints) and
whose bin lists are witnessed by `F`, the result state satisfies the full
invariant with the fresh node spliced into the chain and pushed onto its
bin. -/
theorem insert_spec (s s' : State) (o sz mp mn n : Nat) (l r : List Nat)
    (F : Nat → List Nat) (hs : List Allocation)
    (hins : block_allocator_insert s o sz mp mn = some s')
    (hn : n = s.free_blocks s.free_offset)
    (hfo_le : s.free_offset ≤ s.max_allocs)
    (hmaxA : s.max_allocs ≤ 2 ^ 28)
    (hnd : (l ++ r).Nodup)
    (hlt : ∀ i ∈ l ++ r, i < s.max_allocs)
    (hlen : (l ++ r).length = s.free_offset)
    (hsf : ∀ j, s.free_offset ≤ j → j < s.max_allocs →
      s.free_blocks j < s.max_allocs ∧ s.free_blocks j ∉ l ++ r)
    (hsi : ∀ j k, s.free_offset ≤ j → j < k → k < s.max_allocs →
      s.free_blocks j ≠ s.free_blocks k)
    (hsc : ∀ i, i < s.max_allocs → i ∉ l ++ r →
      ∃ j, s.free_offset ≤ j ∧ j < s.max_allocs ∧ s.free_blocks j = i)
    (hmp : mp = (l.getLast?).getD UNUSED)
    (hmn : mn = (r.head?).getD UNUSED)
    (hwl : List.Chain' (memLink s) l)
    (hwr : List.Chain' (memLink s) r)
    (hheadl : ∀ h ∈ l.head?, (s.blocks h).mem_prev = UNUSED)
    (hlastr : ∀ t ∈ r.getLast?, (s.blocks t).mem_next = UNUSED)
    (hadjl : List.Chain' (notBothFree s) l)
    (hadjr : List.Chain' (notBothFree s) r)
    (hmpu : mp ≠ UNUSED → block_allocator_is_used (s.blocks mp) = true)
    (hmnu : mn ≠ UNUSED → block_allocator_is_used (s.blocks mn) = true)
    (hf_sub : ∀ c, c < 256 → ∀ i ∈ F c, i ∈ l ++ r)
    (hf_nodup : ∀ c, c < 256 → (F c).Nodup)
    (hf_disj : ∀ c c', c < 256 → c' < 256 → c ≠ c' → ∀ i ∈ F c, i ∉ F c')
    (hf_head : ∀ c, c < 256 → s.bin_lists c = (F c).headD UNUSED)
    (hf_hprev : ∀ c, c < 256 → ∀ h ∈ (F c).head?,
      (s.blocks h).bin_prev = HEAD_BITS ||| c)
    (hf_wire : ∀ c, c < 256 → List.Chain' (binLink s) (F c))
    (hf_last : ∀ c, c < 256 → ∀ t ∈ (F c).getLast?,
      (s.blocks t).bin_next = UNUSED)
    (hfib : ∀ i ∈ l ++ r, block_allocator_is_used (s.blocks i) = true ∨
      ∃ c, c < 256 ∧ i ∈ F c)
    (hbm : bitmapsConsistent s)
    (hh_val : ∀ a ∈ hs, a.metadata ∈ l ++ r ∧
      block_allocator_is_used (s.blocks a.metadata) = true ∧ a.size ≠ 0)
    (hh_nodup : (hs.map Allocation.metadata).Nodup) :
    InvW s' hs (l ++ n :: r) (binsCons F (size_to_bin_index sz).1 n) := by
  obtain ⟨hpool, hs'⟩ := insert_elim hins
  have hS_blocks : s'.blocks = insertBlocks s o sz mp mn := by rw [hs']
  have hS_bl : s'.bin_lists = upd s.bin_lists (size_to_bin_index sz).1
      (s.free_blocks s.free_offset) := by rw [hs']
  have hS_fo : s'.free_offset = add32 s.free_offset 1 := by rw [hs']
  have hS_fb : s'.free_blocks = s.free_blocks := by rw [hs']
  have hS_maxA : s'.max_allocs = s.max_allocs := by rw [hs']
  have hS_tb : s'.top_bins = s.top_bins |||
      (1 <<< (size_to_bin_index sz).2.1) := by rw [hs']
  have hS_bb : s'.bottom_bins = upd s.bottom_bins (size_to_bin_index sz).2.1
      (s.bottom_bins (size_to_bin_index sz).2.1 |||
        (1 <<< (size_to_bin_index sz).2.2)) := by rw [hs']
  have hfo_lt : s.free_offset < s.max_allocs := lt_of_le_of_ne hfo_le hpool
  have h28U : (2 : Nat) ^ 28 < U32 := by norm_num [U32]
  have hfo1 : s'.free_offset = s.free_offset + 1 := by
    rw [hS_fo, add32_eq]
    omega
  have hnfacts := hsf s.free_offset (le_refl _) hfo_lt
  have hnlt : n < s.max_allocs := by rw [hn]; exact hnfacts.1
  have hnC : n ∉ l ++ r := by rw [hn]; exact hnfacts.2
  have hn28 : n < 2 ^ 28 := lt_of_lt_of_le hnlt hmaxA
  have hnU : n ≠ UNUSED := lt_ne_unused hn28
  have hb256 : (size_to_bin_index sz).1 < 256 := by
    have h1 := top_le_28 sz
    have h2 := bottom_lt_8 sz
    rw [bin_index_eq]
    omega
  have hC28 : ∀ i ∈ l ++ r, i < 2 ^ 28 :=
    fun i hi => lt_of_lt_of_le (hlt i hi) hmaxA
  have hCU : ∀ i ∈ l ++ r, i ≠ UNUSED := fun i hi => lt_ne_unused (hC28 i hi)
  have hFsub28 : ∀ i ∈ F (size_to_bin_index sz).1, i < 2 ^ 28 :=
    fun i hi => hC28 i (hf_sub _ hb256 i hi)
  have hlnd : l.Nodup := (List.nodup_append.mp hnd).1
  have hrnd : r.Nodup := (List.nodup_append.mp hnd).2.1
  have hdisjlr : l.Disjoint r := (List.nodup_append.mp hnd).2.2
  have hbiC : s.bin_lists (size_to_bin_index sz).1 ≠ UNUSED →
      s.bin_lists (size_to_bin_index sz).1 ∈ F (size_to_bin_index sz).1 := by
    intro h
    rw [hf_head _ hb256] at h ⊢
    rcases hFb : F (size_to_bin_index sz).1 with _ | ⟨h0, rest⟩
    · rw [hFb] at h
      exact absurd rfl h
    · exact List.mem_cons_self _ _
  have hbin : s.bin_lists (size_to_bin_index sz).1 ≠ n := by
    by_cases h : s.bin_lists (size_to_bin_index sz).1 = UNUSED
    · rw [h]
      exact fun hc => hnU hc.symm
    · intro hc
      apply hnC
      rw [← hc]
      exact hf_sub _ hb256 _ (hbiC h)
  have hmpl : mp ≠ UNUSED → mp ∈ l := by
    intro h
    have hlnil : l ≠ [] := by
      rintro rfl
      rw [hmp] at h
      exact h rfl
    rw [hmp, List.getLast?_eq_getLast l hlnil]
    exact List.getLast_mem hlnil
  have hmnr : mn ≠ UNUSED → mn ∈ r := by
    intro h
    rcases hrr : r with _ | ⟨rh, rt⟩
    · rw [hmn, hrr] at h
      exact absurd rfl h
    · rw [hmn, hrr]
      exact List.mem_cons_self _ _
  have hmpn : mp ≠ n := by
    by_cases h : mp = UNUSED
    · rw [h]
      exact fun hc => hnU hc.symm
    · intro hc
      exact hnC (hc ▸ List.mem_append_left _ (hmpl h))
  have hmnn : mn ≠ n := by
    by_cases h : mn = UNUSED
    · rw [h]
      exact fun hc => hnU hc.symm
    · intro hc
      exact hnC (hc ▸ List.mem_append_right _ (hmnr h))
  have hmpmn : mp ≠ UNUSED → mp ≠ mn := by
    intro h1 hc
    by_cases h2 : mn = UNUSED
    · exact h1 (hc.trans h2)
    · exact hdisjlr (hmpl h1) (by rw [hc]; exact hmnr h2)
  have hmnmp : mn ≠ UNUSED → mn ≠ mp := by
    intro h1 hc
    by_cases h2 : mp = UNUSED
    · exact h1 (hc.trans h2)
    · exact hdisjlr (hmpl h2) (by rw [← hc]; exact hmnr h1)
  have hbifree : s.bin_lists (size_to_bin_index sz).1 ≠ UNUSED →
      block_allocator_is_used
        (s.blocks (s.bin_lists (size_to_bin_index sz).1)) = false := by
    intro h
    exact bin_member_not_used hb256 (hbiC h) hFsub28 (hf_hprev _ hb256)
      (hf_wire _ hb256)
  have hmphbi : mp ≠ UNUSED → mp ≠ s.bin_lists (size_to_bin_index sz).1 := by
    intro h hc
    by_cases hbiU : s.bin_lists (size_to_bin_index sz).1 = UNUSED
    · exact h (hc.trans hbiU)
    · have h1 := hmpu h
      have h2 := hbifree hbiU
      rw [hc] at h1
      rw [h1] at h2
      simp at h2
  have hmnhbi : mn ≠ UNUSED → mn ≠ s.bin_lists (size_to_bin_index sz).1 := by
    intro h hc
    by_cases hbiU : s.bin_lists (size_to_bin_index sz).1 = UNUSED
    · exact h (hc.trans hbiU)
    · have h1 := hmnu h
      have h2 := hbifree hbiU
      rw [hc] at h1
      rw [h1] at h2
      simp at h2
  have hbimp : s.bin_lists (size_to_bin_index sz).1 ≠ UNUSED →
      s.bin_lists (size_to_bin_index sz).1 ≠ mp := by
    intro h hc
    by_cases h2 : mp = UNUSED
    · exact h (hc.trans h2)
    · exact hmphbi h2 hc.symm
  have hbimn : s.bin_lists (size_to_bin_index sz).1 ≠ UNUSED →
      s.bin_lists (size_to_bin_index sz).1 ≠ mn := by
    intro h hc
    by_cases h2 : mn = UNUSED
    · exact h (hc.trans h2)
    · exact hmnhbi h2 hc.symm
  have hbin' : s.bin_lists (size_to_bin_index sz).1 ≠
      s.free_blocks s.free_offset := by rw [← hn]; exact hbin
  have hmpn' : mp ≠ s.free_blocks s.free_offset := by rw [← hn]; exact hmpn
  have hmnn' : mn ≠ s.free_blocks s.free_offset := by rw [← hn]; exact hmnn
  have hblk_n : s'.blocks n = ⟨o, sz, HEAD_BITS ||| (size_to_bin_index sz).1,
      s.bin_lists (size_to_bin_index sz).1, mp, mn⟩ := by
    rw [hS_blocks, hn]
    exact insertBlocks_at_fresh s o sz mp mn hbin' hmpn' hmnn'
  have hblk_mp : mp ≠ UNUSED → s'.blocks mp =
      { s.blocks mp with mem_next := n } := by
    intro h
    rw [hS_blocks, insertBlocks_at_mp s o sz mp mn h hmpn' (hmphbi h)
      (fun hc => (hmpmn h) hc), ← hn]
  have hblk_mn : mn ≠ UNUSED → s'.blocks mn =
      { s.blocks mn with mem_prev := n } := by
    intro h
    rw [hS_blocks, insertBlocks_at_mn s o sz mp mn h hmnn' (hmnhbi h)
      (fun hc => (hmnmp h) hc), ← hn]
  have hblk_hbi : s.bin_lists (size_to_bin_index sz).1 ≠ UNUSED →
      s'.blocks (s.bin_lists (size_to_bin_index sz).1) =
        { s.blocks (s.bin_lists (size_to_bin_index sz).1) with
          bin_prev := n } := by
    intro h
    rw [hS_blocks, insertBlocks_at_head s o sz mp mn h hbin' (hbimp h)
      (hbimn h), ← hn]
  have hmemP : ∀ i, i ≠ n → (i = mp → mp = UNUSED) → (i = mn → mn = UNUSED) →
      (s'.blocks i).mem_prev = (s.blocks i).mem_prev ∧
      (s'.blocks i).mem_next = (s.blocks i).mem_next := by
    intro i h0 h2 h3
    rw [hS_blocks]
    exact insertBlocks_mem_fields s o sz mp mn i (by rw [← hn]; exact h0) h2 h3
  have hbinP : ∀ i, i ≠ n →
      (i = s.bin_lists (size_to_bin_index sz).1 →
        s.bin_lists (size_to_bin_index sz).1 = UNUSED) →
      (s'.blocks i).bin_prev = (s.blocks i).bin_prev ∧
      (s'.blocks i).bin_next = (s.blocks i).bin_next := by
    intro i h0 h1
    rw [hS_blocks]
    exact insertBlocks_bin_fields s o sz mp mn i (by rw [← hn]; exact h0) h1
  have hprevP : ∀ i ∈ l ++ r, i ≠ mn →
      (s'.blocks i).mem_prev = (s.blocks i).mem_prev := by
    intro i hi hne
    by_cases hc : i = mp
    · have hmpU : mp ≠ UNUSED := by rw [← hc]; exact hCU i hi
      rw [hc, hblk_mp hmpU]
    · exact (hmemP i (fun h' => hnC (h' ▸ hi)) (fun h' => absurd h' hc)
        (fun h' => absurd h' hne)).1
  have hnextP : ∀ i ∈ l ++ r, i ≠ mp →
      (s'.blocks i).mem_next = (s.blocks i).mem_next := by
    intro i hi hne
    by_cases hc : i = mn
    · have hmnU : mn ≠ UNUSED := by rw [← hc]; exact hCU i hi
      rw [hc, hblk_mn hmnU]
    · exact (hmemP i (fun h' => hnC (h' ▸ hi)) (fun h' => absurd h' hne)
        (fun h' => absurd h' hc)).2
  have husedP : ∀ i ∈ l ++ r, block_allocator_is_used (s.blocks i) = true →
      block_allocator_is_used (s'.blocks i) = true := by
    intro i hi hu
    by_cases hc : i = s.bin_lists (size_to_bin_index sz).1
    · by_cases hbiU : s.bin_lists (size_to_bin_index sz).1 = UNUSED
      · exact absurd (hc.trans hbiU) (hCU i hi)
      · rw [hc] at hu
        rw [hbifree hbiU] at hu
        simp at hu
    · have h := hbinP i (fun h' => hnC (h' ▸ hi)) (fun h' => absurd h' hc)
      rw [is_used_congr h.1 h.2]
      exact hu
  have hbinPm : ∀ c, c < 256 → c ≠ (size_to_bin_index sz).1 → ∀ i ∈ F c,
      (s'.blocks i).bin_prev = (s.blocks i).bin_prev ∧
      (s'.blocks i).bin_next = (s.blocks i).bin_next := by
    intro c hc hcb i hi
    have hiC : i ∈ l ++ r := hf_sub c hc i hi
    apply hbinP i (fun h' => hnC (h' ▸ hiC))
    intro h'
    by_contra hbiU
    exact hf_disj (size_to_bin_index sz).1 c hb256 hc
      (fun he => hcb he.symm) (s.bin_lists (size_to_bin_index sz).1)
      (hbiC hbiU) (h' ▸ hi)
  have hbinPFb : ∀ i ∈ F (size_to_bin_index sz).1,
      i ≠ s.bin_lists (size_to_bin_index sz).1 →
      (s'.blocks i).bin_prev = (s.blocks i).bin_prev ∧
      (s'.blocks i).bin_next = (s.blocks i).bin_next := by
    intro i hi hne
    exact hbinP i (fun h' => hnC (h' ▸ hf_sub _ hb256 i hi))
      (fun h' => absurd h' hne)
  have hl_ne_mn : ∀ x ∈ l, x ≠ mn := by
    intro x hx hc
    by_cases h2 : mn = UNUSED
    · exact hCU x (List.mem_append_left _ hx) (hc.trans h2)
    · exact hdisjlr hx (by rw [hc]; exact hmnr h2)
  have hr_ne_mp : ∀ y ∈ r, y ≠ mp := by
    intro y hy hc
    by_cases h2 : mp = UNUSED
    · exact hCU y (List.mem_append_right _ hy) (hc.trans h2)
    · exact hdisjlr (by rw [hc]; exact hmpl h2) hy
  have hCup : ∀ i, i ∈ l ++ r → i ∈ l ++ n :: r := by
    intro i hi
    rcases List.mem_append.mp hi with h | h
    · exact List.mem_append_left _ h
    · exact List.mem_append_right _ (List.mem_cons_of_mem _ h)
  refine ⟨?_, ?_, ?_, ?_, ?_, ?_, ?_, ?_, ?_, ?_, ?_, ?_, ?_, ?_, ?_, ?_,
    ?_, ?_, ?_, ?_, ?_, ?_, ?_⟩
  · rw [hfo1, hS_maxA]
    omega
  · rw [hS_maxA]
    exact hmaxA
  · exact List.nodup_middle.mpr (List.nodup_cons.mpr ⟨hnC, hnd⟩)
  · intro i hi
    rw [hS_maxA]
    rcases List.mem_append.mp hi with h | h
    · exact hlt i (List.mem_append_left _ h)
    · rcases List.mem_cons.mp h with rfl | h
      · exact hnlt
      · exact hlt i (List.mem_append_right _ h)
  · rw [hfo1]
    simp only [List.length_append, List.length_cons] at hlen ⊢
    omega
  · intro j h1 h2
    rw [hfo1] at h1
    rw [hS_maxA] at h2
    rw [hS_fb, hS_maxA]
    have h3 := hsf j (by omega) h2
    refine ⟨h3.1, ?_⟩
    intro hmem
    rcases List.mem_append.mp hmem with h | h
    · exact h3.2 (List.mem_append_left _ h)
    · rcases List.mem_cons.mp h with he | h
      · have h4 := hsi s.free_offset j (le_refl _) (by omega) h2
        rw [hn] at he
        exact h4 he.symm
      · exact h3.2 (List.mem_append_right _ h)
  · intro j k h1 h2 h3
    rw [hfo1] at h1
    rw [hS_maxA] at h3
    rw [hS_fb]
    exact hsi j k (by omega) h2 h3
  · intro i h1 h2
    rw [hS_maxA] at h1
    have h3 : i ∉ l ++ r := by
      intro hc
      exact h2 (hCup i hc)
    obtain ⟨j, hj1, hj2, hj3⟩ := hsc i h1 h3
    have hjne : j ≠ s.free_offset := by
      intro hc
      apply h2
      rw [hc, ← hn] at hj3
      rw [← hj3]
      exact List.mem_append_right _ (List.mem_cons_self _ _)
    refine ⟨j, ?_, ?_, ?_⟩
    · rw [hfo1]
      omega
    · rw [hS_maxA]
      exact hj2
    · rw [hS_fb]
      exact hj3
  · exact mem_wire_splice s s' l r n mp mn hmp hmn hwl hwr hlnd hrnd hdisjlr
      hCU (fun i hi h2 h3 => ⟨hprevP i hi h3, hnextP i hi h2⟩)
      (fun h => by rw [hblk_mp h]; exact ⟨rfl, rfl⟩)
      (fun h => by rw [hblk_mn h]; exact ⟨rfl, rfl⟩)
      (by rw [hblk_n]; exact ⟨rfl, rfl⟩)
  · intro h hh
    rcases hll : l with _ | ⟨lh, lt'⟩
    · rw [hll] at hh
      have hh' : n = h := by simpa using hh
      subst hh'
      rw [hblk_n]
      show mp = UNUSED
      rw [hmp, hll]
      rfl
    · rw [hll] at hh
      have hh' : lh = h := by simpa using hh
      subst hh'
      have hlhl : lh ∈ l := by rw [hll]; exact List.mem_cons_self _ _
      rw [hprevP lh (List.mem_append_left _ hlhl) (hl_ne_mn lh hlhl)]
      apply hheadl
      rw [hll]
      rfl
  · intro t ht
    rcases hrr : r with _ | ⟨rh, rt⟩
    · rw [hrr] at ht
      have hgl : (l ++ n :: ([] : List Nat)).getLast? = some n :=
        List.getLast?_concat l
      rw [hgl] at ht
      have ht' : n = t := by simpa using ht
      subst ht'
      rw [hblk_n]
      show mn = UNUSED
      rw [hmn, hrr]
      rfl
    · rw [hrr] at ht
      rw [List.getLast?_append_cons, List.getLast?_cons_cons] at ht
      have htr : t ∈ r := by
        rw [hrr]
        exact List.mem_of_mem_getLast? ht
      rw [hnextP t (List.mem_append_right _ htr) (hr_ne_mp t htr)]
      apply hlastr
      rw [hrr]
      exact ht
  · apply adj_splice s' l r n
    · exact chain'_notBothFree_mono
        (fun i hi => husedP i (List.mem_append_left _ hi)) hadjl
    · exact chain'_notBothFree_mono
        (fun i hi => husedP i (List.mem_append_right _ hi)) hadjr
    · intro t ht2
      have hmp_eq : mp = t := by
        rw [Option.mem_def] at ht2
        rw [hmp, ht2]
        rfl
      have htl : t ∈ l := List.mem_of_mem_getLast? ht2
      have hmpU : mp ≠ UNUSED := by
        rw [hmp_eq]
        exact hCU t (List.mem_append_left _ htl)
      have h1 := hmpu hmpU
      rw [hmp_eq] at h1
      exact husedP t (List.mem_append_left _ htl) h1
    · intro h hh2
      have hmn_eq : mn = h := by
        rw [Option.mem_def] at hh2
        rw [hmn, hh2]
        rfl
      have hhr : h ∈ r := List.mem_of_mem_head? hh2
      have hmnU : mn ≠ UNUSED := by
        rw [hmn_eq]
        exact hCU h (List.mem_append_right _ hhr)
      have h1 := hmnu hmnU
      rw [hmn_eq] at h1
      exact husedP h (List.mem_append_right _ hhr) h1
  · intro c hc i hi
    simp only [binsCons] at hi
    by_cases hcb : c = (size_to_bin_index sz).1
    · rw [if_pos hcb] at hi
      rcases List.mem_cons.mp hi with rfl | hi2
      · exact List.mem_append_right _ (List.mem_cons_self _ _)
      · exact hCup i (hf_sub c hc i hi2)
    · rw [if_neg hcb] at hi
      exact hCup i (hf_sub c hc i hi)
  · intro c hc
    simp only [binsCons]
    by_cases hcb : c = (size_to_bin_index sz).1
    · rw [if_pos hcb]
      refine List.nodup_cons.mpr ⟨?_, hf_nodup c hc⟩
      intro hmem
      exact hnC (hf_sub c hc n hmem)
    · rw [if_neg hcb]
      exact hf_nodup c hc
  · intro c c' hc hc' hne i hi hi'
    simp only [binsCons] at hi hi'
    by_cases hcb : c = (size_to_bin_index sz).1 <;>
      by_cases hcb' : c' = (size_to_bin_index sz).1
    · exact hne (hcb.trans hcb'.symm)
    · rw [if_pos hcb] at hi
      rw [if_neg hcb'] at hi'
      rcases List.mem_cons.mp hi with rfl | hi2
      · exact hnC (hf_sub c' hc' i hi')
      · exact hf_disj c c' hc hc' hne i hi2 hi'
    · rw [if_neg hcb] at hi
      rw [if_pos hcb'] at hi'
      rcases List.mem_cons.mp hi' with heq | hi2
      · subst heq
        exact hnC (hf_sub c hc i hi)
      · exact hf_disj c c' hc hc' hne i hi hi2
    · rw [if_neg hcb] at hi
      rw [if_neg hcb'] at hi'
      exact hf_disj c c' hc hc' hne i hi hi'
  · intro c hc
    simp only [binsCons]
    by_cases hcb : c = (size_to_bin_index sz).1
    · subst hcb
      rw [if_pos rfl, hS_bl, upd_same, ← hn]
      rfl
    · rw [if_neg hcb, hS_bl, upd_ne _ _ _ _ hcb]
      exact hf_head c hc
  · intro c hc h hh
    simp only [binsCons] at hh
    by_cases hcb : c = (size_to_bin_index sz).1
    · rw [if_pos hcb] at hh
      subst hcb
      have hh' : n = h := by simpa using hh
      subst hh'
      rw [hblk_n]
    · rw [if_neg hcb] at hh
      have hhF : h ∈ F c := List.mem_of_mem_head? hh
      rw [(hbinPm c hc hcb h hhF).1]
      exact hf_hprev c hc h hh
  · intro c hc
    simp only [binsCons]
    by_cases hcb : c = (size_to_bin_index sz).1
    · subst hcb
      rw [if_pos rfl]
      rcases hFb : F (size_to_bin_index sz).1 with _ | ⟨h0, rest⟩
      · exact List.chain'_singleton n
      · have hh0 : s.bin_lists (size_to_bin_index sz).1 = h0 := by
          rw [hf_head _ hc, hFb]
          rfl
        have hh0U : s.bin_lists (size_to_bin_index sz).1 ≠ UNUSED := by
          rw [hh0]
          apply lt_ne_unused
          apply hFsub28 h0
          rw [hFb]
          exact List.mem_cons_self _ _
        have hwires := hf_wire _ hc
        rw [hFb] at hwires
        apply List.chain'_cons'.mpr
        constructor
        · intro y hy
          have hy' : h0 = y := by simpa using hy
          subst hy'
          constructor
          · rw [hblk_n]
            exact hh0
          · rw [← hh0, hblk_hbi hh0U]
        · apply List.chain'_cons'.mpr
          constructor
          · intro y hy
            have hyr : y ∈ rest := List.mem_of_mem_head? hy
            have hlink : binLink s h0 y := (List.chain'_cons'.mp hwires).1 y hy
            have hnd0 := hf_nodup _ hc
            rw [hFb] at hnd0
            have hyF : y ∈ F (size_to_bin_index sz).1 := by
              rw [hFb]
              exact List.mem_cons_of_mem _ hyr
            have hyh0 : y ≠ s.bin_lists (size_to_bin_index sz).1 := by
              rw [hh0]
              intro he
              exact (List.nodup_cons.mp hnd0).1 (he ▸ hyr)
            constructor
            · rw [← hh0, hblk_hbi hh0U]
              show (s.blocks (s.bin_lists (size_to_bin_index sz).1)).bin_next
                = y
              rw [hh0]
              exact hlink.1
            · rw [(hbinPFb y hyF hyh0).1]
              exact hlink.2
          · apply chain'_binLink_congr ?_ (List.chain'_cons'.mp hwires).2
            intro i hi
            have hnd0 := hf_nodup _ hc
            rw [hFb] at hnd0
            have hiF : i ∈ F (size_to_bin_index sz).1 := by
              rw [hFb]
              exact List.mem_cons_of_mem _ hi
            have hih0 : i ≠ s.bin_lists (size_to_bin_index sz).1 := by
              rw [hh0]
              intro he
              exact (List.nodup_cons.mp hnd0).1 (he ▸ hi)
            exact hbinPFb i hiF hih0
    · rw [if_neg hcb]
      exact chain'_binLink_congr (hbinPm c hc hcb) (hf_wire c hc)
  · intro c hc t ht
    simp only [binsCons] at ht
    by_cases hcb : c = (size_to_bin_index sz).1
    · rw [if_pos hcb] at ht
      subst hcb
      rcases hFb : F (size_to_bin_index sz).1 with _ | ⟨h0, rest⟩
      · rw [hFb] at ht
        have ht' : n = t := by simpa using ht
        subst ht'
        rw [hblk_n]
        show s.bin_lists (size_to_bin_index sz).1 = UNUSED
        rw [hf_head _ hc, hFb]
        rfl
      · rw [hFb, List.getLast?_cons_cons] at ht
        have htF : t ∈ F (size_to_bin_index sz).1 := by
          rw [hFb]
          exact List.mem_of_mem_getLast? ht
        have hlast := hf_last _ hc t (by rw [hFb]; exact ht)
        by_cases hth : t = s.bin_lists (size_to_bin_index sz).1
        · have hbiU : s.bin_lists (size_to_bin_index sz).1 ≠ UNUSED := by
            rw [← hth]
            exact lt_ne_unused (hFsub28 t htF)
          rw [hth, hblk_hbi hbiU]
          show (s.blocks (s.bin_lists (size_to_bin_index sz).1)).bin_next
            = UNUSED
          rw [← hth]
          exact hlast
        · rw [(hbinPFb t htF hth).2]
          exact hlast
    · rw [if_neg hcb] at ht
      have htF : t ∈ F c := List.mem_of_mem_getLast? ht
      rw [(hbinPm c hc hcb t htF).2]
      exact hf_last c hc t ht
  · intro i hi
    by_cases hin : i = n
    · right
      refine ⟨(size_to_bin_index sz).1, hb256, ?_⟩
      simp [binsCons, hin]
    · have hiC : i ∈ l ++ r := by
        rcases List.mem_append.mp hi with h | h
        · exact List.mem_append_left _ h
        · rcases List.mem_cons.mp h with he | h2
          · exact absurd he hin
          · exact List.mem_append_right _ h2
      rcases hfib i hiC with hu | ⟨c, hc, hic⟩
      · exact Or.inl (husedP i hiC hu)
      · right
        refine ⟨c, hc, ?_⟩
        simp only [binsCons]
        split
        · exact List.mem_cons_of_mem _ hic
        · exact hic
  · exact bm_mark s s' (size_to_bin_index sz).2.1 (size_to_bin_index sz).2.2
      n hbm (by have := top_le_28 sz; omega) (bottom_lt_8 sz) hnU hS_tb hS_bb
      (by rw [hS_bl, ← hn, bin_index_eq])
  · intro a ha
    obtain ⟨h1, h2, h3⟩ := hh_val a ha
    exact ⟨hCup _ h1, husedP _ h1 h2, h3⟩
  · exact hh_nodup

/-- Mem links and geometry pass unchanged through an `upd` that rewrites
both bin links of its target. -/
theorem upd_with_binfields (g : Nat → Block) (tgt p q i : Nat) :
    ((upd g tgt ({ g tgt with bin_prev := p, bin_next := q })) i).mem_prev
        = (g i).mem_prev ∧
    ((upd g tgt ({ g tgt with bin_prev := p, bin_next := q })) i).mem_next
        = (g i).mem_next ∧
    ((upd g tgt ({ g tgt with bin_prev := p, bin_next := q })) i).offset
        = (g i).offset ∧
    ((upd g tgt ({ g tgt with bin_prev := p, bin_next := q })) i).size
        = (g i).size := by
  by_cases h : i = tgt
  · subst h
    rw [upd_same]
    exact ⟨rfl, rfl, rfl, rfl⟩
  · rw [upd_ne _ _ _ _ h]
    exact ⟨rfl, rfl, rfl, rfl⟩

/-- Mem links and geometry pass unchanged through an `upd` that rewrites
only the `bin_prev` of its target. -/
theorem upd_with_binprev (g : Nat → Block) (tgt p i : Nat) :
    ((upd g tgt ({ g tgt with bin_prev := p })) i).mem_prev
        = (g i).mem_prev ∧
    ((upd g tgt ({ g tgt with bin_prev := p })) i).mem_next
        = (g i).mem_next ∧
    ((upd g tgt ({ g tgt with bin_prev := p })) i).offset
        = (g i).offset ∧
    ((upd g tgt ({ g tgt with bin_prev := p })) i).size
        = (g i).size := by
  by_cases h : i = tgt
  · subst h
    rw [upd_same]
    exact ⟨rfl, rfl, rfl, rfl⟩
  · rw [upd_ne _ _ _ _ h]
    exact ⟨rfl, rfl, rfl, rfl⟩

/-- Mem links and geometry pass unchanged through an `upd` that rewrites
only the `bin_next` of its target. -/
theorem upd_with_binnext (g : Nat → Block) (tgt q i : Nat) :
    ((upd g tgt ({ g tgt with bin_next := q })) i).mem_prev
        = (g i).mem_prev ∧
    ((upd g tgt ({ g tgt with bin_next := q })) i).mem_next
        = (g i).mem_next ∧
    ((upd g tgt ({ g tgt with bin_next := q })) i).offset
        = (g i).offset ∧
    ((upd g tgt ({ g tgt with bin_next := q })) i).size
        = (g i).size := by
  by_cases h : i = tgt
  · subst h
    rw [upd_same]
    exact ⟨rfl, rfl, rfl, rfl⟩
  · rw [upd_ne _ _ _ _ h]
    exact ⟨rfl, rfl, rfl, rfl⟩

/-- `popBin` leaves the free stack contents unchanged. -/
theorem popBin_free_blocks (s : State) (t bo : Nat) :
    (popBin s t bo).free_blocks = s.free_blocks := by
  unfold popBin
  dsimp only
  split <;> rfl

/-- `popBin` replaces the popped bin's list head by the popped block's
`bin_next`. -/
theorem popBin_bin_lists (s : State) (t bo : Nat) :
    (popBin s t bo).bin_lists = upd s.bin_lists ((t <<< 3) ||| bo)
      ((s.blocks (s.bin_lists ((t <<< 3) ||| bo))).bin_next) := by
  unfold popBin
  dsimp only
  split <;> rfl

/-- `popBin` never touches mem links, offsets or sizes. -/
theorem popBin_mem_fields (s : State) (t bo i : Nat) :
    ((popBin s t bo).blocks i).mem_prev = (s.blocks i).mem_prev ∧
    ((popBin s t bo).blocks i).mem_next = (s.blocks i).mem_next ∧
    ((popBin s t bo).blocks i).offset = (s.blocks i).offset ∧
    ((popBin s t bo).blocks i).size = (s.blocks i).size := by
  unfold popBin
  dsimp only
  split
  · dsimp only
    refine ⟨?_, ?_, ?_, ?_⟩
    · exact ((upd_with_binfields _ _ _ _ i).1).trans
        ((upd_with_binprev _ _ _ i).1)
    · exact ((upd_with_binfields _ _ _ _ i).2.1).trans
        ((upd_with_binprev _ _ _ i).2.1)
    · exact ((upd_with_binfields _ _ _ _ i).2.2.1).trans
        ((upd_with_binprev _ _ _ i).2.2.1)
    · exact ((upd_with_binfields _ _ _ _ i).2.2.2).trans
        ((upd_with_binprev _ _ _ i).2.2.2)
  · dsimp only
    exact upd_with_binfields _ _ _ _ i

/-- `popBin` at the popped block: both bin links are cleared. -/
theorem popBin_at_popped (s : State) (t bo : Nat)
    (hne2 : (s.blocks (s.bin_lists ((t <<< 3) ||| bo))).bin_next
      ≠ s.bin_lists ((t <<< 3) ||| bo)) :
    (popBin s t bo).blocks (s.bin_lists ((t <<< 3) ||| bo)) =
      { s.blocks (s.bin_lists ((t <<< 3) ||| bo)) with
        bin_prev := UNUSED, bin_next := UNUSED } := by
  unfold popBin
  dsimp only
  split
  · dsimp only
    rw [upd_same, upd_ne _ _ _ _ (Ne.symm hne2)]
  · dsimp only
    rw [upd_same]

/-- `popBin` at the new head of the popped bin: it is promoted with a
`HEAD_BITS`-tagged `bin_prev`. -/
theorem popBin_at_second (s : State) (t bo : Nat)
    (hb2U : (s.blocks (s.bin_lists ((t <<< 3) ||| bo))).bin_next ≠ UNUSED)
    (hne2 : (s.blocks (s.bin_lists ((t <<< 3) ||| bo))).bin_next
      ≠ s.bin_lists ((t <<< 3) ||| bo)) :
    (popBin s t bo).blocks
        ((s.blocks (s.bin_lists ((t <<< 3) ||| bo))).bin_next) =
      { s.blocks ((s.blocks (s.bin_lists ((t <<< 3) ||| bo))).bin_next) with
        bin_prev := HEAD_BITS ||| ((t <<< 3) ||| bo) } := by
  unfold popBin
  dsimp only
  split
  · dsimp only
    rw [upd_ne _ _ _ _ hne2, upd_same]
  · next h => exact absurd hb2U h

/-- `popBin` away from the popped block and the promoted head. -/
theorem popBin_at_other (s : State) (t bo i : Nat)
    (h1 : i ≠ s.bin_lists ((t <<< 3) ||| bo))
    (h2 : i ≠ (s.blocks (s.bin_lists ((t <<< 3) ||| bo))).bin_next) :
    (popBin s t bo).blocks i = s.blocks i := by
  unfold popBin
  dsimp only
  split
  · dsimp only
    rw [upd_ne _ _ _ _ h1, upd_ne _ _ _ _ h2]
  · dsimp only
    rw [upd_ne _ _ _ _ h1]

/-- `popBin` leaves the bitmaps alone when the popped bin stays
non-empty. -/
theorem popBin_bins_pos (s : State) (t bo : Nat)
    (h : (s.blocks (s.bin_lists ((t <<< 3) ||| bo))).bin_next ≠ UNUSED) :
    (popBin s t bo).top_bins = s.top_bins ∧
    (popBin s t bo).bottom_bins = s.bottom_bins := by
  unfold popBin
  dsimp only
  rw [if_pos h]
  exact ⟨rfl, rfl⟩

/-- `popBin` clears the bitmap bits when the popped bin empties. -/
theorem popBin_bins_neg (s : State) (t bo : Nat)
    (h : (s.blocks (s.bin_lists ((t <<< 3) ||| bo))).bin_next = UNUSED) :
    (popBin s t bo).bottom_bins =
      upd s.bottom_bins t (s.bottom_bins t &&& (255 - (1 <<< bo))) ∧
    (popBin s t bo).top_bins =
      (if s.bottom_bins t &&& (255 - (1 <<< bo)) = 0
        then s.top_bins &&& (U32 - 1 - (1 <<< t)) else s.top_bins) := by
  unfold popBin
  dsimp only
  rw [if_neg (fun hc => hc h)]
  constructor
  · rfl
  · simp only [upd_same]

/-- Specification of the pop step of `alloc`: popping the head of a
non-empty bin preserves the full invariant, with the popped block turned
used and dropped from its bin list. -/
theorem pop_spec (s : State) (hs : List Allocation) (C : List Nat)
    (F : Nat → List Nat) (t bo : Nat)
    (hI : InvW s hs C F) (ht : t < 32) (hbo : bo < 8)
    (hne : s.bin_lists ((t <<< 3) ||| bo) ≠ UNUSED) :
    InvW (popBin s t bo) hs C (binsTail F ((t <<< 3) ||| bo)) := by
  obtain ⟨hfo_le, hmaxA, hc_nodup, hc_lt, hc_len, hsf, hsi, hsc, hwire,
    hhead, hlast, hadj, hf_sub, hf_nodup, hf_disj, hf_head, hf_hprev,
    hf_wire, hf_last, hfib, hbm, hh_val, hh_nodup⟩ := hI
  have hidx : (t <<< 3) ||| bo = 8 * t + bo := shiftLeft3_or_eq t bo hbo
  have hidx256 : (t <<< 3) ||| bo < 256 := by
    rw [hidx]
    omega
  have hFne : F ((t <<< 3) ||| bo) ≠ [] := by
    intro hc
    apply hne
    rw [hf_head _ hidx256, hc]
    rfl
  rcases hFb : F ((t <<< 3) ||| bo) with _ | ⟨h0, rest⟩
  · exact absurd hFb hFne
  have hh0 : s.bin_lists ((t <<< 3) ||| bo) = h0 := by
    rw [hf_head _ hidx256, hFb]
    rfl
  have hmemF : h0 ∈ F ((t <<< 3) ||| bo) := by
    rw [hFb]
    exact List.mem_cons_self _ _
  have h0C : h0 ∈ C := hf_sub _ hidx256 h0 hmemF
  have hC28 : ∀ i ∈ C, i < 2 ^ 28 :=
    fun i hi => lt_of_lt_of_le (hc_lt i hi) hmaxA
  have hCU : ∀ i ∈ C, i ≠ UNUSED := fun i hi => lt_ne_unused (hC28 i hi)
  have hndF : (h0 :: rest).Nodup := by
    rw [← hFb]
    exact hf_nodup _ hidx256
  have h0notrest : h0 ∉ rest := (List.nodup_cons.mp hndF).1
  have hrestF : ∀ i ∈ rest, i ∈ F ((t <<< 3) ||| bo) := by
    intro i hi
    rw [hFb]
    exact List.mem_cons_of_mem _ hi
  have hb2val : (s.blocks h0).bin_next = rest.headD UNUSED := by
    rcases rest with _ | ⟨r1, rt⟩
    · exact hf_last _ hidx256 h0 (by rw [hFb]; rfl)
    · have hw := hf_wire _ hidx256
      rw [hFb] at hw
      exact ((List.chain'_cons'.mp hw).1 r1 rfl).1
  have hb2e : (s.blocks (s.bin_lists ((t <<< 3) ||| bo))).bin_next
      = rest.headD UNUSED := by
    rw [hh0]
    exact hb2val
  have hb2ne : (s.blocks (s.bin_lists ((t <<< 3) ||| bo))).bin_next ≠
      s.bin_lists ((t <<< 3) ||| bo) := by
    rw [hb2e, hh0]
    rcases rest with _ | ⟨r1, rt⟩
    · exact fun hc => (hCU h0 h0C) hc.symm
    · intro hc
      apply h0notrest
      rw [← hc]
      exact List.mem_cons_self r1 rt
  have hpop : (popBin s t bo).blocks h0 =
      { s.blocks h0 with bin_prev := UNUSED, bin_next := UNUSED } := by
    have h2 := popBin_at_popped s t bo hb2ne
    rw [hh0] at h2
    exact h2
  have hpop_used :
      block_allocator_is_used ((popBin s t bo).blocks h0) = true := by
    rw [hpop]
    simp [block_allocator_is_used]
  have hother : ∀ i, i ≠ h0 → i ≠ UNUSED → i ≠ rest.headD UNUSED →
      (popBin s t bo).blocks i = s.blocks i := by
    intro i h1 h2 h3
    apply popBin_at_other
    · rw [hh0]
      exact h1
    · rw [hb2e]
      exact h3
  have hotherC : ∀ i ∈ C, i ≠ h0 → i ∉ rest →
      (popBin s t bo).blocks i = s.blocks i := by
    intro i hi h1 h2
    apply hother i h1 (hCU i hi)
    rcases hr : rest with _ | ⟨r1, rt⟩
    · exact hCU i hi
    · intro hc
      apply h2
      rw [hr, hc]
      exact List.mem_cons_self r1 rt
  have hsecond : ∀ r1 ∈ rest.head?, (popBin s t bo).blocks r1 =
      { s.blocks r1 with bin_prev := HEAD_BITS ||| ((t <<< 3) ||| bo) } := by
    intro r1 hr1
    rcases rest with _ | ⟨rh, rt⟩
    · simp at hr1
    · have hrh : rh = r1 := by simpa using hr1
      subst hrh
      have hrhF : rh ∈ F ((t <<< 3) ||| bo) :=
        hrestF rh (List.mem_cons_self _ _)
      have hrhC : rh ∈ C := hf_sub _ hidx256 rh hrhF
      have hb2eq : (s.blocks (s.bin_lists ((t <<< 3) ||| bo))).bin_next
          = rh := by
        rw [hb2e]
        rfl
      have hU1 : (s.blocks (s.bin_lists ((t <<< 3) ||| bo))).bin_next
          ≠ UNUSED := by
        rw [hb2eq]
        exact hCU rh hrhC
      have h2 := popBin_at_second s t bo hU1 hb2ne
      rw [hb2eq] at h2
      exact h2
  have husedP3 : ∀ i ∈ C, block_allocator_is_used (s.blocks i) = true →
      block_allocator_is_used ((popBin s t bo).blocks i) = true := by
    intro i hi hu
    by_cases h1 : i = h0
    · rw [h1]
      exact hpop_used
    · by_cases h2 : i = rest.headD UNUSED
      · exfalso
        rcases rest with _ | ⟨r1, rt⟩
        · exact hCU i hi h2
        · have h2' : i = r1 := h2
          have hfree := bin_member_not_used hidx256
            (hrestF i (by rw [h2']; exact List.mem_cons_self _ _))
            (fun j hj => hC28 j (hf_sub _ hidx256 j hj))
            (hf_hprev _ hidx256) (hf_wire _ hidx256)
          rw [hu] at hfree
          simp at hfree
      · rw [hother i h1 (hCU i hi) h2]
        exact hu
  refine ⟨?_, ?_, ?_, ?_, ?_, ?_, ?_, ?_, ?_, ?_, ?_, ?_, ?_, ?_, ?_, ?_,
    ?_, ?_, ?_, ?_, ?_, ?_, ?_⟩
  · rw [popBin_free_offset, popBin_max_allocs]
    exact hfo_le
  · rw [popBin_max_allocs]
    exact hmaxA
  · exact hc_nodup
  · intro i hi
    rw [popBin_max_allocs]
    exact hc_lt i hi
  · rw [popBin_free_offset]
    exact hc_len
  · intro j h1 h2
    rw [popBin_free_offset] at h1
    rw [popBin_max_allocs] at h2
    rw [popBin_free_blocks, popBin_max_allocs]
    exact hsf j h1 h2
  · intro j k h1 h2 h3
    rw [popBin_free_offset] at h1
    rw [popBin_max_allocs] at h3
    rw [popBin_free_blocks]
    exact hsi j k h1 h2 h3
  · intro i h1 h2
    rw [popBin_max_allocs] at h1
    rw [popBin_free_offset, popBin_max_allocs, popBin_free_blocks]
    exact hsc i h1 h2
  · exact chain'_memLink_congr (fun i _ => ⟨(popBin_mem_fields s t bo i).1,
      (popBin_mem_fields s t bo i).2.1⟩) hwire
  · intro h hh
    rw [(popBin_mem_fields s t bo h).1]
    exact hhead h hh
  · intro t' ht'
    rw [(popBin_mem_fields s t bo t').2.1]
    exact hlast t' ht'
  · exact chain'_notBothFree_mono husedP3 hadj
  · intro c hc i hi
    simp only [binsTail] at hi
    by_cases hcb : c = (t <<< 3) ||| bo
    · rw [if_pos hcb] at hi
      exact hf_sub c hc i (List.mem_of_mem_tail hi)
    · rw [if_neg hcb] at hi
      exact hf_sub c hc i hi
  · intro c hc
    simp only [binsTail]
    by_cases hcb : c = (t <<< 3) ||| bo
    · rw [if_pos hcb]
      exact (hf_nodup c hc).tail
    · rw [if_neg hcb]
      exact hf_nodup c hc
  · intro c c' hc hc' hcne i hi hi'
    simp only [binsTail] at hi hi'
    have hi2 : i ∈ F c := by
      by_cases hcb : c = (t <<< 3) ||| bo
      · rw [if_pos hcb] at hi
        exact List.mem_of_mem_tail hi
      · rw [if_neg hcb] at hi
        exact hi
    have hi2' : i ∈ F c' := by
      by_cases hcb : c' = (t <<< 3) ||| bo
      · rw [if_pos hcb] at hi'
        exact List.mem_of_mem_tail hi'
      · rw [if_neg hcb] at hi'
        exact hi'
    exact hf_disj c c' hc hc' hcne i hi2 hi2'
  · intro c hc
    rw [popBin_bin_lists]
    simp only [binsTail]
    by_cases hcb : c = (t <<< 3) ||| bo
    · subst hcb
      rw [if_pos rfl, upd_same, hb2e, hFb]
      rfl
    · rw [if_neg hcb, upd_ne _ _ _ _ hcb]
      exact hf_head c hc
  · intro c hc h hh
    simp only [binsTail] at hh
    by_cases hcb : c = (t <<< 3) ||| bo
    · rw [if_pos hcb] at hh
      subst hcb
      rw [hFb] at hh
      rw [hsecond h hh]
    · rw [if_neg hcb] at hh
      have hhF : h ∈ F c := List.mem_of_mem_head? hh
      have hhC : h ∈ C := hf_sub c hc h hhF
      rw [hotherC h hhC
        (fun he => hf_disj c _ hc hidx256 hcb h hhF (by rw [he]; exact hmemF))
        (fun hmem => hf_disj c _ hc hidx256 hcb h hhF (hrestF h hmem))]
      exact hf_hprev c hc h hh
  · intro c hc
    simp only [binsTail]
    by_cases hcb : c = (t <<< 3) ||| bo
    · subst hcb
      rw [if_pos rfl, hFb]
      show List.Chain' (binLink (popBin s t bo)) rest
      rcases rest with _ | ⟨r1, rt⟩
      · exact List.chain'_nil
      · have hwires := hf_wire _ hidx256
        rw [hFb] at hwires
        have hndrest : (r1 :: rt).Nodup := (List.nodup_cons.mp hndF).2
        have hr1rt : r1 ∉ rt := (List.nodup_cons.mp hndrest).1
        have htail := (List.chain'_cons'.mp hwires).2
        obtain ⟨hcr, hct⟩ := List.chain'_cons'.mp htail
        apply List.chain'_cons'.mpr
        constructor
        · intro y hy
          have hyrt : y ∈ rt := List.mem_of_mem_head? hy
          have hyC : y ∈ C := hf_sub _ hidx256 y
            (hrestF y (List.mem_cons_of_mem _ hyrt))
          have hlink := hcr y hy
          constructor
          · rw [hsecond r1 rfl]
            exact hlink.1
          · rw [hother y ?_ (hCU y hyC) ?_]
            · exact hlink.2
            · intro hc2
              apply h0notrest
              rw [← hc2]
              exact List.mem_cons_of_mem _ hyrt
            · intro hc2
              have hc2' : y = r1 := hc2
              apply hr1rt
              rw [← hc2']
              exact hyrt
        · apply chain'_binLink_congr ?_ hct
          intro i hi
          have hiC : i ∈ C := hf_sub _ hidx256 i
            (hrestF i (List.mem_cons_of_mem _ hi))
          rw [hother i ?_ (hCU i hiC) ?_]
          · exact ⟨rfl, rfl⟩
          · intro hc2
            apply h0notrest
            rw [← hc2]
            exact List.mem_cons_of_mem _ hi
          · intro hc2
            have hc2' : i = r1 := hc2
            apply hr1rt
            rw [← hc2']
            exact hi
    · rw [if_neg hcb]
      apply chain'_binLink_congr ?_ (hf_wire c hc)
      intro i hi
      have hiC : i ∈ C := hf_sub c hc i hi
      rw [hotherC i hiC
        (fun he => hf_disj c _ hc hidx256 hcb i hi (by rw [he]; exact hmemF))
        (fun hmem => hf_disj c _ hc hidx256 hcb i hi (hrestF i hmem))]
      exact ⟨rfl, rfl⟩
  · intro c hc t' ht'
    simp only [binsTail] at ht'
    by_cases hcb : c = (t <<< 3) ||| bo
    · rw [if_pos hcb] at ht'
      subst hcb
      rw [hFb] at ht'
      have htr : t' ∈ rest := List.mem_of_mem_getLast? ht'
      have ht'F : t' ∈ F ((t <<< 3) ||| bo) := hrestF t' htr
      have ht'C : t' ∈ C := hf_sub _ hidx256 t' ht'F
      have hlastv : (s.blocks t').bin_next = UNUSED := by
        apply hf_last _ hidx256
        rw [hFb]
        rcases rest with _ | ⟨r1, rt⟩
        · cases htr
        · rw [List.getLast?_cons_cons]
          exact ht'
      by_cases hsec : t' = rest.headD UNUSED
      · have hh't : t' ∈ rest.head? := by
          rcases rest with _ | ⟨r1, rt⟩
          · cases htr
          · have h1 : t' = r1 := hsec
            rw [h1]
            rfl
        rw [hsecond t' hh't]
        exact hlastv
      · rw [hother t' ?_ (hCU t' ht'C) hsec]
        · exact hlastv
        · intro he
          exact h0notrest (he ▸ htr)
    · rw [if_neg hcb] at ht'
      have ht'F : t' ∈ F c := List.mem_of_mem_getLast? ht'
      have ht'C : t' ∈ C := hf_sub c hc t' ht'F
      rw [hotherC t' ht'C
        (fun he => hf_disj c _ hc hidx256 hcb t' ht'F (by rw [he]; exact hmemF))
        (fun hmem => hf_disj c _ hc hidx256 hcb t' ht'F (hrestF t' hmem))]
      exact hf_last c hc t' ht'
  · intro i hi
    by_cases h1 : i = h0
    · left
      rw [h1]
      exact hpop_used
    · rcases hfib i hi with hu | ⟨c, hc, hiF⟩
      · exact Or.inl (husedP3 i hi hu)
      · right
        refine ⟨c, hc, ?_⟩
        simp only [binsTail]
        by_cases hcb : c = (t <<< 3) ||| bo
        · rw [if_pos hcb]
          subst hcb
          rw [hFb] at hiF ⊢
          rcases List.mem_cons.mp hiF with he | hm
          · exact absurd he h1
          · exact hm
        · rw [if_neg hcb]
          exact hiF
  · by_cases hcase :
        (s.blocks (s.bin_lists ((t <<< 3) ||| bo))).bin_next = UNUSED
    · apply bm_clear s (popBin s t bo) t bo hbm ht hbo
      · exact (popBin_bins_neg s t bo hcase).2
      · exact (popBin_bins_neg s t bo hcase).1
      · rw [popBin_bin_lists, hcase, hidx]
    · obtain ⟨htb32, hbb256, htcons, hbcons⟩ := hbm
      obtain ⟨hTB, hBB⟩ := popBin_bins_pos s t bo hcase
      refine ⟨?_, ?_, ?_, ?_⟩
      · rw [hTB]
        exact htb32
      · intro t2 ht2
        rw [hBB]
        exact hbb256 t2 ht2
      · intro t2 ht2
        rw [hTB, hBB]
        exact htcons t2 ht2
      · intro t2 ht2 b2 hb2
        rw [hBB, popBin_bin_lists]
        by_cases he : 8 * t2 + b2 = (t <<< 3) ||| bo
        · rw [he, upd_same]
          constructor
          · intro _
            exact hcase
          · intro _
            apply (hbcons t2 ht2 b2 hb2).mpr
            rw [he]
            exact hne
        · rw [upd_ne _ _ _ _ he]
          exact hbcons t2 ht2 b2 hb2
  · intro a ha
    obtain ⟨m1, m2, m3⟩ := hh_val a ha
    exact ⟨m1, husedP3 _ m1 m2, m3⟩
  · exact hh_nodup

/-- The invariant only reads the four link fields of each block, the
bitmaps, the bin lists and the free stack: it transports across any state
change preserving those (e.g. a `size` write or a `head_block` change). -/
theorem invW_blocks_congr (s s' : State) (hs : List Allocation)
    (C : List Nat) (F : Nat → List Nat) (hI : InvW s hs C F)
    (hb : ∀ i, (s'.blocks i).bin_prev = (s.blocks i).bin_prev ∧
      (s'.blocks i).bin_next = (s.blocks i).bin_next ∧
      (s'.blocks i).mem_prev = (s.blocks i).mem_prev ∧
      (s'.blocks i).mem_next = (s.blocks i).mem_next)
    (h1 : s'.top_bins = s.top_bins) (h2 : s'.bottom_bins = s.bottom_bins)
    (h3 : s'.bin_lists = s.bin_lists) (h4 : s'.free_blocks = s.free_blocks)
    (h5 : s'.free_offset = s.free_offset) (h6 : s'.max_allocs = s.max_allocs) :
    InvW s' hs C F := by
  obtain ⟨hfo_le, hmaxA, hc_nodup, hc_lt, hc_len, hsf, hsi, hsc, hwire,
    hhead, hlast, hadj, hf_sub, hf_nodup, hf_disj, hf_head, hf_hprev,
    hf_wire, hf_last, hfib, hbm, hh_val, hh_nodup⟩ := hI
  have hused : ∀ i, block_allocator_is_used (s'.blocks i)
      = block_allocator_is_used (s.blocks i) :=
    fun i => is_used_congr (hb i).1 (hb i).2.1
  refine ⟨?_, ?_, ?_, ?_, ?_, ?_, ?_, ?_, ?_, ?_, ?_, ?_, ?_, ?_, ?_, ?_,
    ?_, ?_, ?_, ?_, ?_, ?_, ?_⟩
  · rw [h5, h6]
    exact hfo_le
  · rw [h6]
    exact hmaxA
  · exact hc_nodup
  · intro i hi
    rw [h6]
    exact hc_lt i hi
  · rw [h5]
    exact hc_len
  · intro j hj1 hj2
    rw [h5] at hj1
    rw [h6] at hj2
    rw [h4, h6]
    exact hsf j hj1 hj2
  · intro j k hj1 hj2 hj3
    rw [h5] at hj1
    rw [h6] at hj3
    rw [h4]
    exact hsi j k hj1 hj2 hj3
  · intro i hi1 hi2
    rw [h6] at hi1
    rw [h5, h6, h4]
    exact hsc i hi1 hi2
  · exact chain'_memLink_congr (fun i _ => ⟨(hb i).2.2.1, (hb i).2.2.2⟩) hwire
  · intro h hh
    rw [(hb h).2.2.1]
    exact hhead h hh
  · intro t ht
    rw [(hb t).2.2.2]
    exact hlast t ht
  · exact chain'_notBothFree_mono (fun i _ hu => by rw [hused i]; exact hu)
      hadj
  · exact hf_sub
  · exact hf_nodup
  · exact hf_disj
  · intro c hc
    rw [h3]
    exact hf_head c hc
  · intro c hc h hh
    rw [(hb h).1]
    exact hf_hprev c hc h hh
  · intro c hc
    exact chain'_binLink_congr (fun i _ => ⟨(hb i).1, (hb i).2.1⟩)
      (hf_wire c hc)
  · intro c hc t ht
    rw [(hb t).2.1]
    exact hf_last c hc t ht
  · intro i hi
    rcases hfib i hi with hu | hmem
    · left
      rw [hused i]
      exact hu
    · exact Or.inr hmem
  · obtain ⟨b1, b2, b3, b4⟩ := hbm
    refine ⟨?_, ?_, ?_, ?_⟩
    · rw [h1]
      exact b1
    · intro t ht
      rw [h2]
      exact b2 t ht
    · intro t ht
      rw [h1, h2]
      exact b3 t ht
    · intro t ht b hb8
      rw [h2, h3]
      exact b4 t ht b hb8
  · intro a ha
    obtain ⟨m1, m2, m3⟩ := hh_val a ha
    refine ⟨m1, ?_, m3⟩
    rw [hused _]
    exact m2
  · exact hh_nodup

/-- All four link fields pass unchanged through an `upd` that rewrites
only the `size` of its target. -/
theorem upd_with_size (g : Nat → Block) (tgt v i : Nat) :
    ((upd g tgt ({ g tgt with size := v })) i).bin_prev = (g i).bin_prev ∧
    ((upd g tgt ({ g tgt with size := v })) i).bin_next = (g i).bin_next ∧
    ((upd g tgt ({ g tgt with size := v })) i).mem_prev = (g i).mem_prev ∧
    ((upd g tgt ({ g tgt with size := v })) i).mem_next = (g i).mem_next := by
  by_cases h : i = tgt
  · subst h
    rw [upd_same]
    exact ⟨rfl, rfl, rfl, rfl⟩
  · rw [upd_ne _ _ _ _ h]
    exact ⟨rfl, rfl, rfl, rfl⟩

/-- Specification of `alloc_found` on an invariant state: when the chosen
bin is non-empty and the call returns an allocation, the invariant holds
of the result, with the new handle tracked. -/
theorem alloc_found_spec (s : State) (hs : List Allocation) (C : List Nat)
    (F : Nat → List Nat) (size t bo : Nat) (a : Allocation)
    (hI : InvW s hs C F) (ht : t < 32) (hbo : bo < 8) (hsz : size ≠ 0)
    (hne : s.bin_lists ((t <<< 3) ||| bo) ≠ UNUSED)
    (hres : (alloc_found s size t bo).2 = some a) :
    ∃ C' F', InvW (alloc_found s size t bo).1 (a :: hs) C' F' := by
  have hidx256 : (t <<< 3) ||| bo < 256 := by
    rw [shiftLeft3_or_eq t bo hbo]
    omega
  have hFne : F ((t <<< 3) ||| bo) ≠ [] := by
    intro hc
    apply hne
    rw [hI.f_head _ hidx256, hc]
    rfl
  have hh0F : s.bin_lists ((t <<< 3) ||| bo) ∈ F ((t <<< 3) ||| bo) := by
    rcases hFb : F ((t <<< 3) ||| bo) with _ | ⟨h0, rest⟩
    · exact absurd hFb hFne
    · rw [hI.f_head _ hidx256, hFb]
      exact List.mem_cons_self _ _
  have hsub28 : ∀ c, c < 256 → ∀ i ∈ F c, i < 2 ^ 28 :=
    fun c hc i hi =>
      lt_of_lt_of_le (hI.c_lt i (hI.f_sub c hc i hi)) hI.maxA_le
  have hh0C : s.bin_lists ((t <<< 3) ||| bo) ∈ C :=
    hI.f_sub _ hidx256 _ hh0F
  have hh0free : block_allocator_is_used
      (s.blocks (s.bin_lists ((t <<< 3) ||| bo))) = false :=
    bin_member_not_used hidx256 hh0F (hsub28 _ hidx256)
      (hI.f_hprev _ hidx256) (hI.f_wire _ hidx256)
  have hI3 := pop_spec s hs C F t bo hI ht hbo hne
  have hh0nF3 : ∀ c, c < 256 →
      s.bin_lists ((t <<< 3) ||| bo) ∉ binsTail F ((t <<< 3) ||| bo) c := by
    intro c hc hmem
    simp only [binsTail] at hmem
    by_cases hcb : c = (t <<< 3) ||| bo
    · rw [if_pos hcb] at hmem
      have hnodup := hI.f_nodup _ hidx256
      rcases hFb : F ((t <<< 3) ||| bo) with _ | ⟨h0', rest⟩
      · exact absurd hFb hFne
      · rw [hcb, hFb] at hmem
        have hbl : s.bin_lists ((t <<< 3) ||| bo) = h0' := by
          rw [hI.f_head _ hidx256, hFb]
          rfl
        rw [hFb] at hnodup
        exact (List.nodup_cons.mp hnodup).1 (hbl ▸ hmem)
    · rw [if_neg hcb] at hmem
      exact hI.f_disj _ c hidx256 hc (fun he => hcb he.symm) _ hh0F hmem
  have hh0used3 : block_allocator_is_used ((popBin s t bo).blocks
      (s.bin_lists ((t <<< 3) ||| bo))) = true := by
    rcases hI3.free_in_bin _ hh0C with hu | ⟨c, hc, hmem⟩
    · exact hu
    · exact absurd hmem (hh0nF3 c hc)
  have hh0nh : s.bin_lists ((t <<< 3) ||| bo) ∉
      hs.map Allocation.metadata := by
    intro hmem
    obtain ⟨a', ha', hameta⟩ := List.mem_map.mp hmem
    have h2 := (hI.h_val a' ha').2.1
    rw [hameta, hh0free] at h2
    simp at h2
  obtain ⟨l₀, r₀, hC⟩ := List.append_of_mem hh0C
  subst hC
  have hshape : (l₀ ++ [s.bin_lists ((t <<< 3) ||| bo)]) ++ r₀ =
      l₀ ++ s.bin_lists ((t <<< 3) ||| bo) :: r₀ := by
    simp
  have hq : (s.blocks (s.bin_lists ((t <<< 3) ||| bo))).mem_next
      = (r₀.head?).getD UNUSED := by
    rcases r₀ with _ | ⟨q, rq⟩
    · apply hI.mem_last
      rw [List.getLast?_concat]
      rfl
    · have hsuf : List.Chain' (memLink s)
          (s.bin_lists ((t <<< 3) ||| bo) :: q :: rq) :=
        hI.mem_wire.suffix ⟨l₀, rfl⟩
      exact ((List.chain'_cons'.mp hsuf).1 q rfl).1
  have hmemnext3 : ((popBin s t bo).blocks
      (s.bin_lists ((t <<< 3) ||| bo))).mem_next
      = (s.blocks (s.bin_lists ((t <<< 3) ||| bo))).mem_next :=
    (popBin_mem_fields s t bo _).2.1
  have hqu : ((popBin s t bo).blocks
        (s.bin_lists ((t <<< 3) ||| bo))).mem_next ≠ UNUSED →
      block_allocator_is_used ((popBin s t bo).blocks
        (((popBin s t bo).blocks
          (s.bin_lists ((t <<< 3) ||| bo))).mem_next)) = true := by
    rw [hmemnext3, hq]
    intro hneq
    rcases r₀ with _ | ⟨q, rq⟩
    · exact absurd rfl hneq
    · show block_allocator_is_used ((popBin s t bo).blocks q) = true
      have hadjs : List.Chain' (notBothFree s)
          (s.bin_lists ((t <<< 3) ||| bo) :: q :: rq) :=
        hI.adj.suffix ⟨l₀, rfl⟩
      have hpair : notBothFree s (s.bin_lists ((t <<< 3) ||| bo)) q :=
        (List.chain'_cons'.mp hadjs).1 q rfl
      have hqus : block_allocator_is_used (s.blocks q) = true := by
        rcases hpair with h | h
        · rw [hh0free] at h
          simp at h
        · exact h
      have hqC : q ∈ l₀ ++ s.bin_lists ((t <<< 3) ||| bo) :: q :: rq :=
        List.mem_append_right _
          (List.mem_cons_of_mem _ (List.mem_cons_self _ _))
      rcases hI3.free_in_bin q hqC with hu3 | ⟨c, hc, hmem⟩
      · exact hu3
      · exfalso
        have hqF : q ∈ F c := by
          simp only [binsTail] at hmem
          by_cases hcb : c = (t <<< 3) ||| bo
          · rw [if_pos hcb] at hmem
            exact List.mem_of_mem_tail hmem
          · rw [if_neg hcb] at hmem
            exact hmem
        have hfree := bin_member_not_used hc hqF (hsub28 c hc)
          (hI.f_hprev c hc) (hI.f_wire c hc)
        rw [hqus] at hfree
        simp at hfree
  unfold alloc_found at hres ⊢
  dsimp only at hres ⊢
  by_cases hrem : sub32 ((popBin s t bo).blocks
      (s.bin_lists ((t <<< 3) ||| bo))).size size > 0
  · rw [if_pos hrem] at hres ⊢
    rcases hins : block_allocator_insert (popBin s t bo)
        (add32 ((popBin s t bo).blocks
          (s.bin_lists ((t <<< 3) ||| bo))).offset size)
        (sub32 ((popBin s t bo).blocks
          (s.bin_lists ((t <<< 3) ||| bo))).size size)
        (s.bin_lists ((t <<< 3) ||| bo))
        (((popBin s t bo).blocks
          (s.bin_lists ((t <<< 3) ||| bo))).mem_next) with _ | s4
    · rw [hins] at hres
      exact Option.noConfusion hres
    · rw [hins] at hres
      have ha := Option.some.inj hres
      refine ⟨(l₀ ++ [s.bin_lists ((t <<< 3) ||| bo)]) ++
          ((popBin s t bo).free_blocks (popBin s t bo).free_offset) :: r₀,
        binsCons (binsTail F ((t <<< 3) ||| bo))
          (size_to_bin_index (sub32 ((popBin s t bo).blocks
            (s.bin_lists ((t <<< 3) ||| bo))).size size)).1
          ((popBin s t bo).free_blocks (popBin s t bo).free_offset), ?_⟩
      have hI4 := insert_spec (popBin s t bo) s4
        (add32 ((popBin s t bo).blocks
          (s.bin_lists ((t <<< 3) ||| bo))).offset size)
        (sub32 ((popBin s t bo).blocks
          (s.bin_lists ((t <<< 3) ||| bo))).size size)
        (s.bin_lists ((t <<< 3) ||| bo))
        (((popBin s t bo).blocks
          (s.bin_lists ((t <<< 3) ||| bo))).mem_next)
        ((popBin s t bo).free_blocks (popBin s t bo).free_offset)
        (l₀ ++ [s.bin_lists ((t <<< 3) ||| bo)]) r₀
        (binsTail F ((t <<< 3) ||| bo))
        (a :: hs)
        hins rfl hI3.fo_le hI3.maxA_le
        (by rw [hshape]; exact hI3.c_nodup)
        (fun i hi => hI3.c_lt i (by rw [← hshape]; exact hi))
        (by rw [hshape]; exact hI3.c_len)
        (fun j h1 h2 => ⟨(hI3.stack_fresh j h1 h2).1,
          fun hmem => (hI3.stack_fresh j h1 h2).2
            (by rw [← hshape]; exact hmem)⟩)
        hI3.stack_inj
        (fun i h1 h2 => hI3.stack_complete i h1
          (fun hmem => h2 (by rw [hshape]; exact hmem)))
        (by rw [List.getLast?_concat]; rfl)
        (by rw [hmemnext3]; exact hq)
        ( hI3.mem_wire.prefix ⟨r₀, hshape⟩)
        (hI3.mem_wire.suffix ⟨l₀ ++ [s.bin_lists ((t <<< 3) ||| bo)],
          hshape⟩)
        (fun h hh => hI3.mem_head h (by
          rw [← hshape, List.head?_append_of_ne_nil _ (by simp)]
          exact hh))
        (fun t' ht' => hI3.mem_last t' (by
          rcases r₀ with _ | ⟨q, rq⟩
          · simp at ht'
          · rw [List.getLast?_append_cons, List.getLast?_cons_cons]
            exact ht'))
        ( hI3.adj.prefix ⟨r₀, hshape⟩)
        (hI3.adj.suffix ⟨l₀ ++ [s.bin_lists ((t <<< 3) ||| bo)], hshape⟩)
        (fun _ => hh0used3)
        hqu
        (fun c hc i hi => by
          rw [hshape]
          exact hI3.f_sub c hc i hi)
        hI3.f_nodup hI3.f_disj hI3.f_head hI3.f_hprev hI3.f_wire hI3.f_last
        (fun i hi => hI3.free_in_bin i (by rw [← hshape]; exact hi))
        hI3.bm
        (fun a'' ha'' => by
          rcases List.mem_cons.mp ha'' with rfl | hmem
          · refine ⟨?_, ?_, ?_⟩
            · rw [← ha]
              exact List.mem_append_left _ (by simp)
            · rw [← ha]
              exact hh0used3
            · rw [← ha]
              exact hsz
          · obtain ⟨m1, m2, m3⟩ := hI3.h_val a'' hmem
            exact ⟨by rw [hshape]; exact m1, m2, m3⟩)
        (List.nodup_cons.mpr ⟨by rw [← ha]; exact hh0nh, hI3.h_nodup⟩)
      exact invW_blocks_congr s4 _ _ _ _ hI4
        (fun i => upd_with_size s4.blocks
          (s.bin_lists ((t <<< 3) ||| bo)) size i)
        rfl rfl rfl rfl rfl rfl
  · rw [if_neg hrem] at hres ⊢
    have ha := Option.some.inj hres
    refine ⟨l₀ ++ s.bin_lists ((t <<< 3) ||| bo) :: r₀,
      binsTail F ((t <<< 3) ||| bo), ?_⟩
    have hIext : InvW (popBin s t bo) (a :: hs)
        (l₀ ++ s.bin_lists ((t <<< 3) ||| bo) :: r₀)
        (binsTail F ((t <<< 3) ||| bo)) := by
      obtain ⟨f1, f2, f3, f4, f5, f6, f7, f8, f9, f10, f11, f12, f13, f14,
        f15, f16, f17, f18, f19, f20, f21, f22, f23⟩ := hI3
      refine ⟨f1, f2, f3, f4, f5, f6, f7, f8, f9, f10, f11, f12, f13, f14,
        f15, f16, f17, f18, f19, f20, f21, ?_, ?_⟩
      · intro a'' ha''
        rcases List.mem_cons.mp ha'' with rfl | hmem
        · refine ⟨?_, ?_, ?_⟩
          · rw [← ha]
            exact List.mem_append_right _ (List.mem_cons_self _ _)
          · rw [← ha]
            exact hh0used3
          · rw [← ha]
            exact hsz
        · exact f22 a'' hmem
      · refine List.nodup_cons.mpr ⟨?_, f23⟩
        rw [← ha]
        exact hh0nh
    exact invW_blocks_congr (popBin s t bo) _ _ _ _ hIext
      (fun i => upd_with_size (popBin s t bo).blocks
        (s.bin_lists ((t <<< 3) ||| bo)) size i)
      rfl rfl rfl rfl rfl rfl

/-- A successful `block_allocator_alloc` preserves the invariant and
records the returned handle. -/
theorem alloc_spec (s : State) (hs : List Allocation) (size : Nat)
    (a : Allocation) (hI : Inv s hs)
    (hsucc : (block_allocator_alloc s size).2 = some a) :
    Inv (block_allocator_alloc s size).1 (a :: hs) := by
  obtain ⟨C, F, hIW⟩ := hI
  have hbm := hIW.bm
  unfold block_allocator_alloc at hsucc ⊢
  dsimp only at hsucc ⊢
  by_cases hs0 : size = 0
  · rw [if_pos hs0] at hsucc
    exact Option.noConfusion hsucc
  rw [if_neg hs0] at hsucc ⊢
  by_cases hbb : (if (size_to_bin_index size).2.2 = 7 then 0
      else s.bottom_bins (size_to_bin_index size).2.1 &&&
        (256 - (1 <<< ((size_to_bin_index size).2.2 + 1)))) ≠ 0
  · rw [if_pos hbb] at hsucc ⊢
    have h7 : (size_to_bin_index size).2.2 ≠ 7 := by
      intro hc
      rw [if_pos hc] at hbb
      exact hbb rfl
    rw [if_neg h7] at hbb hsucc ⊢
    have ht0 : (size_to_bin_index size).2.1 < 32 := by
      have := top_le_28 size
      omega
    have hv256 : s.bottom_bins (size_to_bin_index size).2.1 &&&
        (256 - (1 <<< ((size_to_bin_index size).2.2 + 1))) < 2 ^ 8 := by
      have h1 : s.bottom_bins (size_to_bin_index size).2.1 &&&
          (256 - (1 <<< ((size_to_bin_index size).2.2 + 1))) ≤
          s.bottom_bins (size_to_bin_index size).2.1 := Nat.and_le_left
      have h2 := hbm.2.1 _ ht0
      omega
    have hvpos : 0 < s.bottom_bins (size_to_bin_index size).2.1 &&&
        (256 - (1 <<< ((size_to_bin_index size).2.2 + 1))) :=
      Nat.pos_of_ne_zero hbb
    have hbo : ctz32 (s.bottom_bins (size_to_bin_index size).2.1 &&&
        (256 - (1 <<< ((size_to_bin_index size).2.2 + 1)))) < 8 :=
      ctz32_lt hvpos hv256 (by omega)
    have hbit : (s.bottom_bins (size_to_bin_index size).2.1).testBit
        (ctz32 (s.bottom_bins (size_to_bin_index size).2.1 &&&
          (256 - (1 <<< ((size_to_bin_index size).2.2 + 1))))) = true := by
      have h1 := (ctz32_spec hvpos (lt_of_lt_of_le hv256
        (Nat.pow_le_pow_right (by omega) (by omega)))).1
      rw [Nat.testBit_and] at h1
      exact (Bool.and_eq_true_iff.mp h1).1
    have hne : s.bin_lists
        (((size_to_bin_index size).2.1 <<< 3) |||
          (ctz32 (s.bottom_bins (size_to_bin_index size).2.1 &&&
            (256 - (1 <<< ((size_to_bin_index size).2.2 + 1)))))) ≠
        UNUSED := by
      rw [shiftLeft3_or_eq _ _ hbo]
      exact (hbm.2.2.2 _ ht0 _ hbo).mp hbit
    exact alloc_found_spec s hs C F size _ _ a hIW ht0 hbo hs0 hne hsucc
  · rw [if_neg hbb] at hsucc ⊢
    by_cases ht31 : (size_to_bin_index size).2.1 = 31
    · rw [if_pos ht31] at hsucc
      exact Option.noConfusion hsucc
    rw [if_neg ht31] at hsucc ⊢
    by_cases hbt : s.top_bins &&&
        (U32 - (1 <<< ((size_to_bin_index size).2.1 + 1))) = 0
    · rw [if_pos hbt] at hsucc
      exact Option.noConfusion hsucc
    rw [if_neg hbt] at hsucc ⊢
    have hvpos : 0 < s.top_bins &&&
        (U32 - (1 <<< ((size_to_bin_index size).2.1 + 1))) :=
      Nat.pos_of_ne_zero hbt
    have hv32 : s.top_bins &&&
        (U32 - (1 <<< ((size_to_bin_index size).2.1 + 1))) < 2 ^ 32 := by
      have h1 : s.top_bins &&&
          (U32 - (1 <<< ((size_to_bin_index size).2.1 + 1))) ≤ s.top_bins :=
        Nat.and_le_left
      have h2 := hbm.1
      omega
    have ht1 : ctz32 (s.top_bins &&&
        (U32 - (1 <<< ((size_to_bin_index size).2.1 + 1)))) < 32 :=
      ctz32_lt hvpos hv32 (le_refl _)
    have htbit : s.top_bins.testBit (ctz32 (s.top_bins &&&
        (U32 - (1 <<< ((size_to_bin_index size).2.1 + 1))))) = true := by
      have h1 := (ctz32_spec hvpos hv32).1
      rw [Nat.testBit_and] at h1
      exact (Bool.and_eq_true_iff.mp h1).1
    have hbbne : s.bottom_bins (ctz32 (s.top_bins &&&
        (U32 - (1 <<< ((size_to_bin_index size).2.1 + 1))))) ≠ 0 :=
      (hbm.2.2.1 _ ht1).mp htbit
    have hbbpos : 0 < s.bottom_bins (ctz32 (s.top_bins &&&
        (U32 - (1 <<< ((size_to_bin_index size).2.1 + 1))))) :=
      Nat.pos_of_ne_zero hbbne
    have hbb256 : s.bottom_bins (ctz32 (s.top_bins &&&
        (U32 - (1 <<< ((size_to_bin_index size).2.1 + 1))))) < 2 ^ 8 :=
      hbm.2.1 _ ht1
    have hbo1 : ctz32 (s.bottom_bins (ctz32 (s.top_bins &&&
        (U32 - (1 <<< ((size_to_bin_index size).2.1 + 1)))))) < 8 :=
      ctz32_lt hbbpos hbb256 (by omega)
    have hbit1 : (s.bottom_bins (ctz32 (s.top_bins &&&
        (U32 - (1 <<< ((size_to_bin_index size).2.1 + 1)))))).testBit
        (ctz32 (s.bottom_bins (ctz32 (s.top_bins &&&
          (U32 - (1 <<< ((size_to_bin_index size).2.1 + 1))))))) = true :=
      (ctz32_spec hbbpos (lt_of_lt_of_le hbb256
        (Nat.pow_le_pow_right (by omega) (by omega)))).1
    have hne : s.bin_lists
        ((ctz32 (s.top_bins &&&
          (U32 - (1 <<< ((size_to_bin_index size).2.1 + 1)))) <<< 3) |||
          (ctz32 (s.bottom_bins (ctz32 (s.top_bins &&&
            (U32 - (1 <<< ((size_to_bin_index size).2.1 + 1)))))))) ≠
        UNUSED := by
      rw [shiftLeft3_or_eq _ _ hbo1]
      exact (hbm.2.2.2 _ ht1 _ hbo1).mp hbit1
    exact alloc_found_spec s hs C F size _ _ a hIW ht1 hbo1 hs0 hne hsucc

/-- `block_allocator_remove` pushes the removed slot on the free stack. -/
theorem remove_stack (s : State) (x : Nat) :
    (block_allocator_remove s x).free_offset = sub32 s.free_offset 1 ∧
    (block_allocator_remove s x).free_blocks =
      upd s.free_blocks (sub32 s.free_offset 1) x ∧
    (block_allocator_remove s x).max_allocs = s.max_allocs := by
  unfold block_allocator_remove
  dsimp only
  split
  · exact ⟨rfl, rfl, rfl⟩
  · split
    · exact ⟨rfl, rfl, rfl⟩
    · exact ⟨rfl, rfl, rfl⟩

/-- `block_allocator_remove` never touches mem links, offsets or sizes. -/
theorem remove_mem_fields (s : State) (x i : Nat) :
    ((block_allocator_remove s x).blocks i).mem_prev
        = (s.blocks i).mem_prev ∧
    ((block_allocator_remove s x).blocks i).mem_next
        = (s.blocks i).mem_next ∧
    ((block_allocator_remove s x).blocks i).offset = (s.blocks i).offset ∧
    ((block_allocator_remove s x).blocks i).size = (s.blocks i).size := by
  unfold block_allocator_remove
  dsimp only
  split
  · dsimp only
    split
    · refine ⟨?_, ?_, ?_, ?_⟩
      · exact ((upd_with_binprev _ _ _ i).1).trans
          ((upd_with_binnext _ _ _ i).1)
      · exact ((upd_with_binprev _ _ _ i).2.1).trans
          ((upd_with_binnext _ _ _ i).2.1)
      · exact ((upd_with_binprev _ _ _ i).2.2.1).trans
          ((upd_with_binnext _ _ _ i).2.2.1)
      · exact ((upd_with_binprev _ _ _ i).2.2.2).trans
          ((upd_with_binnext _ _ _ i).2.2.2)
    · exact upd_with_binnext _ _ _ i
  · split
    · exact upd_with_binprev _ _ _ i
    · exact ⟨rfl, rfl, rfl, rfl⟩

/-- `remove` of a non-head block leaves bitmaps and bin lists alone. -/
theorem remove_nonhead_bins (s : State) (x : Nat)
    (h0 : (s.blocks x).bin_prev &&& HEAD_BITS = 0) :
    (block_allocator_remove s x).top_bins = s.top_bins ∧
    (block_allocator_remove s x).bottom_bins = s.bottom_bins ∧
    (block_allocator_remove s x).bin_lists = s.bin_lists := by
  unfold block_allocator_remove
  dsimp only
  rw [if_pos h0]
  exact ⟨rfl, rfl, rfl⟩

/-- `remove` of a non-head block, at its bin predecessor. -/
theorem remove_nonhead_at_pred (s : State) (x : Nat)
    (h0 : (s.blocks x).bin_prev &&& HEAD_BITS = 0)
    (h2 : (s.blocks x).bin_prev ≠ (s.blocks x).bin_next) :
    (block_allocator_remove s x).blocks ((s.blocks x).bin_prev) =
      { s.blocks ((s.blocks x).bin_prev) with
        bin_next := (s.blocks x).bin_next } := by
  unfold block_allocator_remove
  dsimp only
  rw [if_pos h0]
  dsimp only
  split
  · rw [upd_ne _ _ _ _ h2, upd_same]
  · rw [upd_same]

/-- `remove` of a non-head block, at its bin successor. -/
theorem remove_nonhead_at_succ (s : State) (x : Nat)
    (h0 : (s.blocks x).bin_prev &&& HEAD_BITS = 0)
    (h1 : (s.blocks x).bin_next ≠ UNUSED)
    (h2 : (s.blocks x).bin_next ≠ (s.blocks x).bin_prev) :
    (block_allocator_remove s x).blocks ((s.blocks x).bin_next) =
      { s.blocks ((s.blocks x).bin_next) with
        bin_prev := (s.blocks x).bin_prev } := by
  unfold block_allocator_remove
  dsimp only
  rw [if_pos h0]
  dsimp only
  split
  · rw [upd_same, upd_ne _ _ _ _ h2]
  · next h => exact absurd h1 h

/-- `remove` of a non-head block, away from both bin neighbours. -/
theorem remove_nonhead_at_other (s : State) (x i : Nat)
    (h0 : (s.blocks x).bin_prev &&& HEAD_BITS = 0)
    (hne1 : i ≠ (s.blocks x).bin_prev) (hne2 : i ≠ (s.blocks x).bin_next) :
    (block_allocator_remove s x).blocks i = s.blocks i := by
  unfold block_allocator_remove
  dsimp only
  rw [if_pos h0]
  dsimp only
  split
  · rw [upd_ne _ _ _ _ hne2, upd_ne _ _ _ _ hne1]
  · rw [upd_ne _ _ _ _ hne1]

/-- `remove` of a bin head repoints the bin list at its `bin_next`. -/
theorem remove_head_bin_lists (s : State) (x : Nat)
    (h0 : (s.blocks x).bin_prev &&& HEAD_BITS ≠ 0) :
    (block_allocator_remove s x).bin_lists =
      upd s.bin_lists ((s.blocks x).bin_prev &&& HEAD_MASK)
        ((s.blocks x).bin_next) := by
  unfold block_allocator_remove
  dsimp only
  rw [if_neg h0]
  split
  · rfl
  · rfl

/-- `remove` of a bin head, at the promoted successor. -/
theorem remove_head_at_succ (s : State) (x : Nat)
    (h0 : (s.blocks x).bin_prev &&& HEAD_BITS ≠ 0)
    (h1 : (s.blocks x).bin_next ≠ UNUSED) :
    (block_allocator_remove s x).blocks ((s.blocks x).bin_next) =
      { s.blocks ((s.blocks x).bin_next) with
        bin_prev := (s.blocks x).bin_prev } := by
  unfold block_allocator_remove
  dsimp only
  rw [if_neg h0]
  split
  · dsimp only
    rw [upd_same]
  · next h => exact absurd h1 h

/-- `remove` of a bin head, away from the promoted successor. -/
theorem remove_head_at_other (s : State) (x i : Nat)
    (h0 : (s.blocks x).bin_prev &&& HEAD_BITS ≠ 0)
    (hne2 : i ≠ (s.blocks x).bin_next) :
    (block_allocator_remove s x).blocks i = s.blocks i := by
  unfold block_allocator_remove
  dsimp only
  rw [if_neg h0]
  split
  · dsimp only
    rw [upd_ne _ _ _ _ hne2]
  · rfl

/-- `remove` of a bin head with a successor leaves the bitmaps alone. -/
theorem remove_head_bins_pos (s : State) (x : Nat)
    (h0 : (s.blocks x).bin_prev &&& HEAD_BITS ≠ 0)
    (h1 : (s.blocks x).bin_next ≠ UNUSED) :
    (block_allocator_remove s x).top_bins = s.top_bins ∧
    (block_allocator_remove s x).bottom_bins = s.bottom_bins := by
  unfold block_allocator_remove
  dsimp only
  rw [if_neg h0]
  rw [if_pos h1]
  exact ⟨rfl, rfl⟩

/-- `remove` of the sole member of a bin clears the bitmap bits. -/
theorem remove_head_bins_neg (s : State) (x : Nat)
    (h0 : (s.blocks x).bin_prev &&& HEAD_BITS ≠ 0)
    (h1 : (s.blocks x).bin_next = UNUSED) :
    (block_allocator_remove s x).bottom_bins =
      upd s.bottom_bins (((s.blocks x).bin_prev &&& HEAD_MASK) >>> 3)
        (s.bottom_bins (((s.blocks x).bin_prev &&& HEAD_MASK) >>> 3) &&&
          (255 - (1 <<< (((s.blocks x).bin_prev &&& HEAD_MASK) &&& 7)))) ∧
    (block_allocator_remove s x).top_bins =
      (if s.bottom_bins (((s.blocks x).bin_prev &&& HEAD_MASK) >>> 3) &&&
          (255 - (1 <<< (((s.blocks x).bin_prev &&& HEAD_MASK) &&& 7))) = 0
        then s.top_bins &&&
          (U32 - 1 - (1 <<< (((s.blocks x).bin_prev &&& HEAD_MASK) >>> 3)))
        else s.top_bins) := by
  unfold block_allocator_remove
  dsimp only
  rw [if_neg h0]
  rw [if_neg (fun hc => hc h1)]
  constructor
  · rfl
  · simp only [upd_same]

/-- `remove` of the sole member of a bin leaves all block records
untouched. -/
theorem remove_head_no_succ_blocks (s : State) (x : Nat)
    (h0 : (s.blocks x).bin_prev &&& HEAD_BITS ≠ 0)
    (h1 : (s.blocks x).bin_next = UNUSED) :
    (block_allocator_remove s x).blocks = s.blocks := by
  unfold block_allocator_remove
  dsimp only
  rw [if_neg h0]
  rw [if_neg (fun hc => hc h1)]

/-- `remove` of a non-head block with no bin successor, away from the
predecessor. -/
theorem remove_nonhead_no_succ_at_other (s : State) (x i : Nat)
    (h0 : (s.blocks x).bin_prev &&& HEAD_BITS = 0)
    (h1 : (s.blocks x).bin_next = UNUSED)
    (hne1 : i ≠ (s.blocks x).bin_prev) :
    (block_allocator_remove s x).blocks i = s.blocks i := by
  unfold block_allocator_remove
  dsimp only
  rw [if_pos h0]
  dsimp only
  rw [if_neg (fun hc => hc h1)]
  exact upd_ne _ _ _ _ hne1

/-- A block with a non-`UNUSED` `bin_prev` is not used. -/
theorem is_used_false_of_prev_ne {b : Block} (h : b.bin_prev ≠ UNUSED) :
    block_allocator_is_used b = false := by
  unfold block_allocator_is_used
  simp [h]

/-- A bin-list member's `bin_prev` is a head tag or a live index, never
`UNUSED`. -/
theorem bin_member_prev_ne {s : State} {F : Nat → List Nat} {b i : Nat}
    (hb : b < 256) (hi : i ∈ F b)
    (hFsub : ∀ i ∈ F b, i < 2 ^ 28)
    (hFhprev : ∀ h ∈ (F b).head?, (s.blocks h).bin_prev = HEAD_BITS ||| b)
    (hFwire : List.Chain' (binLink s) (F b)) :
    (s.blocks i).bin_prev ≠ UNUSED := by
  rcases hFb : F b with _ | ⟨h0, rest⟩
  · rw [hFb] at hi
    cases hi
  · rw [hFb] at hi hFhprev hFwire hFsub
    rcases List.mem_cons.mp hi with rfl | hmem
    · rw [hFhprev i (by simp)]
      exact head_or_ne_unused hb
    · obtain ⟨l1, l2, hsplit⟩ := List.append_of_mem hmem
      have hwire2 : List.Chain' (binLink s) ((h0 :: l1) ++ i :: l2) := by
        have h2 := hFwire
        rw [hsplit] at h2
        simpa using h2
      rcases List.chain'_append.mp hwire2 with ⟨_, _, hcross⟩
      have hL : (h0 :: l1).getLast (by simp) ∈ (h0 :: l1).getLast? := by
        rw [List.getLast?_eq_getLast _ (by simp)]
        rfl
      have hlink : binLink s ((h0 :: l1).getLast (by simp)) i :=
        hcross _ hL i (by simp)
      rw [hlink.2]
      apply lt_ne_unused
      apply hFsub
      have hLmem : (h0 :: l1).getLast (by simp) ∈ h0 :: l1 :=
        List.getLast_mem _
      have h3 : (h0 :: l1).getLast (by simp) ∈ (h0 :: l1) ++ i :: l2 :=
        List.mem_append_left _ hLmem
      rw [hsplit]
      simpa using h3

/-- Specification of `block_allocator_remove` on a bin member: the
bin-list structure survives with the member erased, and no block's
used/free status changes. -/
theorem remove_spec (s : State) (x bx : Nat) (F : Nat → List Nat)
    (hB : BinsOk s F) (hbx : bx < 256) (hx : x ∈ F bx) :
    BinsOk (block_allocator_remove s x) (binsErase F bx x) ∧
    (∀ i, block_allocator_is_used ((block_allocator_remove s x).blocks i)
      = block_allocator_is_used (s.blocks i)) := by
  obtain ⟨hsub28, hnodup, hdisj, hhead, hhprev, hwireF, hlastF, hbm⟩ := hB
  obtain ⟨u, v, hsplit⟩ := List.append_of_mem hx
  have hnodupbx : (u ++ x :: v).Nodup := by
    rw [← hsplit]
    exact hnodup _ hbx
  have hmid : (x :: (u ++ v)).Nodup := List.nodup_middle.mp hnodupbx
  have hxuv : x ∉ u ++ v := (List.nodup_cons.mp hmid).1
  have hnduv : (u ++ v).Nodup := (List.nodup_cons.mp hmid).2
  have hxnu : x ∉ u := fun h => hxuv (List.mem_append_left _ h)
  have hxnv : x ∉ v := fun h => hxuv (List.mem_append_right _ h)
  have hndv : v.Nodup := (List.nodup_append.mp hnduv).2.1
  have herase : (F bx).erase x = u ++ v := by
    rw [hsplit, List.erase_append_right _ hxnu, List.erase_cons_head]
  have hx28 : x < 2 ^ 28 := hsub28 _ hbx x hx
  have hxU : x ≠ UNUSED := lt_ne_unused hx28
  have hmemv : ∀ i ∈ v, i ∈ F bx := by
    intro i hi
    rw [hsplit]
    exact List.mem_append_right _ (List.mem_cons_of_mem _ hi)
  have hmemu : ∀ i ∈ u, i ∈ F bx := by
    intro i hi
    rw [hsplit]
    exact List.mem_append_left _ hi
  have hsufw : List.Chain' (binLink s) (x :: v) :=
    (hwireF _ hbx).suffix ⟨u, hsplit.symm⟩
  have hxn : (s.blocks x).bin_next = v.headD UNUSED := by
    rcases v with _ | ⟨q, v'⟩
    · apply hlastF _ hbx
      rw [hsplit, List.getLast?_concat]
      rfl
    · exact ((List.chain'_cons'.mp hsufw).1 q rfl).1
  have hsubE : ∀ c, c < 256 → ∀ i ∈ binsErase F bx x c, i < 2 ^ 28 := by
    intro c hc i hi
    simp only [binsErase] at hi
    by_cases hcb : c = bx
    · rw [if_pos hcb] at hi
      exact hsub28 c hc i (List.mem_of_mem_erase hi)
    · rw [if_neg hcb] at hi
      exact hsub28 c hc i hi
  have hmemE : ∀ c i, i ∈ binsErase F bx x c → i ∈ F c := by
    intro c i
    simp only [binsErase]
    by_cases hcb : c = bx
    · rw [if_pos hcb]
      exact List.mem_of_mem_erase
    · rw [if_neg hcb]
      exact id
  have hnodupE : ∀ c, c < 256 → (binsErase F bx x c).Nodup := by
    intro c hc
    simp only [binsErase]
    by_cases hcb : c = bx
    · rw [if_pos hcb]
      exact (hnodup c hc).erase x
    · rw [if_neg hcb]
      exact hnodup c hc
  have hdisjE : ∀ c c', c < 256 → c' < 256 → c ≠ c' →
      ∀ i ∈ binsErase F bx x c, i ∉ binsErase F bx x c' := by
    intro c c' hc hc' hcc i hi hi'
    exact hdisj c c' hc hc' hcc i (hmemE c i hi) (hmemE c' i hi')
  rcases List.eq_nil_or_concat' u with rfl | ⟨u', p, rfl⟩
  · -- x is the head of its bin
    rw [List.nil_append] at hsplit
    rw [List.nil_append] at herase
    have hblx : s.bin_lists bx = x := by
      rw [hhead _ hbx, hsplit]
      rfl
    have hxprev : (s.blocks x).bin_prev = HEAD_BITS ||| bx := by
      apply hhprev _ hbx
      rw [hsplit]
      rfl
    have h0' : (s.blocks x).bin_prev &&& HEAD_BITS ≠ 0 := by
      rw [hxprev]
      exact head_or_and_bits_ne
    have hmask : (s.blocks x).bin_prev &&& HEAD_MASK = bx := by
      rw [hxprev]
      exact head_or_and_mask hbx
    have hBL : (block_allocator_remove s x).bin_lists =
        upd s.bin_lists bx ((s.blocks x).bin_next) := by
      rw [remove_head_bin_lists s x h0', hmask]
    have hatq : ∀ q ∈ v.head?, (block_allocator_remove s x).blocks q =
        { s.blocks q with bin_prev := HEAD_BITS ||| bx } := by
      intro q hq
      rcases v with _ | ⟨q0, v'⟩
      · simp at hq
      · have hq0 : q0 = q := by simpa using hq
        subst hq0
        have hbn : (s.blocks x).bin_next = q0 := hxn
        have hbnU : (s.blocks x).bin_next ≠ UNUSED := by
          rw [hbn]
          exact lt_ne_unused (hsub28 _ hbx q0
            (hmemv q0 (List.mem_cons_self _ _)))
        have h2 := remove_head_at_succ s x h0' hbnU
        rw [hbn] at h2
        rw [h2, hxprev]
    have hotherA : ∀ i, i ≠ v.headD UNUSED → i ≠ UNUSED →
        (block_allocator_remove s x).blocks i = s.blocks i := by
      intro i h1 h2
      rcases v with _ | ⟨q0, v'⟩
      · rw [remove_head_no_succ_blocks s x h0' hxn]
      · apply remove_head_at_other s x i h0'
        rw [hxn]
        exact h1
    have husedA : ∀ i, block_allocator_is_used
        ((block_allocator_remove s x).blocks i)
        = block_allocator_is_used (s.blocks i) := by
      intro i
      by_cases h1 : i = v.headD UNUSED
      · rcases v with _ | ⟨q0, v'⟩
        · rw [remove_head_no_succ_blocks s x h0' hxn]
        · have h1' : i = q0 := h1
          subst h1'
          have hq0prev : (s.blocks i).bin_prev = x :=
            ((List.chain'_cons'.mp hsufw).1 i rfl).2
          have e2 : block_allocator_is_used (s.blocks i) = false :=
            is_used_false_of_prev_ne (by rw [hq0prev]; exact hxU)
          have e1 : block_allocator_is_used
              ((block_allocator_remove s x).blocks i) = false := by
            rw [hatq i rfl]
            exact is_used_false_of_prev_ne
              (show ({ s.blocks i with
                bin_prev := HEAD_BITS ||| bx }).bin_prev ≠ UNUSED from
                head_or_ne_unused hbx)
          rw [e1, e2]
      · by_cases h2 : i = UNUSED
        · rcases v with _ | ⟨q0, v'⟩
          · exact absurd h2 h1
          · have hq0ne : i ≠ (s.blocks x).bin_next := by
              rw [hxn, h2]
              intro hc
              have hc' : UNUSED = q0 := hc
              exact (lt_ne_unused (hsub28 _ hbx q0
                (hmemv q0 (List.mem_cons_self _ _)))) hc'.symm
            rw [remove_head_at_other s x i h0' hq0ne]
        · rw [hotherA i h1 h2]
    refine ⟨⟨hsubE, hnodupE, hdisjE, ?_, ?_, ?_, ?_, ?_⟩, husedA⟩
    · intro c hc
      simp only [binsErase]
      by_cases hcb : c = bx
      · subst hcb
        rw [if_pos rfl, hBL, upd_same, hxn, herase]
      · rw [if_neg hcb, hBL, upd_ne _ _ _ _ hcb]
        exact hhead c hc
    · intro c hc h hh
      simp only [binsErase] at hh
      by_cases hcb : c = bx
      · rw [if_pos hcb] at hh
        subst hcb
        rw [herase] at hh
        rw [hatq h hh]
      · rw [if_neg hcb] at hh
        have hhF : h ∈ F c := List.mem_of_mem_head? hh
        have hne1 : h ≠ v.headD UNUSED := by
          rcases v with _ | ⟨q0, v'⟩
          · exact lt_ne_unused (hsub28 c hc h hhF)
          · intro hc2
            have hc2' : h = q0 := hc2
            exact hdisj c bx hc hbx hcb h hhF
              (by rw [hc2']; exact hmemv q0 (List.mem_cons_self _ _))
        rw [hotherA h hne1 (lt_ne_unused (hsub28 c hc h hhF))]
        exact hhprev c hc h hh
    · intro c hc
      simp only [binsErase]
      by_cases hcb : c = bx
      · subst hcb
        rw [if_pos rfl, herase]
        rcases v with _ | ⟨q0, v'⟩
        · exact List.chain'_nil
        · have hq0v' : q0 ∉ v' := (List.nodup_cons.mp hndv).1
          obtain ⟨hcr, hct⟩ :=
            List.chain'_cons'.mp (List.chain'_cons'.mp hsufw).2
          apply List.chain'_cons'.mpr
          refine ⟨?_, ?_⟩
          · intro y hy
            have hyv' : y ∈ v' := List.mem_of_mem_head? hy
            have hlink := hcr y hy
            constructor
            · rw [hatq q0 rfl]
              exact hlink.1
            · have hyne : y ≠ q0 := by
                intro hc2
                exact hq0v' (hc2 ▸ hyv')
              rw [hotherA y hyne (lt_ne_unused (hsub28 _ hbx y
                (hmemv y (List.mem_cons_of_mem _ hyv'))))]
              exact hlink.2
          · apply chain'_binLink_congr ?_ hct
            intro i hi
            have hine : i ≠ q0 := by
              intro hc2
              exact hq0v' (hc2 ▸ hi)
            rw [hotherA i hine (lt_ne_unused (hsub28 _ hbx i
              (hmemv i (List.mem_cons_of_mem _ hi))))]
            exact ⟨rfl, rfl⟩
      · rw [if_neg hcb]
        apply chain'_binLink_congr ?_ (hwireF c hc)
        intro i hi
        have hne1 : i ≠ v.headD UNUSED := by
          rcases v with _ | ⟨q0, v'⟩
          · exact lt_ne_unused (hsub28 c hc i hi)
          · intro hc2
            have hc2' : i = q0 := hc2
            exact hdisj c bx hc hbx hcb i hi
              (by rw [hc2']; exact hmemv q0 (List.mem_cons_self _ _))
        rw [hotherA i hne1 (lt_ne_unused (hsub28 c hc i hi))]
        exact ⟨rfl, rfl⟩
    · intro c hc t' ht'
      simp only [binsErase] at ht'
      by_cases hcb : c = bx
      · rw [if_pos hcb] at ht'
        subst hcb
        rw [herase] at ht'
        have htv : t' ∈ v := List.mem_of_mem_getLast? ht'
        have hlastv : (s.blocks t').bin_next = UNUSED := by
          apply hlastF _ hbx
          rw [hsplit]
          rcases v with _ | ⟨q0, v'⟩
          · cases htv
          · rw [List.getLast?_cons_cons]
            exact ht'
        by_cases hth : t' = v.headD UNUSED
        · rcases v with _ | ⟨q0, v'⟩
          · cases htv
          · have h1' : t' = q0 := hth
            subst h1'
            rw [hatq t' rfl]
            exact hlastv
        · rw [hotherA t' hth (lt_ne_unused (hsub28 _ hbx t' (hmemv t' htv)))]
          exact hlastv
      · rw [if_neg hcb] at ht'
        have ht'F : t' ∈ F c := List.mem_of_mem_getLast? ht'
        have hne1 : t' ≠ v.headD UNUSED := by
          rcases v with _ | ⟨q0, v'⟩
          · exact lt_ne_unused (hsub28 c hc t' ht'F)
          · intro hc2
            have hc2' : t' = q0 := hc2
            exact hdisj c bx hc hbx hcb t' ht'F
              (by rw [hc2']; exact hmemv q0 (List.mem_cons_self _ _))
        rw [hotherA t' hne1 (lt_ne_unused (hsub28 c hc t' ht'F))]
        exact hlastF c hc t' ht'
    · rcases v with _ | ⟨q0, v'⟩
      · have hbnU : (s.blocks x).bin_next = UNUSED := hxn
        have ht32 : bx >>> 3 < 32 := by
          rw [Nat.shiftRight_eq_div_pow]
          omega
        have hmod : bx &&& 7 = bx % 8 := by
          have h7 : (7 : Nat) = 2 ^ 3 - 1 := by norm_num
          rw [h7, Nat.and_pow_two_sub_one_eq_mod]
        have hb8 : bx &&& 7 < 8 := by
          rw [hmod]
          omega
        have hdm : 8 * (bx >>> 3) + (bx &&& 7) = bx := by
          rw [Nat.shiftRight_eq_div_pow, hmod]
          have h8 : (2 : Nat) ^ 3 = 8 := by norm_num
          rw [h8]
          omega
        apply bm_clear s _ (bx >>> 3) (bx &&& 7) hbm ht32 hb8
        · rw [(remove_head_bins_neg s x h0' hbnU).2, hmask]
        · rw [(remove_head_bins_neg s x h0' hbnU).1, hmask]
        · rw [hBL, hbnU, hdm]
      · have hbnq : (s.blocks x).bin_next = q0 := hxn
        have hbnU : (s.blocks x).bin_next ≠ UNUSED := by
          rw [hbnq]
          exact lt_ne_unused (hsub28 _ hbx q0
            (hmemv q0 (List.mem_cons_self _ _)))
        obtain ⟨hTB, hBB⟩ := remove_head_bins_pos s x h0' hbnU
        obtain ⟨b1, b2, b3, b4⟩ := hbm
        refine ⟨?_, ?_, ?_, ?_⟩
        · rw [hTB]
          exact b1
        · intro t2 ht2
          rw [hBB]
          exact b2 t2 ht2
        · intro t2 ht2
          rw [hTB, hBB]
          exact b3 t2 ht2
        · intro t2 ht2 b5 hb5
          rw [hBB, hBL]
          by_cases he : 8 * t2 + b5 = bx
          · rw [he, upd_same, hbnq]
            constructor
            · intro _
              exact lt_ne_unused (hsub28 _ hbx q0
                (hmemv q0 (List.mem_cons_self _ _)))
            · intro _
              apply (b4 t2 ht2 b5 hb5).mpr
              rw [he, hblx]
              exact hxU
          · rw [upd_ne _ _ _ _ he]
            exact b4 t2 ht2 b5 hb5
  · -- x is not the head: it has a bin predecessor p
    have hpu : p ∈ u' ++ [p] := by simp
    have hpF : p ∈ F bx := hmemu p hpu
    have hp28 : p < 2 ^ 28 := hsub28 _ hbx p hpF
    have hchainF := hwireF _ hbx
    rw [hsplit] at hchainF
    obtain ⟨hchu, hchxv, hcross⟩ := List.chain'_append.mp hchainF
    have hlinkpx : binLink s p x := by
      apply hcross p ?_ x rfl
      rw [List.getLast?_concat]
      rfl
    have hxprev : (s.blocks x).bin_prev = p := hlinkpx.2
    have hpn : (s.blocks p).bin_next = x := hlinkpx.1
    have h0 : (s.blocks x).bin_prev &&& HEAD_BITS = 0 := by
      rw [hxprev]
      exact lt_head_bits_and hp28
    obtain ⟨hTB, hBB, hBL⟩ := remove_nonhead_bins s x h0
    have hpnv : p ∉ v := by
      intro hc
      rcases List.nodup_append.mp hnduv with ⟨_, _, hdj⟩
      exact hdj hpu hc
    have hpbnne : (s.blocks x).bin_prev ≠ (s.blocks x).bin_next := by
      rw [hxprev, hxn]
      rcases v with _ | ⟨q0, v'⟩
      · exact lt_ne_unused hp28
      · intro hc
        have hc' : p = q0 := hc
        exact hpnv (by rw [hc']; exact List.mem_cons_self _ _)
    have hatp : (block_allocator_remove s x).blocks p =
        { s.blocks p with bin_next := (s.blocks x).bin_next } := by
      have h2 := remove_nonhead_at_pred s x h0 hpbnne
      rw [hxprev] at h2
      exact h2
    have hatq : ∀ q ∈ v.head?, (block_allocator_remove s x).blocks q =
        { s.blocks q with bin_prev := p } := by
      intro q hq
      rcases v with _ | ⟨q0, v'⟩
      · simp at hq
      · have hq0 : q0 = q := by simpa using hq
        subst hq0
        have hbnq : (s.blocks x).bin_next = q0 := hxn
        have hbnU : (s.blocks x).bin_next ≠ UNUSED := by
          rw [hbnq]
          exact lt_ne_unused (hsub28 _ hbx q0
            (hmemv q0 (List.mem_cons_self _ _)))
        have h2 := remove_nonhead_at_succ s x h0 hbnU
          (fun hc => hpbnne hc.symm)
        rw [hbnq] at h2
        rw [h2, hxprev]
    have hotherB : ∀ i, i ≠ p → i ≠ v.headD UNUSED → i ≠ UNUSED →
        (block_allocator_remove s x).blocks i = s.blocks i := by
      intro i h1 h2 h3
      rcases v with _ | ⟨q0, v'⟩
      · apply remove_nonhead_no_succ_at_other s x i h0 hxn
        rw [hxprev]
        exact h1
      · apply remove_nonhead_at_other s x i h0
        · rw [hxprev]
          exact h1
        · rw [hxn]
          exact h2
    have hpprev_ne : (s.blocks p).bin_prev ≠ UNUSED :=
      bin_member_prev_ne hbx hpF (hsub28 _ hbx) (hhprev _ hbx)
        (hwireF _ hbx)
    have husedB : ∀ i, block_allocator_is_used
        ((block_allocator_remove s x).blocks i)
        = block_allocator_is_used (s.blocks i) := by
      intro i
      by_cases h1 : i = p
      · subst h1
        have e2 : block_allocator_is_used (s.blocks i) = false :=
          is_used_false_of_prev_ne hpprev_ne
        have e1 : block_allocator_is_used
            ((block_allocator_remove s x).blocks i) = false := by
          rw [hatp]
          exact is_used_false_of_prev_ne
            (show ({ s.blocks i with
              bin_next := (s.blocks x).bin_next }).bin_prev ≠ UNUSED from
              hpprev_ne)
        rw [e1, e2]
      · by_cases h2 : i = v.headD UNUSED
        · rcases v with _ | ⟨q0, v'⟩
          · rw [remove_nonhead_no_succ_at_other s x i h0 hxn
              (by rw [hxprev]; exact h1)]
          · have h2' : i = q0 := h2
            subst h2'
            have hq0prev : (s.blocks i).bin_prev = x :=
              ((List.chain'_cons'.mp hsufw).1 i rfl).2
            have e2 : block_allocator_is_used (s.blocks i) = false :=
              is_used_false_of_prev_ne (by rw [hq0prev]; exact hxU)
            have e1 : block_allocator_is_used
                ((block_allocator_remove s x).blocks i) = false := by
              rw [hatq i rfl]
              exact is_used_false_of_prev_ne
                (show ({ s.blocks i with bin_prev := p }).bin_prev ≠ UNUSED
                  from lt_ne_unused hp28)
            rw [e1, e2]
        · by_cases h3 : i = UNUSED
          · rcases v with _ | ⟨q0, v'⟩
            · exact absurd h3 h2
            · have hune : i ≠ (s.blocks x).bin_next := by
                rw [hxn, h3]
                intro hc
                have hc' : UNUSED = q0 := hc
                exact (lt_ne_unused (hsub28 _ hbx q0
                  (hmemv q0 (List.mem_cons_self _ _)))) hc'.symm
              rw [remove_nonhead_at_other s x i h0
                (by rw [hxprev, h3]; exact Ne.symm (lt_ne_unused hp28))
                hune]
          · rw [hotherB i h1 h2 h3]
    refine ⟨⟨hsubE, hnodupE, hdisjE, ?_, ?_, ?_, ?_, ?_⟩, husedB⟩
    · intro c hc
      simp only [binsErase]
      by_cases hcb : c = bx
      · subst hcb
        rw [if_pos rfl, hBL, herase, hhead _ hbx, hsplit]
        rcases u' with _ | ⟨u0, u''⟩
        · rfl
        · rfl
      · rw [if_neg hcb, hBL]
        exact hhead c hc
    · intro c hc h hh
      simp only [binsErase] at hh
      by_cases hcb : c = bx
      · rw [if_pos hcb] at hh
        rw [hcb] at hh ⊢
        rw [herase] at hh
        rw [List.head?_append_of_ne_nil _ (by simp)] at hh
        have hold := hhprev _ hbx h (by
          rw [hsplit, List.head?_append_of_ne_nil _ (by simp)]
          exact hh)
        by_cases hhp : h = p
        · rw [hhp, hatp]
          show (s.blocks p).bin_prev = HEAD_BITS ||| bx
          rw [← hhp]
          exact hold
        · have hhu : h ∈ u' ++ [p] := List.mem_of_mem_head? hh
          have hne2 : h ≠ v.headD UNUSED := by
            rcases v with _ | ⟨q0, v'⟩
            · exact lt_ne_unused (hsub28 _ hbx h (hmemu h hhu))
            · intro hc2
              have hc2' : h = q0 := hc2
              rcases List.nodup_append.mp hnduv with ⟨_, _, hdj⟩
              exact hdj hhu (by rw [hc2']; exact List.mem_cons_self _ _)
          rw [hotherB h hhp hne2
            (lt_ne_unused (hsub28 _ hbx h (hmemu h hhu)))]
          exact hold
      · rw [if_neg hcb] at hh
        have hhF : h ∈ F c := List.mem_of_mem_head? hh
        have hnp : h ≠ p :=
          fun hc2 => hdisj c bx hc hbx hcb h hhF (hc2 ▸ hpF)
        have hne2 : h ≠ v.headD UNUSED := by
          rcases v with _ | ⟨q0, v'⟩
          · exact lt_ne_unused (hsub28 c hc h hhF)
          · intro hc2
            have hc2' : h = q0 := hc2
            exact hdisj c bx hc hbx hcb h hhF
              (by rw [hc2']; exact hmemv q0 (List.mem_cons_self _ _))
        rw [hotherB h hnp hne2 (lt_ne_unused (hsub28 c hc h hhF))]
        exact hhprev c hc h hh
    · intro c hc
      simp only [binsErase]
      by_cases hcb : c = bx
      · subst hcb
        rw [if_pos rfl, herase]
        obtain ⟨hcu', hcpp, hcrossup⟩ := List.chain'_append.mp hchu
        apply List.chain'_append.mpr
        refine ⟨?_, ?_, ?_⟩
        · apply List.chain'_append.mpr
          refine ⟨?_, List.chain'_singleton p, ?_⟩
          · apply chain'_binLink_congr ?_ hcu'
            intro i hi
            have hiu : i ∈ u' ++ [p] := List.mem_append_left _ hi
            have hip : i ≠ p := by
              intro hc2
              have hndu : (u' ++ [p]).Nodup := (List.nodup_append.mp hnduv).1
              rcases List.nodup_append.mp hndu with ⟨_, _, hdj⟩
              exact hdj (hc2 ▸ hi) (by simp)
            have hiv : i ≠ v.headD UNUSED := by
              rcases v with _ | ⟨q0, v'⟩
              · exact lt_ne_unused (hsub28 _ hbx i (hmemu i hiu))
              · intro hc2
                have hc2' : i = q0 := hc2
                rcases List.nodup_append.mp hnduv with ⟨_, _, hdj⟩
                exact hdj hiu (by rw [hc2']; exact List.mem_cons_self _ _)
            rw [hotherB i hip hiv
              (lt_ne_unused (hsub28 _ hbx i (hmemu i hiu)))]
            exact ⟨rfl, rfl⟩
          · intro a ha b hb
            have hb' : p = b := by simpa using hb
            subst hb'
            have holda := hcrossup a ha p hb
            have hau : a ∈ u' := List.mem_of_mem_getLast? ha
            have hau2 : a ∈ u' ++ [p] := List.mem_append_left _ hau
            have hap : a ≠ p := by
              intro hc2
              have hndu : (u' ++ [p]).Nodup := (List.nodup_append.mp hnduv).1
              rcases List.nodup_append.mp hndu with ⟨_, _, hdj⟩
              exact hdj (hc2 ▸ hau) (by simp)
            have hav : a ≠ v.headD UNUSED := by
              rcases v with _ | ⟨q0, v'⟩
              · exact lt_ne_unused (hsub28 _ hbx a (hmemu a hau2))
              · intro hc2
                have hc2' : a = q0 := hc2
                rcases List.nodup_append.mp hnduv with ⟨_, _, hdj⟩
                exact hdj hau2 (by rw [hc2']; exact List.mem_cons_self _ _)
            constructor
            · rw [hotherB a hap hav
                (lt_ne_unused (hsub28 _ hbx a (hmemu a hau2)))]
              exact holda.1
            · rw [hatp]
              show (s.blocks p).bin_prev = a
              exact holda.2
        · rcases v with _ | ⟨q0, v'⟩
          · exact List.chain'_nil
          · have hq0v' : q0 ∉ v' := (List.nodup_cons.mp hndv).1
            obtain ⟨hcr, hct⟩ :=
              List.chain'_cons'.mp (List.chain'_cons'.mp hsufw).2
            apply List.chain'_cons'.mpr
            refine ⟨?_, ?_⟩
            · intro y hy
              have hyv' : y ∈ v' := List.mem_of_mem_head? hy
              have hlink := hcr y hy
              have hyp : y ≠ p := by
                intro hc2
                exact hpnv (hc2 ▸ List.mem_cons_of_mem _ hyv')
              have hyq : y ≠ q0 := by
                intro hc2
                exact hq0v' (hc2 ▸ hyv')
              constructor
              · rw [hatq q0 rfl]
                exact hlink.1
              · rw [hotherB y hyp hyq (lt_ne_unused (hsub28 _ hbx y
                  (hmemv y (List.mem_cons_of_mem _ hyv'))))]
                exact hlink.2
            · apply chain'_binLink_congr ?_ hct
              intro i hi
              have hip : i ≠ p := by
                intro hc2
                exact hpnv (hc2 ▸ List.mem_cons_of_mem _ hi)
              have hiq : i ≠ q0 := by
                intro hc2
                exact hq0v' (hc2 ▸ hi)
              rw [hotherB i hip hiq (lt_ne_unused (hsub28 _ hbx i
                (hmemv i (List.mem_cons_of_mem _ hi))))]
              exact ⟨rfl, rfl⟩
        · intro a ha b hb2
          have hap : p = a := by
            rw [List.getLast?_concat] at ha
            simpa using ha
          subst hap
          constructor
          · rw [hatp]
            show (s.blocks x).bin_next = b
            rw [hxn]
            rcases v with _ | ⟨q0, v'⟩
            · simp at hb2
            · have hb2' : q0 = b := by simpa using hb2
              rw [← hb2']
              rfl
          · rw [hatq b hb2]
      · rw [if_neg hcb]
        apply chain'_binLink_congr ?_ (hwireF c hc)
        intro i hi
        have hnp : i ≠ p :=
          fun hc2 => hdisj c bx hc hbx hcb i hi (hc2 ▸ hpF)
        have hne2 : i ≠ v.headD UNUSED := by
          rcases v with _ | ⟨q0, v'⟩
          · exact lt_ne_unused (hsub28 c hc i hi)
          · intro hc2
            have hc2' : i = q0 := hc2
            exact hdisj c bx hc hbx hcb i hi
              (by rw [hc2']; exact hmemv q0 (List.mem_cons_self _ _))
        rw [hotherB i hnp hne2 (lt_ne_unused (hsub28 c hc i hi))]
        exact ⟨rfl, rfl⟩
    · intro c hc t' ht'
      simp only [binsErase] at ht'
      by_cases hcb : c = bx
      · rw [if_pos hcb] at ht'
        subst hcb
        rw [herase] at ht'
        rcases v with _ | ⟨q0, v'⟩
        · have ht'p : p = t' := by
            rw [List.append_nil, List.getLast?_concat] at ht'
            simpa using ht'
          subst ht'p
          rw [hatp]
          show (s.blocks x).bin_next = UNUSED
          exact hxn
        · rw [List.getLast?_append_cons] at ht'
          have htv : t' ∈ q0 :: v' := List.mem_of_mem_getLast? ht'
          have hlastv : (s.blocks t').bin_next = UNUSED := by
            apply hlastF _ hbx
            rw [hsplit, List.getLast?_append_cons,
              List.getLast?_cons_cons]
            exact ht'
          by_cases hth : t' = q0
          · subst hth
            rw [hatq t' rfl]
            exact hlastv
          · have ht'p : t' ≠ p := by
              intro hc2
              exact hpnv (hc2 ▸ htv)
            rw [hotherB t' ht'p hth (lt_ne_unused (hsub28 _ hbx t'
              (hmemv t' htv)))]
            exact hlastv
      · rw [if_neg hcb] at ht'
        have ht'F : t' ∈ F c := List.mem_of_mem_getLast? ht'
        have hnp : t' ≠ p :=
          fun hc2 => hdisj c bx hc hbx hcb t' ht'F (hc2 ▸ hpF)
        have hne2 : t' ≠ v.headD UNUSED := by
          rcases v with _ | ⟨q0, v'⟩
          · exact lt_ne_unused (hsub28 c hc t' ht'F)
          · intro hc2
            have hc2' : t' = q0 := hc2
            exact hdisj c bx hc hbx hcb t' ht'F
              (by rw [hc2']; exact hmemv q0 (List.mem_cons_self _ _))
        rw [hotherB t' hnp hne2 (lt_ne_unused (hsub28 c hc t' ht'F))]
        exact hlastF c hc t' ht'
    · obtain ⟨b1, b2, b3, b4⟩ := hbm
      refine ⟨?_, ?_, ?_, ?_⟩
      · rw [hTB]
        exact b1
      · intro t2 ht2
        rw [hBB]
        exact b2 t2 ht2
      · intro t2 ht2
        rw [hTB, hBB]
        exact b3 t2 ht2
      · intro t2 ht2 b5 hb5
        rw [hBB, hBL]
        exact b4 t2 ht2 b5 hb5

/-- Final assembly step of `block_allocator_free`: after the coalescing
removes have produced state `s3` (chain segment `seg` detached, its slots
pushed on the stack, bins `F3`), a successful insert of the coalesced
block between the flanks `l` and `r` restores the full invariant, with
the freed handle dropped. -/
theorem free_assemble (s s3 s4 : State) (hs : List Allocation)
    (a : Allocation) (l seg r : List Nat) (F F3 : Nat → List Nat)
    (o sz mp mn : Nat)
    (hIW : InvW s hs ((l ++ seg) ++ r) F)
    (hmem : a ∈ hs)
    (hsegm : a.metadata ∈ seg)
    (hfo3 : s3.free_offset = s.free_offset - seg.length)
    (hmax3 : s3.max_allocs = s.max_allocs)
    (hfb3 : ∀ j, s.free_offset ≤ j → s3.free_blocks j = s.free_blocks j)
    (hfb3' : ∀ j, s3.free_offset ≤ j → j < s.free_offset →
      s3.free_blocks j ∈ seg)
    (hfb3'' : ∀ i ∈ seg, ∃ j, s3.free_offset ≤ j ∧ j < s.free_offset ∧
      s3.free_blocks j = i)
    (hfb3inj : ∀ j k, s3.free_offset ≤ j → j < k → k < s.free_offset →
      s3.free_blocks j ≠ s3.free_blocks k)
    (hmemf : ∀ i, (s3.blocks i).mem_prev = (s.blocks i).mem_prev ∧
      (s3.blocks i).mem_next = (s.blocks i).mem_next)
    (hused3 : ∀ i, block_allocator_is_used (s3.blocks i)
      = block_allocator_is_used (s.blocks i))
    (hB3 : BinsOk s3 F3)
    (hF3sub : ∀ c i, i ∈ F3 c → i ∈ F c)
    (hF3mem : ∀ c, c < 256 → ∀ i ∈ F c, i ∉ seg → i ∈ F3 c)
    (hsegF3 : ∀ i ∈ seg, ∀ c, c < 256 → i ∉ F3 c)
    (hsegfree : ∀ i ∈ seg, i ≠ a.metadata →
      block_allocator_is_used (s.blocks i) = false)
    (hmp : mp = l.getLast?.getD UNUSED)
    (hmn : mn = r.head?.getD UNUSED)
    (hmpu : mp ≠ UNUSED → block_allocator_is_used (s.blocks mp) = true)
    (hmnu : mn ≠ UNUSED → block_allocator_is_used (s.blocks mn) = true)
    (hins : block_allocator_insert s3 o sz mp mn = some s4) :
    Inv s4 (hs.erase a) := by
  have hlenC := hIW.c_len
  have hfo_le := hIW.fo_le
  have hseglen : seg.length ≤ s.free_offset := by
    rw [← hlenC]
    simp [List.length_append]
    omega
  have hsub : List.Sublist (l ++ r) ((l ++ seg) ++ r) :=
    (List.sublist_append_left l seg).append (List.Sublist.refl r)
  have hndC := hIW.c_nodup
  have hnd : (l ++ r).Nodup := hndC.sublist hsub
  have hsegl : ∀ i ∈ seg, i ∉ l := by
    intro i hi hc
    rcases List.nodup_append.mp ((List.nodup_append.mp hndC).1) with
      ⟨_, _, hdj⟩
    exact hdj hc hi
  have hsegr : ∀ i ∈ seg, i ∉ r := by
    intro i hi hc
    rcases List.nodup_append.mp hndC with ⟨_, _, hdj⟩
    exact hdj (List.mem_append_right _ hi) hc
  have hseglr : ∀ i ∈ seg, i ∉ l ++ r := by
    intro i hi hc
    rcases List.mem_append.mp hc with h | h
    · exact hsegl i hi h
    · exact hsegr i hi h
  have hmemC : ∀ i ∈ l ++ r, i ∈ (l ++ seg) ++ r := fun i hi => hsub.mem hi
  have hsegC : ∀ i ∈ seg, i ∈ (l ++ seg) ++ r := fun i hi =>
    List.mem_append_left _ (List.mem_append_right _ hi)
  have hlrC : ∀ i, i ∈ (l ++ seg) ++ r → i ∉ seg → i ∈ l ++ r := by
    intro i hi hns
    rcases List.mem_append.mp hi with h | h
    · rcases List.mem_append.mp h with h2 | h2
      · exact List.mem_append_left _ h2
      · exact absurd h2 hns
    · exact List.mem_append_right _ h
  have hmused : block_allocator_is_used (s.blocks a.metadata) = true :=
    (hIW.h_val a hmem).2.1
  have hsC28 : ∀ i ∈ (l ++ seg) ++ r, i < 2 ^ 28 :=
    fun i hi => lt_of_lt_of_le (hIW.c_lt i hi) hIW.maxA_le
  refine ⟨l ++ (s3.free_blocks s3.free_offset) :: r,
    binsCons F3 (size_to_bin_index sz).1 (s3.free_blocks s3.free_offset),
    ?_⟩
  apply insert_spec s3 s4 o sz mp mn (s3.free_blocks s3.free_offset) l r F3
    (hs.erase a) hins rfl
  · rw [hfo3, hmax3]
    omega
  · rw [hmax3]
    exact hIW.maxA_le
  · exact hnd
  · intro i hi
    rw [hmax3]
    exact hIW.c_lt i (hmemC i hi)
  · rw [hfo3, ← hlenC]
    simp [List.length_append]
    omega
  · intro j h1 h2
    rw [hmax3] at h2 ⊢
    by_cases hzone : s.free_offset ≤ j
    · rw [hfb3 j hzone]
      have h3 := hIW.stack_fresh j hzone h2
      refine ⟨h3.1, fun hc => h3.2 (hmemC _ hc)⟩
    · push_neg at hzone
      have hseg := hfb3' j h1 hzone
      refine ⟨hIW.c_lt _ (hsegC _ hseg), hseglr _ hseg⟩
  · intro j k h1 h2 h3
    rw [hmax3] at h3
    by_cases hzj : s.free_offset ≤ j
    · rw [hfb3 j hzj, hfb3 k (by omega)]
      exact hIW.stack_inj j k hzj h2 h3
    · push_neg at hzj
      by_cases hzk : s.free_offset ≤ k
      · rw [hfb3 k hzk]
        have hsj := hfb3' j h1 hzj
        have h4 := hIW.stack_fresh k hzk h3
        intro hc
        exact h4.2 (hc ▸ hsegC _ hsj)
      · push_neg at hzk
        exact hfb3inj j k h1 h2 hzk
  · intro i h1 h2
    rw [hmax3] at h1
    by_cases hiC : i ∈ (l ++ seg) ++ r
    · have hiseg : i ∈ seg := by
        by_contra hc
        exact h2 (hlrC i hiC hc)
      obtain ⟨j, hj1, hj2, hj3⟩ := hfb3'' i hiseg
      exact ⟨j, hj1, by rw [hmax3]; omega, hj3⟩
    · obtain ⟨j, hj1, hj2, hj3⟩ := hIW.stack_complete i h1 hiC
      refine ⟨j, by rw [hfo3]; omega, by rw [hmax3]; exact hj2, ?_⟩
      rw [hfb3 j hj1]
      exact hj3
  · exact hmp
  · exact hmn
  · refine chain'_memLink_congr (fun i _ => hmemf i) ?_
    exact hIW.mem_wire.prefix ⟨seg ++ r, (List.append_assoc l seg r).symm⟩
  · refine chain'_memLink_congr (fun i _ => hmemf i) ?_
    exact hIW.mem_wire.suffix ⟨l ++ seg, rfl⟩
  · intro h hh
    have hlne : l ≠ [] := by
      intro hc
      rw [hc] at hh
      simp at hh
    rw [(hmemf h).1]
    apply hIW.mem_head
    rw [List.head?_append_of_ne_nil _ (by
      intro hc
      exact hlne (List.append_eq_nil.mp hc).1)]
    rw [List.head?_append_of_ne_nil _ hlne]
    exact hh
  · intro t ht
    have hrne : r ≠ [] := by
      intro hc
      rw [hc] at ht
      simp at ht
    rw [(hmemf t).2]
    apply hIW.mem_last
    rw [List.getLast?_append_of_ne_nil _ hrne]
    exact ht
  · refine chain'_notBothFree_mono (fun i _ hu => by rw [hused3 i]; exact hu)
      ?_
    exact hIW.adj.prefix ⟨seg ++ r, (List.append_assoc l seg r).symm⟩
  · refine chain'_notBothFree_mono (fun i _ hu => by rw [hused3 i]; exact hu)
      ?_
    exact hIW.adj.suffix ⟨l ++ seg, rfl⟩
  · intro h
    rw [hused3 mp]
    exact hmpu h
  · intro h
    rw [hused3 mn]
    exact hmnu h
  · intro c hc i hi
    have hiF : i ∈ F c := hF3sub c i hi
    have hiC : i ∈ (l ++ seg) ++ r := hIW.f_sub c hc i hiF
    apply hlrC i hiC
    intro hiseg
    exact hsegF3 i hiseg c hc hi
  · exact hB3.nodup
  · exact hB3.disj
  · exact hB3.head
  · exact hB3.hprev
  · exact hB3.wire
  · exact hB3.last
  · intro i hi
    rcases hIW.free_in_bin i (hmemC i hi) with hu | ⟨c, hc, hiF⟩
    · left
      rw [hused3 i]
      exact hu
    · right
      refine ⟨c, hc, hF3mem c hc i hiF ?_⟩
      intro hiseg
      exact hseglr i hiseg hi
  · exact hB3.bm
  · intro a' ha'
    have ha'hs : a' ∈ hs := List.mem_of_mem_erase ha'
    obtain ⟨m1, m2, m3⟩ := hIW.h_val a' ha'hs
    have hane : a' ≠ a := by
      intro hc
      subst hc
      have hndhs : hs.Nodup := List.Nodup.of_map _ hIW.h_nodup
      exact (hndhs.not_mem_erase) ha'
    have hmetane : a'.metadata ≠ a.metadata := by
      intro hc
      apply hane
      exact List.inj_on_of_nodup_map hIW.h_nodup ha'hs hmem hc
    refine ⟨?_, ?_, m3⟩
    · apply hlrC _ m1
      intro hseg2
      by_cases hc : a'.metadata = a.metadata
      · exact hmetane hc
      · have hfree := hsegfree _ hseg2 hc
        rw [m2] at hfree
        simp at hfree
    · rw [hused3]
      exact m2
  · have hsub2 : List.Sublist ((hs.erase a).map Allocation.metadata)
        (hs.map Allocation.metadata) :=
      (List.erase_sublist a hs).map _
    exact hIW.h_nodup.sublist hsub2

/-- The free stack pointer of an invariant state is below `2^32`. -/
theorem fo_lt_u32 {s : State} (h1 : s.free_offset ≤ s.max_allocs)
    (h2 : s.max_allocs ≤ 2 ^ 28) : s.free_offset < U32 := by
  have h3 : (2 : Nat) ^ 28 = 268435456 := by norm_num
  have h4 : U32 = 4294967296 := rfl
  omega

/-- Erasing from one bin only shrinks the bin lists. -/
theorem binsErase_subset (F : Nat → List Nat) (b x c i : Nat)
    (hi : i ∈ binsErase F b x c) : i ∈ F c := by
  unfold binsErase at hi
  split at hi
  · exact List.mem_of_mem_erase hi
  · exact hi

/-- Membership in a bin survives erasing a different element. -/
theorem binsErase_mem_of_ne (F : Nat → List Nat) (b x c i : Nat)
    (hne : i ≠ x) (hi : i ∈ F c) : i ∈ binsErase F b x c := by
  unfold binsErase
  split
  · exact (List.mem_erase_of_ne hne).mpr hi
  · exact hi

/-- The erased element is gone from every bin (given per-bin nodup and
that it only ever sat in bin `b`). -/
theorem binsErase_not_mem_self (F : Nat → List Nat) (b x c : Nat)
    (hnd : (F b).Nodup) (hdisj : c ≠ b → x ∉ F c) :
    x ∉ binsErase F b x c := by
  unfold binsErase
  split
  · next hcb =>
      subst hcb
      exact hnd.not_mem_erase
  · next hcb => exact hdisj hcb

/-- `block_allocator_free`, no-coalesce case: freeing `a.metadata` when
neither spatial neighbour is absorbed pushes the slot and reinserts the
block over the same chain gap. -/
theorem free_case0 (s s4 : State) (hs : List Allocation) (a : Allocation)
    (l r : List Nat) (F : Nat → List Nat) {o sz mp mn : Nat}
    (hIW : InvW s hs (l ++ a.metadata :: r) F)
    (hmem : a ∈ hs)
    (hmp : mp = (s.blocks a.metadata).mem_prev)
    (hmn : mn = (s.blocks a.metadata).mem_next)
    (hmpu_s : mp ≠ UNUSED → block_allocator_is_used (s.blocks mp) = true)
    (hmnu_s : mn ≠ UNUSED → block_allocator_is_used (s.blocks mn) = true)
    (hins : block_allocator_insert
      { s with free_offset := sub32 s.free_offset 1,
               free_blocks := upd s.free_blocks (sub32 s.free_offset 1)
                 a.metadata } o sz mp mn = some s4) :
    Inv s4 (hs.erase a) := by
  have hfo_le := hIW.fo_le
  have hmaxA := hIW.maxA_le
  have hfoU : s.free_offset < U32 := fo_lt_u32 hfo_le hmaxA
  have hmu : block_allocator_is_used (s.blocks a.metadata) = true :=
    (hIW.h_val a hmem).2.1
  have hfo1 : 1 ≤ s.free_offset := by
    rw [← hIW.c_len]
    simp only [List.length_append, List.length_cons]
    omega
  have e1 : sub32 s.free_offset 1 = s.free_offset - 1 :=
    sub32_one_eq (by omega) hfoU
  have hsub28 : ∀ c, c < 256 → ∀ i ∈ F c, i < 2 ^ 28 := fun c hc i hi =>
    lt_of_lt_of_le (hIW.c_lt i (hIW.f_sub c hc i hi)) hIW.maxA_le
  have hBs : BinsOk s F := ⟨hsub28, hIW.f_nodup, hIW.f_disj, hIW.f_head,
    hIW.f_hprev, hIW.f_wire, hIW.f_last, hIW.bm⟩
  have hB1 : BinsOk
      { s with free_offset := sub32 s.free_offset 1,
               free_blocks := upd s.free_blocks (sub32 s.free_offset 1)
                 a.metadata }
      F := ⟨hBs.sub28, hBs.nodup, hBs.disj, hBs.head, hBs.hprev, hBs.wire,
        hBs.last, hBs.bm⟩
  have hm_prev : (s.blocks a.metadata).mem_prev = l.getLast?.getD UNUSED := by
    rcases List.eq_nil_or_concat' l with rfl | ⟨l2, p2, rfl⟩
    · have h0 := hIW.mem_head a.metadata (by simp)
      rw [h0]
      rfl
    · rcases List.chain'_append.mp (show List.Chain' (memLink s)
          ((l2 ++ [p2]) ++ a.metadata :: r) from hIW.mem_wire) with
        ⟨_, _, hcr⟩
      have hlk := hcr p2 (by rw [List.getLast?_concat]; rfl) a.metadata rfl
      rw [hlk.2, List.getLast?_concat]
      rfl
  have hm_next : (s.blocks a.metadata).mem_next = r.head?.getD UNUSED := by
    rcases r with _ | ⟨y, r2⟩
    · apply hIW.mem_last
      rw [List.getLast?_append_of_ne_nil _ (by simp)]
      rfl
    · have hsuf : List.Chain' (memLink s) (a.metadata :: y :: r2) :=
        hIW.mem_wire.suffix ⟨l, rfl⟩
      exact ((List.chain'_cons'.mp hsuf).1 y rfl).1
  have hshape : l ++ a.metadata :: r = (l ++ [a.metadata]) ++ r := by simp
  have hIW2 : InvW s hs ((l ++ [a.metadata]) ++ r) F := by
    rw [← hshape]
    exact hIW
  refine free_assemble s
    { s with free_offset := sub32 s.free_offset 1,
             free_blocks := upd s.free_blocks (sub32 s.free_offset 1)
               a.metadata }
    s4 hs a l [a.metadata] r F F o sz mp mn hIW2 hmem (by simp) e1 rfl
    ?_ ?_ ?_ ?_ (fun i => ⟨rfl, rfl⟩) (fun i => rfl) hB1
    (fun c i h => h) (fun c hc i hi _ => hi) ?_ ?_
    (hmp.trans hm_prev) (hmn.trans hm_next) hmpu_s hmnu_s hins
  · intro j hj
    show upd s.free_blocks (sub32 s.free_offset 1) a.metadata j
      = s.free_blocks j
    rw [e1]
    exact upd_ne _ _ _ _ (by omega)
  · intro j h1 h2
    have h1' : sub32 s.free_offset 1 ≤ j := h1
    rw [e1] at h1'
    show upd s.free_blocks (sub32 s.free_offset 1) a.metadata j
      ∈ [a.metadata]
    rw [e1]
    rcases (by omega : j = s.free_offset - 1) with rfl
    rw [upd_same]
    simp
  · intro i hi
    have hi' : i = a.metadata := by simpa using hi
    subst hi'
    refine ⟨s.free_offset - 1, ?_, by omega, ?_⟩
    · show sub32 s.free_offset 1 ≤ s.free_offset - 1
      rw [e1]
    · show upd s.free_blocks (sub32 s.free_offset 1) a.metadata
        (s.free_offset - 1) = a.metadata
      rw [e1, upd_same]
  · intro j k h1 h2 h3
    have h1' : sub32 s.free_offset 1 ≤ j := h1
    rw [e1] at h1'
    omega
  · intro i hi c hc hiF
    have hi' : i = a.metadata := by simpa using hi
    subst hi'
    have hfree := bin_member_not_used hc hiF (hsub28 c hc)
      (hIW.f_hprev c hc) (hIW.f_wire c hc)
    rw [hmu] at hfree
    exact Bool.noConfusion hfree
  · intro i hi hne
    have hi' : i = a.metadata := by simpa using hi
    exact absurd hi' hne

/-- `block_allocator_free`, absorb-previous case: the free spatial
predecessor `p` is unlinked from its bin and the coalesced block is
reinserted over the widened gap. -/
theorem free_case_p (s s4 : State) (hs : List Allocation) (a : Allocation)
    (l r : List Nat) (F : Nat → List Nat) (bp p : Nat) {o sz mp mn : Nat}
    (hIW : InvW s hs ((l ++ [p]) ++ a.metadata :: r) F)
    (hmem : a ∈ hs)
    (hpfree : block_allocator_is_used (s.blocks p) = false)
    (hbp : bp < 256) (hpF : p ∈ F bp)
    (hmp : mp = (s.blocks p).mem_prev)
    (hmn : mn = (s.blocks a.metadata).mem_next)
    (hmnu_s : mn ≠ UNUSED → block_allocator_is_used (s.blocks mn) = true)
    (hins : block_allocator_insert
      (block_allocator_remove
        { s with free_offset := sub32 s.free_offset 1,
                 free_blocks := upd s.free_blocks (sub32 s.free_offset 1)
                   a.metadata } p) o sz mp mn = some s4) :
    Inv s4 (hs.erase a) := by
  have hfo_le := hIW.fo_le
  have hmaxA := hIW.maxA_le
  have hfoU : s.free_offset < U32 := fo_lt_u32 hfo_le hmaxA
  have hmu : block_allocator_is_used (s.blocks a.metadata) = true :=
    (hIW.h_val a hmem).2.1
  have hfo2p : 2 ≤ s.free_offset := by
    rw [← hIW.c_len]
    simp only [List.length_append, List.length_cons, List.length_nil]
    omega
  have e1 : sub32 s.free_offset 1 = s.free_offset - 1 :=
    sub32_one_eq (by omega) hfoU
  have e2 : sub32 (s.free_offset - 1) 1 = s.free_offset - 2 := by
    rw [sub32_one_eq (by omega) (by omega)]
    omega
  have hsub28 : ∀ c, c < 256 → ∀ i ∈ F c, i < 2 ^ 28 := fun c hc i hi =>
    lt_of_lt_of_le (hIW.c_lt i (hIW.f_sub c hc i hi)) hIW.maxA_le
  have hBs : BinsOk s F := ⟨hsub28, hIW.f_nodup, hIW.f_disj, hIW.f_head,
    hIW.f_hprev, hIW.f_wire, hIW.f_last, hIW.bm⟩
  have hB1 : BinsOk
      { s with free_offset := sub32 s.free_offset 1,
               free_blocks := upd s.free_blocks (sub32 s.free_offset 1)
                 a.metadata }
      F := ⟨hBs.sub28, hBs.nodup, hBs.disj, hBs.head, hBs.hprev, hBs.wire,
        hBs.last, hBs.bm⟩
  obtain ⟨hB2, hu2⟩ := remove_spec _ p bp F hB1 hbp hpF
  have hpm : p ≠ a.metadata := by
    intro hc
    rcases List.nodup_append.mp hIW.c_nodup with ⟨_, _, hdisj⟩
    exact hdisj (show p ∈ l ++ [p] by simp)
      (show p ∈ a.metadata :: r by rw [hc]; simp)
  have hCr : (l ++ [p]) ++ a.metadata :: r = l ++ p :: a.metadata :: r := by
    simp
  have hfo2e : (block_allocator_remove
      { s with free_offset := sub32 s.free_offset 1,
               free_blocks := upd s.free_blocks (sub32 s.free_offset 1)
                 a.metadata } p).free_offset = s.free_offset - 2 := by
    rw [(remove_stack _ p).1]
    show sub32 (sub32 s.free_offset 1) 1 = _
    rw [e1, e2]
  have hfb2e : (block_allocator_remove
      { s with free_offset := sub32 s.free_offset 1,
               free_blocks := upd s.free_blocks (sub32 s.free_offset 1)
                 a.metadata } p).free_blocks
      = upd (upd s.free_blocks (s.free_offset - 1) a.metadata)
          (s.free_offset - 2) p := by
    rw [(remove_stack _ p).2.1]
    show upd (upd s.free_blocks (sub32 s.free_offset 1) a.metadata)
        (sub32 (sub32 s.free_offset 1) 1) p = _
    rw [e1, e2]
  have hma2 : (block_allocator_remove
      { s with free_offset := sub32 s.free_offset 1,
               free_blocks := upd s.free_blocks (sub32 s.free_offset 1)
                 a.metadata } p).max_allocs = s.max_allocs :=
    (remove_stack _ p).2.2
  have hp_prev : (s.blocks p).mem_prev = l.getLast?.getD UNUSED := by
    rcases List.eq_nil_or_concat' l with rfl | ⟨l2, p2, rfl⟩
    · have h0 := hIW.mem_head p (by simp)
      rw [h0]
      rfl
    · have hw := hIW.mem_wire
      rw [hCr] at hw
      rcases List.chain'_append.mp hw with ⟨_, _, hcr⟩
      have hlk := hcr p2 (by rw [List.getLast?_concat]; rfl) p rfl
      rw [hlk.2, List.getLast?_concat]
      rfl
  have hm_next : (s.blocks a.metadata).mem_next = r.head?.getD UNUSED := by
    rcases r with _ | ⟨y, r2⟩
    · apply hIW.mem_last
      rw [List.getLast?_append_of_ne_nil _ (by simp)]
      rfl
    · have hsuf : List.Chain' (memLink s) (a.metadata :: y :: r2) :=
        hIW.mem_wire.suffix ⟨l ++ [p], rfl⟩
      exact ((List.chain'_cons'.mp hsuf).1 y rfl).1
  have hshape : (l ++ [p]) ++ a.metadata :: r
      = (l ++ [p, a.metadata]) ++ r := by simp
  have hIW2 : InvW s hs ((l ++ [p, a.metadata]) ++ r) F := by
    rw [← hshape]
    exact hIW
  refine free_assemble s
    (block_allocator_remove
      { s with free_offset := sub32 s.free_offset 1,
               free_blocks := upd s.free_blocks (sub32 s.free_offset 1)
                 a.metadata } p)
    s4 hs a l [p, a.metadata] r F (binsErase F bp p) o sz mp mn hIW2 hmem
    (by simp) hfo2e hma2 ?_ ?_ ?_ ?_
    (fun i => ⟨(remove_mem_fields _ p i).1, (remove_mem_fields _ p i).2.1⟩)
    (fun i => hu2 i) hB2 (fun c i h => binsErase_subset F bp p c i h)
    ?_ ?_ ?_ (hmp.trans hp_prev) (hmn.trans hm_next) ?_ hmnu_s hins
  · intro j hj
    rw [hfb2e]
    rw [upd_ne _ _ _ _ (by omega), upd_ne _ _ _ _ (by omega)]
  · intro j h1 h2
    rw [hfo2e] at h1
    rw [hfb2e]
    rcases (by omega : j = s.free_offset - 2 ∨ j = s.free_offset - 1) with
      rfl | rfl
    · rw [upd_same]
      simp
    · rw [upd_ne _ _ _ _ (by omega), upd_same]
      simp
  · intro i hi
    have hi' : i = p ∨ i = a.metadata := by simpa using hi
    rcases hi' with rfl | rfl
    · refine ⟨s.free_offset - 2, ?_, by omega, ?_⟩
      · rw [hfo2e]
      · rw [hfb2e, upd_same]
    · refine ⟨s.free_offset - 1, ?_, by omega, ?_⟩
      · rw [hfo2e]
        omega
      · rw [hfb2e, upd_ne _ _ _ _ (by omega), upd_same]
  · intro j k h1 h2 h3
    rw [hfo2e] at h1
    rw [hfb2e]
    rcases (by omega : j = s.free_offset - 2 ∧ k = s.free_offset - 1) with
      ⟨rfl, rfl⟩
    rw [upd_same, upd_ne _ _ _ _ (by omega), upd_same]
    exact hpm
  · intro c hc i hi hns
    refine binsErase_mem_of_ne F bp p c i ?_ hi
    intro he
    exact hns (by simp [he])
  · intro i hi c hc hiF3
    have hi' : i = p ∨ i = a.metadata := by simpa using hi
    rcases hi' with hip | him
    · rw [hip] at hiF3
      exact binsErase_not_mem_self F bp p c (hIW.f_nodup bp hbp)
        (fun hne => hIW.f_disj bp c hbp hc (Ne.symm hne) p hpF) hiF3
    · rw [him] at hiF3
      have hm2 : a.metadata ∈ F c := binsErase_subset F bp p c _ hiF3
      have hfree := bin_member_not_used hc hm2 (hsub28 c hc)
        (hIW.f_hprev c hc) (hIW.f_wire c hc)
      rw [hmu] at hfree
      exact Bool.noConfusion hfree
  · intro i hi hne
    have hi' : i = p ∨ i = a.metadata := by simpa using hi
    rcases hi' with hip | him
    · rw [hip]
      exact hpfree
    · exact absurd him hne
  · intro hne
    rcases List.eq_nil_or_concat' l with rfl | ⟨l2, p2, rfl⟩
    · exact absurd (hmp.trans hp_prev) hne
    · have hmp2 : mp = p2 := by
        rw [hmp.trans hp_prev, List.getLast?_concat]
        rfl
      rw [hmp2]
      have hadj := hIW.adj
      rw [hCr] at hadj
      rcases List.chain'_append.mp hadj with ⟨_, _, hcr2⟩
      rcases hcr2 p2 (by rw [List.getLast?_concat]; rfl) p rfl with h | h
      · exact h
      · rw [hpfree] at h
        exact Bool.noConfusion h

/-- `block_allocator_free`, absorb-next case: the free spatial successor
`q` is unlinked from its bin and the coalesced block is reinserted over
the widened gap. -/
theorem free_case_n (s s4 : State) (hs : List Allocation) (a : Allocation)
    (l r : List Nat) (F : Nat → List Nat) (bq q : Nat) {o sz mp mn : Nat}
    (hIW : InvW s hs (l ++ a.metadata :: q :: r) F)
    (hmem : a ∈ hs)
    (hqfree : block_allocator_is_used (s.blocks q) = false)
    (hbq : bq < 256) (hqF : q ∈ F bq)
    (hmp : mp = (s.blocks a.metadata).mem_prev)
    (hmpu_s : mp ≠ UNUSED → block_allocator_is_used (s.blocks mp) = true)
    (hmn : mn = (s.blocks q).mem_next)
    (hins : block_allocator_insert
      (block_allocator_remove
        { s with free_offset := sub32 s.free_offset 1,
                 free_blocks := upd s.free_blocks (sub32 s.free_offset 1)
                   a.metadata } q) o sz mp mn = some s4) :
    Inv s4 (hs.erase a) := by
  have hfo_le := hIW.fo_le
  have hmaxA := hIW.maxA_le
  have hfoU : s.free_offset < U32 := fo_lt_u32 hfo_le hmaxA
  have hmu : block_allocator_is_used (s.blocks a.metadata) = true :=
    (hIW.h_val a hmem).2.1
  have hfo2p : 2 ≤ s.free_offset := by
    rw [← hIW.c_len]
    simp only [List.length_append, List.length_cons, List.length_nil]
    omega
  have e1 : sub32 s.free_offset 1 = s.free_offset - 1 :=
    sub32_one_eq (by omega) hfoU
  have e2 : sub32 (s.free_offset - 1) 1 = s.free_offset - 2 := by
    rw [sub32_one_eq (by omega) (by omega)]
    omega
  have hsub28 : ∀ c, c < 256 → ∀ i ∈ F c, i < 2 ^ 28 := fun c hc i hi =>
    lt_of_lt_of_le (hIW.c_lt i (hIW.f_sub c hc i hi)) hIW.maxA_le
  have hBs : BinsOk s F := ⟨hsub28, hIW.f_nodup, hIW.f_disj, hIW.f_head,
    hIW.f_hprev, hIW.f_wire, hIW.f_last, hIW.bm⟩
  have hB1 : BinsOk
      { s with free_offset := sub32 s.free_offset 1,
               free_blocks := upd s.free_blocks (sub32 s.free_offset 1)
                 a.metadata }
      F := ⟨hBs.sub28, hBs.nodup, hBs.disj, hBs.head, hBs.hprev, hBs.wire,
        hBs.last, hBs.bm⟩
  obtain ⟨hB2, hu2⟩ := remove_spec _ q bq F hB1 hbq hqF
  have hndr : (a.metadata :: q :: r).Nodup :=
    (List.nodup_append.mp hIW.c_nodup).2.1
  have hqm : q ≠ a.metadata := by
    intro hc
    exact (List.nodup_cons.mp hndr).1 (by rw [← hc]; simp)
  have hfo2e : (block_allocator_remove
      { s with free_offset := sub32 s.free_offset 1,
               free_blocks := upd s.free_blocks (sub32 s.free_offset 1)
                 a.metadata } q).free_offset = s.free_offset - 2 := by
    rw [(remove_stack _ q).1]
    show sub32 (sub32 s.free_offset 1) 1 = _
    rw [e1, e2]
  have hfb2e : (block_allocator_remove
      { s with free_offset := sub32 s.free_offset 1,
               free_blocks := upd s.free_blocks (sub32 s.free_offset 1)
                 a.metadata } q).free_blocks
      = upd (upd s.free_blocks (s.free_offset - 1) a.metadata)
          (s.free_offset - 2) q := by
    rw [(remove_stack _ q).2.1]
    show upd (upd s.free_blocks (sub32 s.free_offset 1) a.metadata)
        (sub32 (sub32 s.free_offset 1) 1) q = _
    rw [e1, e2]
  have hma2 : (block_allocator_remove
      { s with free_offset := sub32 s.free_offset 1,
               free_blocks := upd s.free_blocks (sub32 s.free_offset 1)
                 a.metadata } q).max_allocs = s.max_allocs :=
    (remove_stack _ q).2.2
  have hm_prev : (s.blocks a.metadata).mem_prev = l.getLast?.getD UNUSED := by
    rcases List.eq_nil_or_concat' l with rfl | ⟨l2, p2, rfl⟩
    · have h0 := hIW.mem_head a.metadata (by simp)
      rw [h0]
      rfl
    · rcases List.chain'_append.mp (show List.Chain' (memLink s)
          ((l2 ++ [p2]) ++ a.metadata :: q :: r) from hIW.mem_wire) with
        ⟨_, _, hcr⟩
      have hlk := hcr p2 (by rw [List.getLast?_concat]; rfl) a.metadata rfl
      rw [hlk.2, List.getLast?_concat]
      rfl
  have hq_next : (s.blocks q).mem_next = r.head?.getD UNUSED := by
    rcases r with _ | ⟨y, r2⟩
    · apply hIW.mem_last
      rw [List.getLast?_append_of_ne_nil _ (by simp)]
      rfl
    · have hsuf : List.Chain' (memLink s) (q :: y :: r2) :=
        hIW.mem_wire.suffix ⟨l ++ [a.metadata], by simp⟩
      exact ((List.chain'_cons'.mp hsuf).1 y rfl).1
  have hshape : l ++ a.metadata :: q :: r
      = (l ++ [a.metadata, q]) ++ r := by simp
  have hIW2 : InvW s hs ((l ++ [a.metadata, q]) ++ r) F := by
    rw [← hshape]
    exact hIW
  refine free_assemble s
    (block_allocator_remove
      { s with free_offset := sub32 s.free_offset 1,
               free_blocks := upd s.free_blocks (sub32 s.free_offset 1)
                 a.metadata } q)
    s4 hs a l [a.metadata, q] r F (binsErase F bq q) o sz mp mn hIW2 hmem
    (by simp) hfo2e hma2 ?_ ?_ ?_ ?_
    (fun i => ⟨(remove_mem_fields _ q i).1, (remove_mem_fields _ q i).2.1⟩)
    (fun i => hu2 i) hB2 (fun c i h => binsErase_subset F bq q c i h)
    ?_ ?_ ?_ (hmp.trans hm_prev) (hmn.trans hq_next) hmpu_s ?_ hins
  · intro j hj
    rw [hfb2e]
    rw [upd_ne _ _ _ _ (by omega), upd_ne _ _ _ _ (by omega)]
  · intro j h1 h2
    rw [hfo2e] at h1
    rw [hfb2e]
    rcases (by omega : j = s.free_offset - 2 ∨ j = s.free_offset - 1) with
      rfl | rfl
    · rw [upd_same]
      simp
    · rw [upd_ne _ _ _ _ (by omega), upd_same]
      simp
  · intro i hi
    have hi' : i = a.metadata ∨ i = q := by simpa using hi
    rcases hi' with him | hiq
    · refine ⟨s.free_offset - 1, ?_, by omega, ?_⟩
      · rw [hfo2e]
        omega
      · rw [hfb2e, upd_ne _ _ _ _ (by omega), upd_same, him]
    · refine ⟨s.free_offset - 2, ?_, by omega, ?_⟩
      · rw [hfo2e]
      · rw [hfb2e, upd_same, hiq]
  · intro j k h1 h2 h3
    rw [hfo2e] at h1
    rw [hfb2e]
    rcases (by omega : j = s.free_offset - 2 ∧ k = s.free_offset - 1) with
      ⟨rfl, rfl⟩
    rw [upd_same, upd_ne _ _ _ _ (by omega), upd_same]
    exact hqm
  · intro c hc i hi hns
    refine binsErase_mem_of_ne F bq q c i ?_ hi
    intro he
    exact hns (by simp [he])
  · intro i hi c hc hiF3
    have hi' : i = a.metadata ∨ i = q := by simpa using hi
    rcases hi' with him | hiq
    · rw [him] at hiF3
      have hm2 : a.metadata ∈ F c := binsErase_subset F bq q c _ hiF3
      have hfree := bin_member_not_used hc hm2 (hsub28 c hc)
        (hIW.f_hprev c hc) (hIW.f_wire c hc)
      rw [hmu] at hfree
      exact Bool.noConfusion hfree
    · rw [hiq] at hiF3
      exact binsErase_not_mem_self F bq q c (hIW.f_nodup bq hbq)
        (fun hne => hIW.f_disj bq c hbq hc (Ne.symm hne) q hqF) hiF3
  · intro i hi hne
    have hi' : i = a.metadata ∨ i = q := by simpa using hi
    rcases hi' with him | hiq
    · exact absurd him hne
    · rw [hiq]
      exact hqfree
  · intro hne
    rcases r with _ | ⟨y, r2⟩
    · exact absurd (hmn.trans hq_next) hne
    · have hmn2 : mn = y := hmn.trans hq_next
      rw [hmn2]
      have hsufa : List.Chain' (notBothFree s) (q :: y :: r2) :=
        hIW.adj.suffix ⟨l ++ [a.metadata], by simp⟩
      rcases (List.chain'_cons'.mp hsufa).1 y rfl with h | h
      · rw [hqfree] at h
        exact Bool.noConfusion h
      · exact h

/-- `block_allocator_free`, absorb-both case: both free spatial
neighbours are unlinked from their bins and the triple-coalesced block is
reinserted over the widened gap. -/
theorem free_case_pn (s s4 : State) (hs : List Allocation) (a : Allocation)
    (l r : List Nat) (F : Nat → List Nat) (bp p bq q : Nat)
    {o sz mp mn : Nat}
    (hIW : InvW s hs ((l ++ [p]) ++ a.metadata :: q :: r) F)
    (hmem : a ∈ hs)
    (hpfree : block_allocator_is_used (s.blocks p) = false)
    (hqfree : block_allocator_is_used (s.blocks q) = false)
    (hbp : bp < 256) (hpF : p ∈ F bp)
    (hbq : bq < 256) (hqF : q ∈ F bq)
    (hmp : mp = (s.blocks p).mem_prev)
    (hmn : mn = (s.blocks q).mem_next)
    (hins : block_allocator_insert
      (block_allocator_remove (block_allocator_remove
        { s with free_offset := sub32 s.free_offset 1,
                 free_blocks := upd s.free_blocks (sub32 s.free_offset 1)
                   a.metadata } p) q) o sz mp mn = some s4) :
    Inv s4 (hs.erase a) := by
  have hfo_le := hIW.fo_le
  have hmaxA := hIW.maxA_le
  have hfoU : s.free_offset < U32 := fo_lt_u32 hfo_le hmaxA
  have hmu : block_allocator_is_used (s.blocks a.metadata) = true :=
    (hIW.h_val a hmem).2.1
  have hfo3p : 3 ≤ s.free_offset := by
    rw [← hIW.c_len]
    simp only [List.length_append, List.length_cons, List.length_nil]
    omega
  have e1 : sub32 s.free_offset 1 = s.free_offset - 1 :=
    sub32_one_eq (by omega) hfoU
  have e2 : sub32 (s.free_offset - 1) 1 = s.free_offset - 2 := by
    rw [sub32_one_eq (by omega) (by omega)]
    omega
  have e3 : sub32 (s.free_offset - 2) 1 = s.free_offset - 3 := by
    rw [sub32_one_eq (by omega) (by omega)]
    omega
  have hsub28 : ∀ c, c < 256 → ∀ i ∈ F c, i < 2 ^ 28 := fun c hc i hi =>
    lt_of_lt_of_le (hIW.c_lt i (hIW.f_sub c hc i hi)) hIW.maxA_le
  have hBs : BinsOk s F := ⟨hsub28, hIW.f_nodup, hIW.f_disj, hIW.f_head,
    hIW.f_hprev, hIW.f_wire, hIW.f_last, hIW.bm⟩
  have hB1 : BinsOk
      { s with free_offset := sub32 s.free_offset 1,
               free_blocks := upd s.free_blocks (sub32 s.free_offset 1)
                 a.metadata }
      F := ⟨hBs.sub28, hBs.nodup, hBs.disj, hBs.head, hBs.hprev, hBs.wire,
        hBs.last, hBs.bm⟩
  have hpm : p ≠ a.metadata := by
    intro hc
    rcases List.nodup_append.mp hIW.c_nodup with ⟨_, _, hdisj⟩
    exact hdisj (show p ∈ l ++ [p] by simp)
      (show p ∈ a.metadata :: q :: r by rw [hc]; simp)
  have hpq : q ≠ p := by
    intro hc
    rcases List.nodup_append.mp hIW.c_nodup with ⟨_, _, hdisj⟩
    exact hdisj (show p ∈ l ++ [p] by simp)
      (show p ∈ a.metadata :: q :: r by rw [← hc]; simp)
  have hndr : (a.metadata :: q :: r).Nodup :=
    (List.nodup_append.mp hIW.c_nodup).2.1
  have hqm : q ≠ a.metadata := by
    intro hc
    exact (List.nodup_cons.mp hndr).1 (by rw [← hc]; simp)
  obtain ⟨hB2, hu2⟩ := remove_spec _ p bp F hB1 hbp hpF
  have hqF2 : q ∈ binsErase F bp p bq :=
    binsErase_mem_of_ne F bp p bq q hpq hqF
  obtain ⟨hB3, hu3⟩ := remove_spec _ q bq (binsErase F bp p) hB2 hbq hqF2
  have hCr : (l ++ [p]) ++ a.metadata :: q :: r
      = l ++ p :: a.metadata :: q :: r := by
    simp
  have hfo3e : (block_allocator_remove (block_allocator_remove
      { s with free_offset := sub32 s.free_offset 1,
               free_blocks := upd s.free_blocks (sub32 s.free_offset 1)
                 a.metadata } p) q).free_offset = s.free_offset - 3 := by
    rw [(remove_stack _ q).1, (remove_stack _ p).1]
    show sub32 (sub32 (sub32 s.free_offset 1) 1) 1 = _
    rw [e1, e2, e3]
  have hfb3e : (block_allocator_remove (block_allocator_remove
      { s with free_offset := sub32 s.free_offset 1,
               free_blocks := upd s.free_blocks (sub32 s.free_offset 1)
                 a.metadata } p) q).free_blocks
      = upd (upd (upd s.free_blocks (s.free_offset - 1) a.metadata)
          (s.free_offset - 2) p) (s.free_offset - 3) q := by
    rw [(remove_stack _ q).2.1, (remove_stack _ p).2.1, (remove_stack _ p).1]
    show upd (upd (upd s.free_blocks (sub32 s.free_offset 1) a.metadata)
        (sub32 (sub32 s.free_offset 1) 1) p)
        (sub32 (sub32 (sub32 s.free_offset 1) 1) 1) q = _
    rw [e1, e2, e3]
  have hma3 : (block_allocator_remove (block_allocator_remove
      { s with free_offset := sub32 s.free_offset 1,
               free_blocks := upd s.free_blocks (sub32 s.free_offset 1)
                 a.metadata } p) q).max_allocs = s.max_allocs :=
    ((remove_stack _ q).2.2).trans ((remove_stack _ p).2.2)
  have hp_prev : (s.blocks p).mem_prev = l.getLast?.getD UNUSED := by
    rcases List.eq_nil_or_concat' l with rfl | ⟨l2, p2, rfl⟩
    · have h0 := hIW.mem_head p (by simp)
      rw [h0]
      rfl
    · have hw := hIW.mem_wire
      rw [hCr] at hw
      rcases List.chain'_append.mp hw with ⟨_, _, hcr⟩
      have hlk := hcr p2 (by rw [List.getLast?_concat]; rfl) p rfl
      rw [hlk.2, List.getLast?_concat]
      rfl
  have hq_next : (s.blocks q).mem_next = r.head?.getD UNUSED := by
    rcases r with _ | ⟨y, r2⟩
    · apply hIW.mem_last
      rw [List.getLast?_append_of_ne_nil _ (by simp)]
      rfl
    · have hsuf : List.Chain' (memLink s) (q :: y :: r2) :=
        hIW.mem_wire.suffix ⟨(l ++ [p]) ++ [a.metadata], by simp⟩
      exact ((List.chain'_cons'.mp hsuf).1 y rfl).1
  have hshape : (l ++ [p]) ++ a.metadata :: q :: r
      = (l ++ [p, a.metadata, q]) ++ r := by simp
  have hIW2 : InvW s hs ((l ++ [p, a.metadata, q]) ++ r) F := by
    rw [← hshape]
    exact hIW
  refine free_assemble s
    (block_allocator_remove (block_allocator_remove
      { s with free_offset := sub32 s.free_offset 1,
               free_blocks := upd s.free_blocks (sub32 s.free_offset 1)
                 a.metadata } p) q)
    s4 hs a l [p, a.metadata, q] r F
    (binsErase (binsErase F bp p) bq q) o sz mp mn hIW2 hmem
    (by simp) hfo3e hma3 ?_ ?_ ?_ ?_
    (fun i => ⟨((remove_mem_fields _ q i).1).trans
        ((remove_mem_fields _ p i).1),
      ((remove_mem_fields _ q i).2.1).trans ((remove_mem_fields _ p i).2.1)⟩)
    (fun i => (hu3 i).trans (hu2 i)) hB3
    (fun c i h => binsErase_subset F bp p c i
      (binsErase_subset (binsErase F bp p) bq q c i h))
    ?_ ?_ ?_ (hmp.trans hp_prev) (hmn.trans hq_next) ?_ ?_ hins
  · intro j hj
    rw [hfb3e]
    rw [upd_ne _ _ _ _ (by omega), upd_ne _ _ _ _ (by omega),
      upd_ne _ _ _ _ (by omega)]
  · intro j h1 h2
    rw [hfo3e] at h1
    rw [hfb3e]
    rcases (by omega : j = s.free_offset - 3 ∨ j = s.free_offset - 2 ∨
      j = s.free_offset - 1) with rfl | rfl | rfl
    · rw [upd_same]
      simp
    · rw [upd_ne _ _ _ _ (by omega), upd_same]
      simp
    · rw [upd_ne _ _ _ _ (by omega), upd_ne _ _ _ _ (by omega), upd_same]
      simp
  · intro i hi
    have hi' : i = p ∨ i = a.metadata ∨ i = q := by simpa using hi
    rcases hi' with hip | him | hiq
    · refine ⟨s.free_offset - 2, ?_, by omega, ?_⟩
      · rw [hfo3e]
        omega
      · rw [hfb3e, upd_ne _ _ _ _ (by omega), upd_same, hip]
    · refine ⟨s.free_offset - 1, ?_, by omega, ?_⟩
      · rw [hfo3e]
        omega
      · rw [hfb3e, upd_ne _ _ _ _ (by omega), upd_ne _ _ _ _ (by omega),
          upd_same, him]
    · refine ⟨s.free_offset - 3, ?_, by omega, ?_⟩
      · rw [hfo3e]
      · rw [hfb3e, upd_same, hiq]
  · intro j k h1 h2 h3
    rw [hfo3e] at h1
    rw [hfb3e]
    rcases (by omega : (j = s.free_offset - 3 ∧ k = s.free_offset - 2) ∨
      (j = s.free_offset - 3 ∧ k = s.free_offset - 1) ∨
      (j = s.free_offset - 2 ∧ k = s.free_offset - 1)) with
      ⟨rfl, rfl⟩ | ⟨rfl, rfl⟩ | ⟨rfl, rfl⟩
    · rw [upd_same, upd_ne _ _ _ _ (by omega), upd_same]
      exact hpq
    · rw [upd_same, upd_ne _ _ _ _ (by omega), upd_ne _ _ _ _ (by omega),
        upd_same]
      exact hqm
    · rw [upd_ne _ _ _ _ (by omega), upd_same, upd_ne _ _ _ _ (by omega),
        upd_ne _ _ _ _ (by omega), upd_same]
      exact hpm
  · intro c hc i hi hns
    refine binsErase_mem_of_ne (binsErase F bp p) bq q c i ?_
      (binsErase_mem_of_ne F bp p c i ?_ hi)
    · intro he
      exact hns (by simp [he])
    · intro he
      exact hns (by simp [he])
  · intro i hi c hc hiF3
    have hi' : i = p ∨ i = a.metadata ∨ i = q := by simpa using hi
    rcases hi' with hip | him | hiq
    · rw [hip] at hiF3
      exact binsErase_not_mem_self F bp p c (hIW.f_nodup bp hbp)
        (fun hne => hIW.f_disj bp c hbp hc (Ne.symm hne) p hpF)
        (binsErase_subset (binsErase F bp p) bq q c p hiF3)
    · rw [him] at hiF3
      have hm2 : a.metadata ∈ F c := binsErase_subset F bp p c _
        (binsErase_subset (binsErase F bp p) bq q c _ hiF3)
      have hfree := bin_member_not_used hc hm2 (hsub28 c hc)
        (hIW.f_hprev c hc) (hIW.f_wire c hc)
      rw [hmu] at hfree
      exact Bool.noConfusion hfree
    · rw [hiq] at hiF3
      exact binsErase_not_mem_self (binsErase F bp p) bq q c
        (hB2.nodup bq hbq)
        (fun hne => hB2.disj bq c hbq hc (Ne.symm hne) q hqF2) hiF3
  · intro i hi hne
    have hi' : i = p ∨ i = a.metadata ∨ i = q := by simpa using hi
    rcases hi' with hip | him | hiq
    · rw [hip]
      exact hpfree
    · exact absurd him hne
    · rw [hiq]
      exact hqfree
  · intro hne
    rcases List.eq_nil_or_concat' l with rfl | ⟨l2, p2, rfl⟩
    · exact absurd (hmp.trans hp_prev) hne
    · have hmp2 : mp = p2 := by
        rw [hmp.trans hp_prev, List.getLast?_concat]
        rfl
      rw [hmp2]
      have hadj := hIW.adj
      rw [hCr] at hadj
      rcases List.chain'_append.mp hadj with ⟨_, _, hcr2⟩
      rcases hcr2 p2 (by rw [List.getLast?_concat]; rfl) p rfl with h | h
      · exact h
      · rw [hpfree] at h
        exact Bool.noConfusion h
  · intro hne
    rcases r with _ | ⟨y, r2⟩
    · exact absurd (hmn.trans hq_next) hne
    · have hmn2 : mn = y := hmn.trans hq_next
      rw [hmn2]
      have hsufa : List.Chain' (notBothFree s) (q :: y :: r2) :=
        hIW.adj.suffix ⟨(l ++ [p]) ++ [a.metadata], by simp⟩
      rcases (List.chain'_cons'.mp hsufa).1 y rfl with h | h
      · rw [hqfree] at h
        exact Bool.noConfusion h
      · exact h

/-- `block_allocator_free` preserves the data-structure invariant and
drops the freed handle. -/
theorem free_spec (s : State) (hs : List Allocation) (a : Allocation)
    (hI : Inv s hs) (hmem : a ∈ hs) :
    Inv (block_allocator_free s a) (hs.erase a) := by
  obtain ⟨C, F, hIW⟩ := hI
  obtain ⟨hmC, hmu, hasz⟩ := hIW.h_val a hmem
  obtain ⟨l1, r1, hCs⟩ := List.append_of_mem hmC
  subst hCs
  have hfo_le := hIW.fo_le
  have hmaxA := hIW.maxA_le
  have hfoU : s.free_offset < U32 := fo_lt_u32 hfo_le hmaxA
  have hsub28 : ∀ c, c < 256 → ∀ i ∈ F c, i < 2 ^ 28 := fun c hc i hi =>
    lt_of_lt_of_le (hIW.c_lt i (hIW.f_sub c hc i hi)) hIW.maxA_le
  have hBs : BinsOk s F := ⟨hsub28, hIW.f_nodup, hIW.f_disj, hIW.f_head,
    hIW.f_hprev, hIW.f_wire, hIW.f_last, hIW.bm⟩
  have hB1 : BinsOk
      { s with free_offset := sub32 s.free_offset 1,
               free_blocks := upd s.free_blocks (sub32 s.free_offset 1)
                 a.metadata }
      F := ⟨hBs.sub28, hBs.nodup, hBs.disj, hBs.head, hBs.hprev, hBs.wire,
        hBs.last, hBs.bm⟩
  have hm_prev : (s.blocks a.metadata).mem_prev = l1.getLast?.getD UNUSED := by
    rcases List.eq_nil_or_concat' l1 with hl | ⟨l2, p2, hl⟩
    · subst hl
      have h0 := hIW.mem_head a.metadata (by simp)
      rw [h0]
      rfl
    · subst hl
      rcases List.chain'_append.mp (show List.Chain' (memLink s)
          ((l2 ++ [p2]) ++ a.metadata :: r1) from hIW.mem_wire) with
        ⟨_, _, hcr⟩
      have hlk := hcr p2 (by rw [List.getLast?_concat]; rfl) a.metadata rfl
      rw [hlk.2, List.getLast?_concat]
      rfl
  have hm_next : (s.blocks a.metadata).mem_next = r1.head?.getD UNUSED := by
    rcases r1 with _ | ⟨y, r2⟩
    · apply hIW.mem_last
      rw [List.getLast?_append_of_ne_nil _ (by simp)]
      rfl
    · have hsuf : List.Chain' (memLink s) (a.metadata :: y :: r2) :=
        hIW.mem_wire.suffix ⟨l1, rfl⟩
      exact ((List.chain'_cons'.mp hsuf).1 y rfl).1
  unfold block_allocator_free
  dsimp only
  rw [if_neg hasz]
  split_ifs with hP hN hN2
  · -- absorb both neighbours
    have hPne := hP.1
    have hpfree0 : block_allocator_is_used
        (s.blocks (s.blocks a.metadata).mem_prev) = false := by
      simpa using hP.2
    rcases List.eq_nil_or_concat' l1 with rfl | ⟨l2, p0, rfl⟩
    · rw [hm_prev] at hPne
      simp at hPne
    · have hp0 : (s.blocks a.metadata).mem_prev = p0 := by
        rw [hm_prev, List.getLast?_concat]
        rfl
      have hNne := hN.1
      rcases r1 with _ | ⟨q0, r2⟩
      · rw [hm_next] at hNne
        simp at hNne
      · have hq0 : (s.blocks a.metadata).mem_next = q0 := by
          rw [hm_next]
          rfl
        rw [hp0] at hpfree0
        rw [hp0, hq0] at hN ⊢
        have hp0C : p0 ∈ (l2 ++ [p0]) ++ a.metadata :: q0 :: r2 := by simp
        rcases hIW.free_in_bin p0 hp0C with hpu | ⟨bp, hbp, hpF⟩
        · rw [hpfree0] at hpu
          exact Bool.noConfusion hpu
        · obtain ⟨hB2, hu2⟩ := remove_spec _ p0 bp F hB1 hbp hpF
          have hqfree0 : block_allocator_is_used (s.blocks q0) = false := by
            have h2 := hN.2
            rw [hu2 q0] at h2
            simpa using h2
          have hq0C : q0 ∈ (l2 ++ [p0]) ++ a.metadata :: q0 :: r2 := by simp
          rcases hIW.free_in_bin q0 hq0C with hqu | ⟨bq, hbq, hqF⟩
          · rw [hqfree0] at hqu
            exact Bool.noConfusion hqu
          · split
            · next s4 heq =>
                exact free_case_pn s s4 hs a l2 r2 F bp p0 bq q0 hIW hmem
                  hpfree0 hqfree0 hbp hpF hbq hqF rfl
                  ((remove_mem_fields
                    { s with free_offset := sub32 s.free_offset 1,
                             free_blocks := upd s.free_blocks
                               (sub32 s.free_offset 1) a.metadata }
                    p0 q0).2.1) heq
            · next heq =>
                refine absurd heq (insert_ne_none _ _ _ _ _ ?_)
                have hfo3p : 3 ≤ s.free_offset := by
                  rw [← hIW.c_len]
                  simp only [List.length_append, List.length_cons,
                    List.length_nil]
                  omega
                have e1 : sub32 s.free_offset 1 = s.free_offset - 1 :=
                  sub32_one_eq (by omega) hfoU
                have e2 : sub32 (s.free_offset - 1) 1 = s.free_offset - 2 := by
                  rw [sub32_one_eq (by omega) (by omega)]
                  omega
                have e3 : sub32 (s.free_offset - 2) 1 = s.free_offset - 3 := by
                  rw [sub32_one_eq (by omega) (by omega)]
                  omega
                rw [(remove_stack _ q0).1, (remove_stack _ p0).1,
                  (remove_stack _ q0).2.2, (remove_stack _ p0).2.2]
                show sub32 (sub32 (sub32 s.free_offset 1) 1) 1
                  ≠ s.max_allocs
                rw [e1, e2, e3]
                omega
  · -- absorb previous neighbour only
    have hPne := hP.1
    have hpfree0 : block_allocator_is_used
        (s.blocks (s.blocks a.metadata).mem_prev) = false := by
      simpa using hP.2
    rcases List.eq_nil_or_concat' l1 with rfl | ⟨l2, p0, rfl⟩
    · rw [hm_prev] at hPne
      simp at hPne
    · have hp0 : (s.blocks a.metadata).mem_prev = p0 := by
        rw [hm_prev, List.getLast?_concat]
        rfl
      rw [hp0] at hpfree0
      rw [hp0] at hN ⊢
      have hp0C : p0 ∈ (l2 ++ [p0]) ++ a.metadata :: r1 := by simp
      rcases hIW.free_in_bin p0 hp0C with hpu | ⟨bp, hbp, hpF⟩
      · rw [hpfree0] at hpu
        exact Bool.noConfusion hpu
      · obtain ⟨hB2, hu2⟩ := remove_spec _ p0 bp F hB1 hbp hpF
        have hmnu_s : (s.blocks a.metadata).mem_next ≠ UNUSED →
            block_allocator_is_used
              (s.blocks ((s.blocks a.metadata).mem_next)) = true := by
          intro hne
          by_contra hcon
          apply hN
          exact ⟨hne, fun hcc => hcon ((hu2 _).symm.trans hcc)⟩
        split
        · next s4 heq =>
            exact free_case_p s s4 hs a l2 r1 F bp p0 hIW hmem hpfree0 hbp
              hpF rfl rfl hmnu_s heq
        · next heq =>
            refine absurd heq (insert_ne_none _ _ _ _ _ ?_)
            have hfo2p : 2 ≤ s.free_offset := by
              rw [← hIW.c_len]
              simp only [List.length_append, List.length_cons,
                List.length_nil]
              omega
            have e1 : sub32 s.free_offset 1 = s.free_offset - 1 :=
              sub32_one_eq (by omega) hfoU
            have e2 : sub32 (s.free_offset - 1) 1 = s.free_offset - 2 := by
              rw [sub32_one_eq (by omega) (by omega)]
              omega
            rw [(remove_stack _ p0).1, (remove_stack _ p0).2.2]
            show sub32 (sub32 s.free_offset 1) 1 ≠ s.max_allocs
            rw [e1, e2]
            omega
  · -- absorb next neighbour only
    have hqfree0 : block_allocator_is_used
        (s.blocks (s.blocks a.metadata).mem_next) = false := by
      simpa using hN2.2
    have hNne := hN2.1
    rcases r1 with _ | ⟨q0, r2⟩
    · rw [hm_next] at hNne
      simp at hNne
    · have hq0 : (s.blocks a.metadata).mem_next = q0 := by
        rw [hm_next]
        rfl
      rw [hq0] at hqfree0
      rw [hq0]
      have hq0C : q0 ∈ l1 ++ a.metadata :: q0 :: r2 := by simp
      rcases hIW.free_in_bin q0 hq0C with hqu | ⟨bq, hbq, hqF⟩
      · rw [hqfree0] at hqu
        exact Bool.noConfusion hqu
      · have hmpu_s : (s.blocks a.metadata).mem_prev ≠ UNUSED →
            block_allocator_is_used
              (s.blocks ((s.blocks a.metadata).mem_prev)) = true := by
          intro hne
          by_contra hcon
          exact hP ⟨hne, hcon⟩
        split
        · next s4 heq =>
            exact free_case_n s s4 hs a l1 r2 F bq q0 hIW hmem hqfree0 hbq
              hqF rfl hmpu_s rfl heq
        · next heq =>
            refine absurd heq (insert_ne_none _ _ _ _ _ ?_)
            have hfo2p : 2 ≤ s.free_offset := by
              rw [← hIW.c_len]
              simp only [List.length_append, List.length_cons,
                List.length_nil]
              omega
            have e1 : sub32 s.free_offset 1 = s.free_offset - 1 :=
              sub32_one_eq (by omega) hfoU
            have e2 : sub32 (s.free_offset - 1) 1 = s.free_offset - 2 := by
              rw [sub32_one_eq (by omega) (by omega)]
              omega
            rw [(remove_stack _ q0).1, (remove_stack _ q0).2.2]
            show sub32 (sub32 s.free_offset 1) 1 ≠ s.max_allocs
            rw [e1, e2]
            omega
  · -- no coalescing
    have hmpu_s : (s.blocks a.metadata).mem_prev ≠ UNUSED →
        block_allocator_is_used
          (s.blocks ((s.blocks a.metadata).mem_prev)) = true := by
      intro hne
      by_contra hcon
      exact hP ⟨hne, hcon⟩
    have hmnu_s : (s.blocks a.metadata).mem_next ≠ UNUSED →
        block_allocator_is_used
          (s.blocks ((s.blocks a.metadata).mem_next)) = true := by
      intro hne
      by_contra hcon
      exact hN2 ⟨hne, hcon⟩
    split
    · next s4 heq =>
        exact free_case0 s s4 hs a l1 r1 F hIW hmem rfl rfl hmpu_s hmnu_s
          heq
    · next heq =>
        refine absurd heq (insert_ne_none _ _ _ _ _ ?_)
        have hfo1 : 1 ≤ s.free_offset := by
          rw [← hIW.c_len]
          simp only [List.length_append, List.length_cons, List.length_nil]
          omega
        show sub32 s.free_offset 1 ≠ s.max_allocs
        rw [sub32_one_eq (by omega) hfoU]
        omega

/-- `block_allocator_init` establishes the data-structure invariant with
no outstanding handles. -/
theorem inv_init (total maxA : Nat) (h1 : 1 ≤ total) (h2 : total < U32)
    (h3 : 0 < maxA) (h4 : maxA ≤ 2 ^ 28) :
    Inv (block_allocator_init total maxA) [] := by
  unfold block_allocator_init
  dsimp only
  split
  · next s1 heq =>
      refine ⟨_, _, insert_spec _ s1 0 total UNUSED UNUSED _ [] []
        (fun _ => []) [] heq rfl (Nat.zero_le _) h4 List.nodup_nil
        (by intro i hi; simp at hi) rfl
        (by intro j hj1 hj2; exact ⟨hj2, by simp⟩)
        (by intro j k hj1 hj2 hj3; show j ≠ k; omega)
        (by intro i hi1 hi2; exact ⟨i, Nat.zero_le _, hi1, rfl⟩)
        rfl rfl List.chain'_nil List.chain'_nil
        (by intro h hh; simp at hh) (by intro t ht; simp at ht)
        List.chain'_nil List.chain'_nil
        (fun h => absurd rfl h) (fun h => absurd rfl h)
        (by intro c hc i hi; simp at hi) (fun c hc => List.nodup_nil)
        (by intro c c' h1 h2 h3 i hi; simp at hi) (fun c hc => rfl)
        (by intro c hc h hh; simp at hh) (fun c hc => List.chain'_nil)
        (by intro c hc t ht; simp at ht) (by intro i hi; simp at hi)
        (by
          refine ⟨?_, ?_, ?_, ?_⟩
          · show (0 : Nat) < 2 ^ 32
            norm_num
          · intro t ht
            show (0 : Nat) < 256
            norm_num
          · intro t ht
            show Nat.testBit 0 t = true ↔ (0 : Nat) ≠ 0
            simp
          · intro t ht b hb
            show Nat.testBit 0 b = true ↔ UNUSED ≠ UNUSED
            simp)
        (by intro a ha; simp at ha) List.nodup_nil⟩
  · next heq =>
      exact absurd heq (insert_ne_none _ _ _ _ _ (by
        show (0 : Nat) ≠ maxA
        omega))

/-- Every reachable state satisfies the data-structure invariant. -/
theorem inv_preserved (s : State) (hs : List Allocation)
    (hr : Reachable s hs) : Inv s hs := by
  induction hr with
  | init total maxA h1 h2 h3 h4 => exact inv_init total maxA h1 h2 h3 h4
  | alloc s hs size a hr hsucc ih => exact alloc_spec s hs size a ih hsucc
  | free s hs a hr hmem ih => exact free_spec s hs a ih hmem

/-- The data-structure invariant implies the no-adjacent-free-blocks
property. -/
theorem inv_noAdjacentFree (s : State) (hs : List Allocation)
    (hI : Inv s hs) : noAdjacentFree s := by
  obtain ⟨C, F, hIW⟩ := hI
  intro i hlive hfree
  have hiC : i ∈ C := by
    by_contra hnc
    obtain ⟨j, hj1, hj2, hj3⟩ := hIW.stack_complete i hlive.1 hnc
    exact hlive.2 j hj1 hj2 hj3
  obtain ⟨l1, r1, hCs⟩ := List.append_of_mem hiC
  subst hCs
  constructor
  · rcases List.eq_nil_or_concat' l1 with rfl | ⟨l2, p2, rfl⟩
    · left
      exact hIW.mem_head i (by simp)
    · right
      have hp : (s.blocks i).mem_prev = p2 := by
        rcases List.chain'_append.mp (show List.Chain' (memLink s)
            ((l2 ++ [p2]) ++ i :: r1) from hIW.mem_wire) with ⟨_, _, hcr⟩
        exact (hcr p2 (by rw [List.getLast?_concat]; rfl) i rfl).2
      rw [hp]
      rcases List.chain'_append.mp (show List.Chain' (notBothFree s)
          ((l2 ++ [p2]) ++ i :: r1) from hIW.adj) with ⟨_, _, hcr2⟩
      rcases hcr2 p2 (by rw [List.getLast?_concat]; rfl) i rfl with h | h
      · exact h
      · rw [hfree] at h
        exact Bool.noConfusion h
  · rcases r1 with _ | ⟨y, r2⟩
    · left
      apply hIW.mem_last
      rw [List.getLast?_append_of_ne_nil _ (by simp)]
      rfl
    · right
      have hq : (s.blocks i).mem_next = y :=
        ((List.chain'_cons'.mp (hIW.mem_wire.suffix ⟨l1, rfl⟩)).1 y rfl).1
      rw [hq]
      rcases (List.chain'_cons'.mp (hIW.adj.suffix ⟨l1, rfl⟩)).1 y rfl with
        h | h
      · rw [hfree] at h
        exact Bool.noConfusion h
      · exact h

/-- C7: in every allocator state reachable from `init` by successful
`alloc` calls and `free` calls on outstanding allocations, no two
spatially adjacent blocks are both free: every live free block's
`mem_prev`/`mem_next` neighbours are used blocks or the chain boundary
(`free` coalesces a freed block with its free spatial neighbours). -/
theorem c7_no_adjacent_free (s : State) (hs : List Allocation)
    (hr : Reachable s hs) : noAdjacentFree s :=
  inv_noAdjacentFree s hs (inv_preserved s hs hr)

/-- C7 witness: the freshly initialised allocator over 11 bytes with the
C macro's pool size is reachable, and the theorem applies to it. -/
theorem c7_no_adjacent_free_witness :
    Reachable (block_allocator_init 11 131072) [] ∧
      noAdjacentFree (block_allocator_init 11 131072) :=
  ⟨Reachable.init 11 131072 (by decide) (by decide) (by decide) (by decide),
   c7_no_adjacent_free (block_allocator_init 11 131072) []
     (Reachable.init 11 131072 (by decide) (by decide) (by decide)
       (by decide))⟩

/-- C9: an alloc/free round trip that does not restore the
spatial-chain state.  In the reachable state `exW2` (built by successful
calls `init 11; alloc 9; alloc 9; alloc 1879048178`, the second `alloc 9`
exercising the remainder-underflow bug), `alloc 2415919100` succeeds and
its remainder split computes wrapped offset `1879048196 + 2415919100 ≡ 0
(mod 2^32)`, so `insert` reassigns `head_block` to the new block;
immediately freeing the returned allocation re-inserts the coalesced
block at its nonzero offset and leaves `head_block` pointing at the
chain's *last* block: the public `head`/`next` traversal sees one block
of wrapped offset 1879048196 instead of the four blocks seen before the
`alloc`, and `head_block` (0 before, 4 after) is not an index renaming of
the same chain position. -/
theorem c9_roundtrip_not_restored :
    (block_allocator_alloc exS1 9).2.isSome = true ∧
    (block_allocator_alloc exS2 9).2.isSome = true ∧
    (block_allocator_alloc exS3 1879048178).2.isSome = true ∧
    (block_allocator_alloc exW2 2415919100).2 =
      some ⟨1879048196, 2415919100, 3⟩ ∧
    exW2.head_block = 0 ∧
    exW4.head_block = 4 ∧
    exW4.free_offset = exW2.free_offset ∧
    (spatialChain exW2 10).map (fun b => (b.offset, b.size)) =
      [(0, 9), (9, 9), (18, 1879048178), (1879048196, 2415919111)] ∧
    (spatialChain exW4 10).map (fun b => (b.offset, b.size)) =
      [(1879048196, 2415919111)] := by decide

/-- C3 witness: the amended iff instantiated at the fresh allocator over
11 bytes and a request of 9 bytes (its hypotheses checked by `decide`). -/
theorem c3_alloc_fail_iff_witness :
    ((block_allocator_alloc exS1 9).2 = none ↔
      (9 : Nat) = 0 ∨
      ∀ j, j < 256 → (size_to_bin_index 9).1 < j →
        exS1.bin_lists j = UNUSED) :=
  c3_alloc_fail_iff exS1 9 (by decide) (by decide)

end BlockAllocator
